import Mathlib

/-!
Verification development for the sundown Markdown library
(`src/src/markdown.c`, `src/src/buffer.c`, `src/html/houdini_html_e.c`,
`src/html/html.c`).

Bytes are modelled as `Nat` (the C code treats them as unsigned octets),
byte buffers as `List Nat`.  Allocation is assumed to succeed throughout
(the C code's `bufgrow`/`malloc` failure paths are the explicit proviso of
the claims under study), so `bufput`/`bufputc` are plain list appends.

Loops of the C code are translated as follows:

* pure forward scans (`while (i < size && P(data[i])) i++;`) become
  `takeWhile`-style counts over the suffix of the byte list;
* loops with a body whose per-iteration progress is syntactically evident
  (an index that is incremented on every path) become structural
  recursions on a countdown that is initialised to the loop variant's
  upper bound, with the loop-exit value as base case;
* the parser's mutually recursive core (`parse_block`, `parse_inline` and
  the trigger/block helpers) is one family of functions structurally
  recursive on a fuel counter `gas`, returning
  `Except Fail _`: `Fail.gas` marks fuel exhaustion, while
  `Fail.progress` marks a loop iteration that failed to advance its
  index (the situation in which the C code would loop forever).  The
  first-pass line scanner of `sd_markdown_render` is translated the same
  way.  Termination of the C loops is then the theorem that
  `Fail.progress` is unreachable.

Code of the repository that is not under `src/` (the perfect-hash
`find_block_tag` of `html_blocks.h`, the `sd_autolink__*` helpers of
`autolink.c`, and the flag constants of `markdown.h`) is modelled from
the spec, as noted at the respective definitions.
-/

namespace Sundown

/-- Byte access `data[i]`; all reachable reads of the C code are in
bounds, out-of-range reads yield 0. -/
def bget (d : List Nat) (i : Nat) : Nat := d.getD i 0

/-- C `_isspace` from markdown.c: space or newline only. -/
def isspaceB (c : Nat) : Bool := c == 32 || c == 10

/-- C `isalnum` on ASCII bytes. -/
def isalnumB (c : Nat) : Bool :=
  (48 ≤ c && c ≤ 57) || (65 ≤ c && c ≤ 90) || (97 ≤ c && c ≤ 122)

/-- C `tolower` on ASCII bytes. -/
def tolowerB (c : Nat) : Nat := if 65 ≤ c ∧ c ≤ 90 then c + 32 else c

/-- Window of `len` bytes of `d` starting at absolute position `b`
(the C pointer-plus-size pair `(data + b, len)`). -/
def win (d : List Nat) (b len : Nat) : List Nat := (d.drop b).take len

/-! ## buffer.c -/

/-- Loop of `bufprefix` (buffer.c:35-50): walk the buffer's bytes;
reaching the terminating NUL of `prefix` (modelled as running off the end
of the prefix byte list) returns 0, a mismatch returns the byte
difference, exhausting the buffer returns 0. -/
def bufprefixLoop : List Nat → List Nat → Int
  | [], _ => 0
  | _ :: _, [] => 0
  | b :: bs, p :: ps => if b = p then bufprefixLoop bs ps else (b : Int) - (p : Int)

/-- `bufprefix(buf, prefix)` (buffer.c:35-50); `buf` is the buffer's
`size` bytes, `p` the bytes of the NUL-terminated prefix string. -/
def bufprefix (buf p : List Nat) : Int := bufprefixLoop buf p

/-- Byte string `"mailto:"`, the prefix tested by `rndr_autolink`
(html.c:111). -/
def mailtoBytes : List Nat := [109, 97, 105, 108, 116, 111, 58]

/-- Mailto detection of `rndr_autolink` (html.c:111):
`bufprefix(link, "mailto:") == 0`. -/
def rndrAutolinkMailtoDetected (link : List Nat) : Bool :=
  bufprefix link mailtoBytes == 0

/-! ## houdini_html_e.c -/

/-- `HTML_ESCAPE_TABLE` (houdini_html_e.c:20-37) as a function: the only
non-zero entries are `"` ↦ 1, `&` ↦ 2, `'` ↦ 3, `/` ↦ 4, `<` ↦ 5,
`>` ↦ 6. -/
def HTML_ESCAPE_TABLE (c : Nat) : Nat :=
  if c = 34 then 1
  else if c = 38 then 2
  else if c = 39 then 3
  else if c = 47 then 4
  else if c = 60 then 5
  else if c = 62 then 6
  else 0

/-- `HTML_ESCAPES` (houdini_html_e.c:39-47): index 0 is the unused empty
entry, then `&quot; &amp; &#39; &#47; &lt; &gt;` as byte strings. -/
def HTML_ESCAPES (n : Nat) : List Nat :=
  match n with
  | 1 => [38, 113, 117, 111, 116, 59]
  | 2 => [38, 97, 109, 112, 59]
  | 3 => [38, 35, 51, 57, 59]
  | 4 => [38, 35, 52, 55, 59]
  | 5 => [38, 108, 116, 59]
  | 6 => [38, 103, 116, 59]
  | _ => []

/-- Clean byte for the escape loop: table entry 0 (copied verbatim). -/
def houdiniClean (c : Nat) : Bool := HTML_ESCAPE_TABLE c == 0

/-- Main loop of `houdini_escape_html0` (houdini_html_e.c:58-78), on the
suffix `rest` of the source that starts at the loop index `i`.  Each
iteration copies the maximal run of non-escapable bytes (`i > org`
bulk `bufput`), stops if the source is exhausted, and otherwise rewrites
the single escapable byte (`/` stays itself when not secure).  `fuel`
bounds the number of iterations; every iteration consumes at least one
source byte, so `fuel = size` suffices. -/
def houdiniLoop (secure : Bool) : Nat → List Nat → List Nat → List Nat
  | 0, _, ob => ob
  | _ + 1, [], ob => ob
  | fuel + 1, r :: rs, ob =>
    let run := (r :: rs).takeWhile houdiniClean
    let ob1 := ob ++ run
    match (r :: rs).dropWhile houdiniClean with
    | [] => ob1
    | c :: rest2 =>
      let ob2 := if c = 47 ∧ secure = false then ob1 ++ [47]
                 else ob1 ++ HTML_ESCAPES (HTML_ESCAPE_TABLE c)
      houdiniLoop secure fuel rest2 ob2

/-- `houdini_escape_html0(ob, src, size, secure)`
(houdini_html_e.c:49-79), assuming the initial `bufgrow` succeeds. -/
def houdini_escape_html0 (ob src : List Nat) (secure : Bool) : List Nat :=
  houdiniLoop secure src.length src ob

/-- Per-byte escape image described by the spec: the six mapped bytes
become their entities (`/` only when secure), everything else is copied
unchanged. -/
def escapeByteSpec (secure : Bool) (c : Nat) : List Nat :=
  if c = 38 then [38, 97, 109, 112, 59]
  else if c = 60 then [38, 108, 116, 59]
  else if c = 62 then [38, 103, 116, 59]
  else if c = 34 then [38, 113, 117, 111, 116, 59]
  else if c = 39 then [38, 35, 51, 57, 59]
  else if c = 47 then (if secure then [38, 35, 52, 55, 59] else [47])
  else [c]

/-! ## markdown.c: local types and helpers -/

/-- Enum `markdown_char_t` (markdown.c:115-129). -/
inductive MDChar where
  | none_
  | emphasis
  | codespan
  | linebreak
  | link
  | langle
  | escape
  | entity
  | autolinkUrl
  | autolinkEmail
  | autolinkWWW
  | superscript
deriving DecidableEq

/-- Enum `mkd_autolink` of markdown.h: not-autolink / normal / email. -/
inductive Autolink where
  | notAuto
  | normal
  | email
deriving DecidableEq

/-- Modelled from the spec: the extension-flag bitmask of markdown.h
(not under src/), one Boolean per named flag (spec §3 "Extension
flags"). -/
structure Extensions where
  noIntraEmphasis : Bool := false
  tables : Bool := false
  fencedCode : Bool := false
  autolink : Bool := false
  strikethrough : Bool := false
  ins : Bool := false
  spaceHeaders : Bool := false
  laxSpacing : Bool := false
  superscript : Bool := false
  footnotes : Bool := false
deriving DecidableEq

/-- Modelled from the spec: list-item flag bits of markdown.h
(`MKD_LIST_ORDERED`, `MKD_LI_BLOCK`; `MKD_LI_END = 8` is defined in
markdown.c:38), one Boolean per bit. -/
structure ListFlags where
  ordered : Bool := false
  liBlock : Bool := false
  liEnd : Bool := false
deriving DecidableEq

/-- Modelled from the spec: table-cell flag bits of markdown.h
(`MKD_TABLE_ALIGN_L`, `MKD_TABLE_ALIGN_R`, `MKD_TABLE_HEADER`). -/
structure TableFlags where
  alignL : Bool := false
  alignR : Bool := false
  headerRow : Bool := false
deriving DecidableEq

/-- `struct link_ref` (markdown.c:52-60); the bucket chains are lists,
`title` is `none` when the C field stays NULL. -/
structure LinkRef where
  id : Nat
  link : List Nat
  title : Option (List Nat)
deriving DecidableEq

/-- `struct footnote_ref` (markdown.c:65-73). -/
structure FootnoteRef where
  id : Nat
  isUsed : Bool
  num : Nat
  contents : List Nat
deriving DecidableEq, Inhabited

/-- `REF_TABLE_SIZE` (markdown.c:32). -/
def REF_TABLE_SIZE : Nat := 8

/-- `hash_link_ref` (markdown.c:224-233): sdbm-style hash over the
lowercased key with unsigned 32-bit wraparound;
`(h << 6) + (h << 16) - h` is computed as `h * 64 + h * 65536 + (2^32 - h)`
modulo `2^32`, which agrees with C unsigned arithmetic because the
accumulator stays below `2^32`. -/
def hash_link_ref (name : List Nat) : Nat :=
  name.foldl (fun h c => (tolowerB c + h * 64 + h * 65536 + (2 ^ 32 - h)) % 2 ^ 32) 0

/-- `add_link_ref` (markdown.c:235-249) fused with the field
assignments its caller `is_ref` performs (markdown.c:3320-3342): a new
reference with the hashed id is prepended to its bucket. -/
def add_link_ref (refs : List (List LinkRef)) (name link : List Nat)
    (title : Option (List Nat)) : List (List LinkRef) :=
  let id := hash_link_ref name
  let b := id % REF_TABLE_SIZE
  refs.set b ({ id := id, link := link, title := title } :: refs.getD b [])

/-- `find_link_ref` (markdown.c:251-265): first entry of the bucket
chain whose full hash matches. -/
def find_link_ref (refs : List (List LinkRef)) (name : List Nat) : Option LinkRef :=
  let h := hash_link_ref name
  (refs.getD (h % REF_TABLE_SIZE) []).find? (fun r => r.id == h)

/-- `find_footnote_ref` (markdown.c:318-332) as the index of the first
list entry with matching hash (the C code returns a pointer into the
list; the index models that aliasing). -/
def find_footnote_idx (found : List FootnoteRef) (name : List Nat) : Option Nat :=
  let h := hash_link_ref name
  found.findIdx? (fun r => r.id == h)

/-! ### Generic scan helpers

`scanW p d i stop` is the exit index of the C idiom
`while (i < stop && p(data[i])) i++;`: the first index `j` with
`i ≤ j < stop` where `p` fails, or `stop`.  `backScan p d lo i` is the
exit index of `while (i > lo && p(data[i])) i--;`. -/

def scanW (p : Nat → Bool) (d : List Nat) (i stop : Nat) : Nat :=
  i + (((d.drop i).take (stop - i)).takeWhile p).length

def backScan (p : Nat → Bool) (d : List Nat) (lo : Nat) : Nat → Nat
  | 0 => 0
  | i + 1 => if lo < i + 1 ∧ p (bget d (i + 1)) then backScan p d lo i else i + 1

/-! ### Callback table and parser state -/

/-- `struct sd_callbacks` of markdown.h, modelled per spec §4.5: every
slot is optional; a callback receives the current output buffer plus its
arguments and returns the new output buffer, span-level callbacks
additionally return the truthy/falsy render result.  The opaque pointer
is dropped (it is only forwarded by the parser). -/
structure Callbacks where
  blockcode : Option (List Nat → List Nat → Option (List Nat) → List Nat) := none
  blockquote : Option (List Nat → List Nat → List Nat) := none
  blockhtml : Option (List Nat → List Nat → List Nat) := none
  header : Option (List Nat → List Nat → Nat → List Nat) := none
  hrule : Option (List Nat → List Nat) := none
  list : Option (List Nat → List Nat → ListFlags → List Nat) := none
  listitem : Option (List Nat → List Nat → ListFlags → List Nat) := none
  paragraph : Option (List Nat → List Nat → List Nat) := none
  table : Option (List Nat → List Nat → List Nat → List Nat) := none
  tableRow : Option (List Nat → List Nat → List Nat) := none
  tableCell : Option (List Nat → List Nat → TableFlags → List Nat) := none
  footnotes : Option (List Nat → List Nat → List Nat) := none
  footnoteDef : Option (List Nat → List Nat → Nat → List Nat) := none
  footnoteRef : Option (List Nat → Nat → (List Nat × Bool)) := none
  autolink : Option (List Nat → List Nat → Autolink → (List Nat × Bool)) := none
  codespan : Option (List Nat → Option (List Nat) → (List Nat × Bool)) := none
  doubleEmphasis : Option (List Nat → List Nat → (List Nat × Bool)) := none
  emphasis : Option (List Nat → List Nat → (List Nat × Bool)) := none
  image : Option (List Nat → Option (List Nat) → Option (List Nat) → Option (List Nat) → (List Nat × Bool)) := none
  linebreak : Option (List Nat → (List Nat × Bool)) := none
  link : Option (List Nat → Option (List Nat) → Option (List Nat) → Option (List Nat) → (List Nat × Bool)) := none
  rawHtmlTag : Option (List Nat → List Nat → (List Nat × Bool)) := none
  tripleEmphasis : Option (List Nat → List Nat → (List Nat × Bool)) := none
  ins : Option (List Nat → List Nat → (List Nat × Bool)) := none
  strikethrough : Option (List Nat → List Nat → (List Nat × Bool)) := none
  superscript : Option (List Nat → List Nat → (List Nat × Bool)) := none
  entity : Option (List Nat → List Nat → List Nat) := none
  normalText : Option (List Nat → List Nat → List Nat) := none
  docHeader : Option (List Nat → List Nat) := none
  docFooter : Option (List Nat → List Nat) := none
  outline : Option (List Nat → List Nat) := none

/-- Modelled from the spec: return contract of the `sd_autolink__*`
helpers of autolink.c (not under src/): given the inline window and the
trigger offset within it, return `(matched_len, rewind, link_bytes)`;
`matched_len = 0` means no match (spec §4.3 "Autolink (bare)"). -/
def AutolinkFn := List Nat → Nat → (Nat × Nat × List Nat)

/-- Parser configuration: the copied callback table, extension flags and
`max_nesting` of `struct sd_markdown` (markdown.c:150-163), plus the
externally supplied helpers.  `findBlockTag` is modelled from the spec:
the perfect-hash `find_block_tag(name) -> bool` table of html_blocks.h
(not under src/); the canonical tag it returns is the lowercased query
(same length, matched case-insensitively). -/
structure Config where
  cb : Callbacks
  ext : Extensions := {}
  maxNesting : Nat := 16
  autolinkWWW : AutolinkFn := fun _ _ => (0, 0, [])
  autolinkURL : AutolinkFn := fun _ _ => (0, 0, [])
  autolinkEmail : AutolinkFn := fun _ _ => (0, 0, [])
  findBlockTag : List Nat → Bool := fun _ => false

/-- Work-buffer pool type (`BUFFER_BLOCK`/`BUFFER_SPAN`,
markdown.c:34-35). -/
inductive BufType where
  | block
  | span
deriving DecidableEq

/-- Mutable parser state of `struct sd_markdown`: the two pool-stack
sizes (all that `rndr_newbuf`/`rndr_popbuf` observe when allocation
succeeds: a fresh slot always starts with `work->size = 0`), the
`in_link_body` flag, the reference table and the two footnote lists
(`used` keeps indices into `found`, modelling the C pointer
aliasing). -/
structure MDState where
  spanSize : Nat := 0
  blockSize : Nat := 0
  inLinkBody : Bool := false
  refs : List (List LinkRef) := List.replicate REF_TABLE_SIZE []
  found : List FootnoteRef := []
  used : List Nat := []
deriving DecidableEq

/-- `rndr_newbuf` (markdown.c:169-193) with allocation succeeding:
bumps the pool size and hands out an empty work buffer. -/
def rndr_newbuf (st : MDState) (ty : BufType) : MDState × List Nat :=
  match ty with
  | .block => ({ st with blockSize := st.blockSize + 1 }, [])
  | .span => ({ st with spanSize := st.spanSize + 1 }, [])

/-- `rndr_popbuf` (markdown.c:195-198). -/
def rndr_popbuf (st : MDState) (ty : BufType) : MDState :=
  match ty with
  | .block => { st with blockSize := st.blockSize - 1 }
  | .span => { st with spanSize := st.spanSize - 1 }

/-- Active-character table built by `sd_markdown_new`
(markdown.c:3409-3448). -/
def activeChar (cfg : Config) (c : Nat) : MDChar :=
  if (cfg.cb.emphasis.isSome || cfg.cb.doubleEmphasis.isSome || cfg.cb.tripleEmphasis.isSome) ∧
      (c = 42 ∨ c = 95 ∨ (c = 126 ∧ cfg.ext.strikethrough) ∨ (c = 43 ∧ cfg.ext.ins)) then
    .emphasis
  else if cfg.cb.codespan.isSome ∧ c = 96 then .codespan
  else if cfg.cb.linebreak.isSome ∧ c = 10 then .linebreak
  else if (cfg.cb.image.isSome || cfg.cb.link.isSome) ∧ c = 91 then .link
  else if c = 60 then .langle
  else if c = 92 then .escape
  else if c = 38 then .entity
  else if cfg.ext.autolink ∧ c = 58 then .autolinkUrl
  else if cfg.ext.autolink ∧ c = 64 then .autolinkEmail
  else if cfg.ext.autolink ∧ c = 119 then .autolinkWWW
  else if cfg.ext.superscript ∧ c = 94 then .superscript
  else .none_

/-! ### Standalone scanners of markdown.c

Each function receives the byte window the C function's
`(data, size)` pair denotes (so `size` is the window length). -/

/-- Loop of `is_empty` (markdown.c:1543-1554). -/
def is_emptyLoop : List Nat → Nat → Nat
  | [], i => i + 1
  | c :: r, i => if c = 10 then i + 1 else if c ≠ 32 then 0 else is_emptyLoop r (i + 1)

/-- `is_empty` (markdown.c:1543-1554): length of the line (terminator
included) when it holds only spaces, else 0. -/
def is_empty (l : List Nat) : Nat := is_emptyLoop l 0

/-- Counting loop of `is_hrule` (markdown.c:1589-1600). -/
def hruleLoop (c : Nat) : List Nat → Nat → Bool
  | [], n => decide (n ≥ 3)
  | x :: r, n =>
    if x = 10 then decide (n ≥ 3)
    else if x = c then hruleLoop c r (n + 1)
    else if x ≠ 32 then false
    else hruleLoop c r n

/-- Leading-space offset used by several block scanners: up to three
spaces, checking bounds like the C nested ifs. -/
def spaces3 (l : List Nat) : Nat := scanW (fun x => x == 32) l 0 (min 3 l.length)

/-- `is_hrule` (markdown.c:1559-1601). -/
def is_hrule (l : List Nat) : Bool :=
  if l.length < 3 then false
  else
    let i := if bget l 0 = 32 then
               if bget l 1 = 32 then
                 if bget l 2 = 32 then 3 else 2
               else 1
             else 0
    if i + 2 ≥ l.length ∨ (bget l i ≠ 42 ∧ bget l i ≠ 45 ∧ bget l i ≠ 95) then false
    else hruleLoop (bget l i) (l.drop i) 0

/-- `prefix_codefence` (markdown.c:1607-1648): width of a run of at
least three backticks or tildes after up to three spaces, else 0. -/
def prefix_codefence (l : List Nat) : Nat :=
  if l.length < 3 then 0
  else
    let i := if bget l 0 = 32 then
               if bget l 1 = 32 then
                 if bget l 2 = 32 then 3 else 2
               else 1
             else 0
    if i + 2 ≥ l.length ∨ (bget l i ≠ 126 ∧ bget l i ≠ 96) then 0
    else
      let j := scanW (fun x => x == bget l i) l i l.length
      if j - i < 3 then 0 else j

/-- `is_codefence` (markdown.c:1653-1717): `(consumed, info string)`,
`consumed = 0` when the line is not a fence. -/
def is_codefence (l : List Nat) : Nat × List Nat :=
  let i0 := prefix_codefence l
  if i0 = 0 then (0, [])
  else
    let size := l.length
    let i := scanW (fun x => x == 32) l i0 size
    if i < size ∧ bget l i = 123 then
      -- info string inside { }
      let s := i + 1
      let j := scanW (fun x => !(x == 125) && !(x == 10)) l s size
      if j = size ∨ bget l j ≠ 125 then (0, [])
      else
        let syn0 := win l s (j - s)
        let syn1 := syn0.dropWhile isspaceB
        let syn := (syn1.reverse.dropWhile isspaceB).reverse
        let k := scanW (fun x => !(x == 10)) l (j + 1) size
        if (win l (j + 1) (k - (j + 1))).all isspaceB then (k + 1, syn) else (0, [])
    else
      let j := scanW (fun x => !(isspaceB x)) l i size
      let syn := win l i (j - i)
      let k := scanW (fun x => !(x == 10)) l j size
      if (win l j (k - j)).all isspaceB then (k + 1, syn) else (0, [])

/-- `is_atxheader` (markdown.c:1722-1741). -/
def is_atxheader (cfg : Config) (l : List Nat) : Bool :=
  if bget l 0 ≠ 35 then false
  else if cfg.ext.spaceHeaders then
    let level := scanW (fun x => x == 35) l 0 (min 6 l.length)
    ¬ (level < l.length ∧ bget l level ≠ 32)
  else true

/-- `is_headerline` (markdown.c:1746-1777): 1 for `===`, 2 for `---`,
0 otherwise. -/
def is_headerline (l : List Nat) : Nat :=
  if bget l 0 = 61 then
    let i := scanW (fun x => x == 61) l 1 l.length
    let j := scanW (fun x => x == 32) l i l.length
    if j ≥ l.length ∨ bget l j = 10 then 1 else 0
  else if bget l 0 = 45 then
    let i := scanW (fun x => x == 45) l 1 l.length
    let j := scanW (fun x => x == 32) l i l.length
    if j ≥ l.length ∨ bget l j = 10 then 2 else 0
  else 0

/-- `is_next_headerline` (markdown.c:1779-1792). -/
def is_next_headerline (l : List Nat) : Bool :=
  let i := scanW (fun x => !(x == 10)) l 0 l.length
  if i + 1 ≥ l.length then false
  else is_headerline (l.drop (i + 1)) ≠ 0

/-- `prefix_quote` (markdown.c:1797-1822). -/
def prefix_quote (l : List Nat) : Nat :=
  let i := spaces3 l
  if i < l.length ∧ bget l i = 62 then
    if i + 1 < l.length ∧ bget l (i + 1) = 32 then i + 2 else i + 1
  else 0

/-- `prefix_code` (markdown.c:1827-1834). -/
def prefix_code (l : List Nat) : Nat :=
  if l.length > 3 ∧ bget l 0 = 32 ∧ bget l 1 = 32 ∧ bget l 2 = 32 ∧ bget l 3 = 32 then 4
  else 0

/-- `prefix_oli` (markdown.c:1839-1872). -/
def prefix_oli (l : List Nat) : Nat :=
  let i := spaces3 l
  if i ≥ l.length ∨ bget l i < 48 ∨ bget l i > 57 then 0
  else
    let j := scanW (fun x => 48 ≤ x && x ≤ 57) l i l.length
    if j + 1 ≥ l.length ∨ bget l j ≠ 46 ∨ bget l (j + 1) ≠ 32 then 0
    else if is_next_headerline (l.drop j) then 0
    else j + 2

/-- `prefix_uli` (markdown.c:1877-1902). -/
def prefix_uli (l : List Nat) : Nat :=
  let i := spaces3 l
  if i + 1 ≥ l.length ∨ (bget l i ≠ 42 ∧ bget l i ≠ 43 ∧ bget l i ≠ 45) ∨
      bget l (i + 1) ≠ 32 then 0
  else if is_next_headerline (l.drop i) then 0
  else i + 2

/-- `unscape_text` (markdown.c:200-222): copy runs up to a backslash,
then emit the escaped byte; a trailing lone backslash is dropped.  One
fuel unit per loop iteration; each iteration consumes at least two
source bytes, so `fuel = length` suffices. -/
def unscape_textLoop : Nat → List Nat → List Nat → List Nat
  | 0, _, ob => ob
  | fuel + 1, rest, ob =>
    let run := rest.takeWhile (fun c => !(c == 92))
    match rest.dropWhile (fun c => !(c == 92)) with
    | [] => ob ++ run
    | [_] => ob ++ run
    | _ :: x :: rest2 => unscape_textLoop fuel rest2 (ob ++ run ++ [x])

/-- `unscape_text` entry point. -/
def unscape_text (ob src : List Nat) : List Nat :=
  unscape_textLoop src.length src ob

/-- `expand_tabs` (markdown.c:3348-3376): copy runs up to a tab, then
pad with spaces to the next 4-column stop.  The `do/while (tab % 4)`
body emits `4 - tab % 4` spaces. -/
def expand_tabsLoop : Nat → List Nat → Nat → List Nat → List Nat
  | 0, _, _, ob => ob
  | fuel + 1, rest, tab, ob =>
    let run := rest.takeWhile (fun c => !(c == 9))
    let ob1 := ob ++ run
    let tab1 := tab + run.length
    match rest.dropWhile (fun c => !(c == 9)) with
    | [] => ob1
    | _ :: rest2 =>
      let k := 4 - tab1 % 4
      expand_tabsLoop fuel rest2 (tab1 + k) (ob1 ++ List.replicate k 32)

/-- `expand_tabs` entry point. -/
def expand_tabs (ob line : List Nat) : List Nat :=
  expand_tabsLoop line.length line 0 ob

/-- `is_mail_autolink` (markdown.c:380-408): length up to and including
the closing `>` when the bytes form `[-@._a-zA-Z0-9]+>` with exactly
one `@` (the `@` case falls through into the accepted-byte cases),
0 otherwise. -/
def is_mail_autolinkLoop : List Nat → Nat → Nat → Nat
  | [], _, _ => 0
  | c :: r, i, nb =>
    if isalnumB c then is_mail_autolinkLoop r (i + 1) nb
    else if c = 64 then is_mail_autolinkLoop r (i + 1) (nb + 1)
    else if c = 45 ∨ c = 46 ∨ c = 95 then is_mail_autolinkLoop r (i + 1) nb
    else if c = 62 then (if nb = 1 then i + 1 else 0)
    else 0

/-- `is_mail_autolink` entry point. -/
def is_mail_autolink (l : List Nat) : Nat := is_mail_autolinkLoop l 0 0

/-- Backslash-skipping scan of `tag_length` (markdown.c:460-468); the
loop advances by 1 or 2 per iteration, so `fuel = length` suffices. -/
def tagAutoScan (l : List Nat) : Nat → Nat → Nat
  | 0, i => i
  | fuel + 1, i =>
    if i < l.length then
      let c := bget l i
      if c = 92 then tagAutoScan l fuel (i + 2)
      else if c = 62 ∨ c = 39 ∨ c = 34 ∨ c = 32 ∨ c = 10 then i
      else tagAutoScan l fuel (i + 1)
    else i

/-- `tag_length` (markdown.c:413-492): length of the angle construct
and its autolink classification. -/
def tag_length (l : List Nat) : Nat × Autolink :=
  let size := l.length
  if size < 3 then (0, .notAuto)
  else if bget l 0 ≠ 60 then (0, .notAuto)
  else
    let i0 := if bget l 1 = 47 then 2 else 1
    if ¬ isalnumB (bget l i0) then (0, .notAuto)
    else
      let i1 := scanW (fun c => isalnumB c || c == 46 || c == 43 || c == 45) l i0 size
      let mailLen := if 1 < i1 ∧ bget l i1 = 64 then is_mail_autolink (l.drop i1) else 0
      if mailLen ≠ 0 then (i1 + mailLen, .email)
      else
        let p : Autolink × Nat := if 2 < i1 ∧ bget l i1 = 58 then (.normal, i1 + 1) else (.notAuto, i1)
        let i2 := p.2
        let alt := if i2 ≥ size then Autolink.notAuto else p.1
        if alt ≠ Autolink.notAuto then
          let i3 := tagAutoScan l size i2
          if i3 ≥ size then (0, alt)
          else if i2 < i3 ∧ bget l i3 = 62 then (i3 + 1, alt)
          else
            let i4 := scanW (fun c => !(c == 62)) l i3 size
            if i4 ≥ size then (0, .notAuto) else (i4 + 1, .notAuto)
        else
          let i4 := scanW (fun c => !(c == 62)) l i2 size
          if i4 ≥ size then (0, .notAuto) else (i4 + 1, .notAuto)

/-- First index of byte `c` in `[i, stop)` of `l`, else 0 — the
`if (!tmp_i && data[i] == c) tmp_i = i;` recording of
`find_emph_char`. -/
def firstIn (l : List Nat) (c i stop : Nat) : Nat :=
  let pos := scanW (fun x => !(x == c)) l i stop
  if pos < stop then pos else 0

/-- Backtick-span matching loop of `find_emph_char`
(markdown.c:580-595); one fuel unit per byte. -/
def emphBtLoop (l : List Nat) (c span_nb : Nat) : Nat → Nat → Nat → Nat → Nat × Nat
  | 0, i, _, tmp => (i, tmp)
  | fuel + 1, i, bt, tmp =>
    if i < l.length ∧ bt < span_nb then
      let t := if tmp = 0 ∧ bget l i = c then i else tmp
      let b := if bget l i = 96 then bt + 1 else 0
      emphBtLoop l c span_nb fuel (i + 1) b t
    else (i, tmp)

/-- Outer loop of `find_emph_char` (markdown.c:542-665): scan for the
next possible emphasis closer `c`, skipping escaped delimiters, inline
code spans and bracketed links.  Every iteration advances the index, so
`fuel = length` suffices. -/
def find_emph_charLoop (l : List Nat) (c : Nat) : Nat → Nat → Nat
  | 0, _ => 0
  | fuel + 1, i =>
    let size := l.length
    let i1 := scanW (fun x => !(x == c) && !(x == 96) && !(x == 91)) l i size
    if i1 = size then 0
    else if bget l i1 = c then i1
    else if 0 < i1 ∧ bget l (i1 - 1) = 92 then find_emph_charLoop l c fuel (i1 + 1)
    else if bget l i1 = 96 then
      let i2 := scanW (fun x => x == 96) l i1 size
      if i2 ≥ size then 0
      else
        let r := emphBtLoop l c (i2 - i1) size i2 0 0
        if r.1 ≥ size then r.2
        else find_emph_charLoop l c fuel r.1
    else
      -- skipping a link
      let iA := i1 + 1
      let j1 := scanW (fun x => !(x == 93)) l iA size
      let tmp1 := firstIn l c iA j1
      let iB := j1 + 1
      let iC := scanW (fun x => x == 32 || x == 10) l iB size
      if iC ≥ size then tmp1
      else if bget l iC = 91 ∨ bget l iC = 40 then
        let cc := if bget l iC = 91 then 93 else 41
        let iD := iC + 1
        let j2 := scanW (fun x => !(x == cc)) l iD size
        let tmp2 := if tmp1 = 0 then firstIn l c iD j2 else tmp1
        if j2 ≥ size then tmp2
        else find_emph_charLoop l c fuel (j2 + 1)
      else
        if tmp1 ≠ 0 then tmp1
        else find_emph_charLoop l c fuel iC

/-- `find_emph_char` entry point (starts at index 1). -/
def find_emph_char (l : List Nat) (c : Nat) : Nat :=
  find_emph_charLoop l c l.length 1

/-! ### Inline triggers without recursion

Triggers that never look back receive the suffix `l` of the inline
window starting at the trigger byte (the C `(data, size)` with
`data = window + offset`).  Triggers that inspect `data[-1]` receive
the whole window `w` and the trigger offset `i`. -/

/-- Escapable bytes of `char_escape` (markdown.c:952):
`\\ ` ` * _ { } [ ] ( ) # + - . ! : | & < > ^ ~ $`. -/
def escape_chars : List Nat :=
  [92, 96, 42, 95, 123, 125, 91, 93, 40, 41, 35, 43, 45, 46, 33, 58, 124, 38, 60, 62, 94, 126, 36]

/-- `char_escape` (markdown.c:950-972): `(ob', consumed)`. -/
def char_escape (cfg : Config) (ob l : List Nat) : List Nat × Nat :=
  if l.length > 1 then
    let x := bget l 1
    if ¬ escape_chars.contains x then (ob, 0)
    else
      match cfg.cb.normalText with
      | some f => (f ob [x], 2)
      | none => (ob ++ [x], 2)
  else if l.length = 1 then (ob ++ [bget l 0], 2)
  else (ob, 2)

/-- `char_entity` (markdown.c:978-1008): `(ob', consumed)`. -/
def char_entity (cfg : Config) (ob l : List Nat) : List Nat × Nat :=
  let size := l.length
  let e1 := if 1 < size ∧ bget l 1 = 35 then 2 else 1
  let e2 := scanW isalnumB l e1 size
  if e2 < size ∧ bget l e2 = 59 then
    let e3 := e2 + 1
    match cfg.cb.entity with
    | some f => (f ob (win l 0 e3), e3)
    | none => (ob ++ win l 0 e3, e3)
  else (ob, 0)

/-- Modelled from the spec: prefix length matched by the entity pattern
`&#?[A-Za-z0-9]+;` the code's own comment (markdown.c:977) and the spec
state: a `&`, an optional `#`, then AT LEAST ONE alphanumeric byte, then
`;`; `0` when the prefix does not match.  Compared against
`char_entity`, which was translated from the code. -/
def entityRegexConsumed (l : List Nat) : Nat :=
  let e1 := if 1 < l.length ∧ bget l 1 = 35 then 2 else 1
  let e2 := scanW isalnumB l e1 l.length
  if e1 < e2 ∧ e2 < l.length ∧ bget l e2 = 59 then e2 + 1 else 0

/-- Closing-delimiter search of `char_codespan` (markdown.c:905-911):
`(exit index, consecutive-backtick count at exit)`.  The `for` loop
advances `end` every iteration, so `fuel = length` suffices. -/
def codespanScan (l : List Nat) (nb : Nat) : Nat → Nat → Nat → Nat × Nat
  | 0, e, cnt => (e, cnt)
  | fuel + 1, e, cnt =>
    if e < l.length ∧ cnt < nb then
      codespanScan l nb fuel (e + 1) (if bget l e = 96 then cnt + 1 else 0)
    else (e, cnt)

/-- Backward trim `while (f > lo && p(data[f-1])) f--;` (used by
`char_codespan` markdown.c:927-929 and `parse_table_header`
markdown.c:2784-2786). -/
def trimBack (p : Nat → Bool) (l : List Nat) (lo : Nat) : Nat → Nat → Nat
  | 0, f => f
  | fuel + 1, f => if f > lo ∧ p (bget l (f - 1)) then trimBack p l lo fuel (f - 1) else f

/-- `char_codespan` (markdown.c:892-945): `(ob', consumed)`. -/
def char_codespan (cfg : Config) (ob l : List Nat) : List Nat × Nat :=
  let size := l.length
  let nb := scanW (fun x => x == 96) l 0 size
  let r := codespanScan l nb size nb 0
  if r.2 < nb ∧ r.1 ≥ size then (ob, 0)
  else
    let f_begin := scanW (fun x => x == 32) l nb r.1
    let f_end := trimBack (fun x => x == 32) l nb (r.1 - nb) (r.1 - nb)
    match cfg.cb.codespan with
    | some f =>
      if f_begin < f_end then
        let p := f ob (some (win l f_begin (f_end - f_begin)))
        (p.1, if p.2 then r.1 else 0)
      else
        let p := f ob none
        (p.1, if p.2 then r.1 else 0)
    | none => (ob, 0)

/-- `char_linebreak` (markdown.c:875-887): `(ob', consumed)`; pops the
trailing spaces off the output before invoking the callback. -/
def char_linebreak (cfg : Config) (ob w : List Nat) (i : Nat) : List Nat × Nat :=
  if i < 2 ∨ bget w (i - 1) ≠ 32 ∨ bget w (i - 2) ≠ 32 then (ob, 0)
  else
    let k := (ob.reverse.takeWhile (fun c => c == 32)).length
    let ob1 := ob.take (ob.length - k)
    match cfg.cb.linebreak with
    | some f =>
      let p := f ob1
      (p.1, if p.2 then 1 else 0)
    | none => (ob, 0)

/-- `char_langle_tag` (markdown.c:1013-1043):
`(st', ob', consumed)`. -/
def char_langle_tag (cfg : Config) (st : MDState) (ob l : List Nat) :
    MDState × List Nat × Nat :=
  let t := tag_length l
  let e := t.1
  let work := win l 0 e
  if e > 2 then
    if cfg.cb.autolink.isSome ∧ t.2 ≠ Autolink.notAuto then
      match cfg.cb.autolink with
      | some f =>
        let st1 := (rndr_newbuf st .span).1
        let u_link := unscape_text [] (win l 1 (e - 2))
        let p := f ob u_link t.2
        let st2 := rndr_popbuf st1 .span
        (st2, p.1, if p.2 then e else 0)
      | none => (st, ob, 0)
    else
      match cfg.cb.rawHtmlTag with
      | some f =>
        let p := f ob work
        (st, p.1, if p.2 then e else 0)
      | none => (st, ob, 0)
  else (st, ob, 0)

/-- Byte string `"http://"` (`BUFPUTSL` in `char_autolink_www`,
markdown.c:1067). -/
def httpBytes : List Nat := [104, 116, 116, 112, 58, 47, 47]

/-- `char_autolink_www` (markdown.c:1045-1092):
`(st', ob', consumed)`. -/
def char_autolink_www (cfg : Config) (st : MDState) (ob w : List Nat) (i : Nat) :
    MDState × List Nat × Nat :=
  if cfg.cb.link.isNone ∨ st.inLinkBody then (st, ob, 0)
  else
    match cfg.cb.link with
    | none => (st, ob, 0)
    | some linkCb =>
      let st1 := (rndr_newbuf st .span).1
      let r := cfg.autolinkWWW w i
      let link_len := r.1
      let rewind := r.2.1
      let linkBytes := r.2.2
      if link_len > 0 then
        let st2 := (rndr_newbuf st1 .span).1
        let link_url := httpBytes ++ linkBytes
        let ob1 := ob.take (ob.length - rewind)
        match cfg.cb.normalText with
        | some nf =>
          let st3 := (rndr_newbuf st2 .span).1
          let link_text := nf [] linkBytes
          let p := linkCb ob1 (some link_url) none (some link_text)
          let st4 := rndr_popbuf st3 .span
          let st5 := rndr_popbuf st4 .span
          let st6 := rndr_popbuf st5 .span
          (st6, p.1, link_len)
        | none =>
          let p := linkCb ob1 (some link_url) none (some linkBytes)
          let st3 := rndr_popbuf st2 .span
          let st4 := rndr_popbuf st3 .span
          (st4, p.1, link_len)
      else
        (rndr_popbuf st1 .span, ob, link_len)

/-- `char_autolink_email` (markdown.c:1094-1117):
`(st', ob', consumed)`. -/
def char_autolink_email (cfg : Config) (st : MDState) (ob w : List Nat) (i : Nat) :
    MDState × List Nat × Nat :=
  if cfg.cb.autolink.isNone ∨ st.inLinkBody then (st, ob, 0)
  else
    match cfg.cb.autolink with
    | none => (st, ob, 0)
    | some f =>
      let st1 := (rndr_newbuf st .span).1
      let r := cfg.autolinkEmail w i
      let link_len := r.1
      if link_len > 0 then
        let ob1 := ob.take (ob.length - r.2.1)
        let p := f ob1 r.2.2 Autolink.email
        (rndr_popbuf st1 .span, p.1, link_len)
      else
        (rndr_popbuf st1 .span, ob, link_len)

/-- `char_autolink_url` (markdown.c:1119-1142):
`(st', ob', consumed)`. -/
def char_autolink_url (cfg : Config) (st : MDState) (ob w : List Nat) (i : Nat) :
    MDState × List Nat × Nat :=
  if cfg.cb.autolink.isNone ∨ st.inLinkBody then (st, ob, 0)
  else
    match cfg.cb.autolink with
    | none => (st, ob, 0)
    | some f =>
      let st1 := (rndr_newbuf st .span).1
      let r := cfg.autolinkURL w i
      let link_len := r.1
      if link_len > 0 then
        let ob1 := ob.take (ob.length - r.2.1)
        let p := f ob1 r.2.2 Autolink.normal
        (rndr_popbuf st1 .span, p.1, link_len)
      else
        (rndr_popbuf st1 .span, ob, link_len)

/-! ### Reference recognition and first-pass helpers -/

/-- Index-predicate scan `while (i < stop && p(i)) i++;` for loop
conditions that inspect more than the current byte. -/
def scanIW (p : Nat → Bool) (i stop : Nat) : Nat :=
  i + ((List.range' i (stop - i)).takeWhile p).length

/-- Line-end scan `for (end = beg + 1; end < size && data[end-1] != '\n'; end++);`
used throughout the block parser: one past the first `'\n'` at index
≥ `beg`, capped at the window length. -/
def lineEnd (l : List Nat) (beg : Nat) : Nat :=
  min (scanW (fun x => !(x == 10)) l beg l.length + 1) l.length

/-- `is_ref` (markdown.c:3150-3346): `some (last, id, link, title)` when
the line region starting at `beg` is a link-reference definition,
`none` otherwise.  All positions are absolute indices into `d`;
`end_` is the document size. -/
def refSkipEol (d : List Nat) (end_ i : Nat) : Nat :=
  let t := i + 1
  if t < end_ ∧ bget d t = 13 ∧ bget d (t - 1) = 10 then t + 1 else t

/-- Line-terminator advance after the colon of `is_ref`
(markdown.c:3218-3228). -/
def refSkip4 (d : List Nat) (end_ i : Nat) : Nat :=
  if i < end_ ∧ (bget d i = 10 ∨ bget d i = 13) then refSkipEol d end_ i else i

/-- Angle-bracket skip before the link of `is_ref` (markdown.c:3235-3237). -/
def refAngle (d : List Nat) (i : Nat) : Nat :=
  if bget d i = 60 then i + 1 else i

/-- Optional-title parse of `is_ref` (markdown.c:3262-3297):
`(line_end, title_end, title_offset)`. -/
def is_refTitle (d : List Nat) (end_ i8 le1 : Nat) : Nat × Nat × Nat :=
  let i9 := if le1 ≠ 0 then scanW (fun c => c == 32) d (le1 + 1) end_ else i8
  if i9 + 1 < end_ ∧ (bget d i9 = 39 ∨ bget d i9 = 34 ∨ bget d i9 = 40) then
    let tOff := i9 + 1
    let i10 := scanW (fun c => !(c == 10) && !(c == 13)) d tOff end_
    let tEnd0 := if i10 + 1 < end_ ∧ bget d i10 = 10 ∧ bget d (i10 + 1) = 13 then
                   i10 + 1 else i10
    let i11 := backScan (fun c => c == 32) d tOff (i10 - 1)
    if i11 > tOff ∧ (bget d i11 = 39 ∨ bget d i11 = 34 ∨ bget d i11 = 41) then
      (tEnd0, i11, tOff)
    else (le1, 0, tOff)
  else (le1, 0, 0)

/-- Link/title part of `is_ref` (markdown.c:3210-3346), after the
`[id]:` prefix has been recognised: `idOff`/`idEnd` delimit the id and
`i2` is the position of the colon. -/
def is_refRest (d : List Nat) (end_ idOff idEnd i2 : Nat) :
    Option (Nat × List Nat × List Nat × Option (List Nat)) :=
  let i3 := scanW (fun c => c == 32) d (i2 + 1) end_
  let i4 := refSkip4 d end_ i3
  let i5 := scanW (fun c => c == 32) d i4 end_
  if i5 ≥ end_ then none
  else
    let i6 := refAngle d i5
    let linkOff := i6
    let i7 := scanW (fun c => !(c == 32) && !(c == 10) && !(c == 13)) d i6 end_
    let linkEnd := if bget d (i7 - 1) = 62 then i7 - 1 else i7
    let i8 := scanW (fun c => c == 32) d i7 end_
    if i8 < end_ ∧ bget d i8 ≠ 10 ∧ bget d i8 ≠ 13 ∧ bget d i8 ≠ 39 ∧
        bget d i8 ≠ 34 ∧ bget d i8 ≠ 40 then none
    else
      let le0 := if i8 ≥ end_ ∨ bget d i8 = 13 ∨ bget d i8 = 10 then i8 else 0
      let le1 := if i8 + 1 < end_ ∧ bget d i8 = 10 ∧ bget d (i8 + 1) = 13 then
                   i8 + 1 else le0
      let tRes := is_refTitle d end_ i8 le1
      let lineEnd_ := tRes.1
      let titleEnd := tRes.2.1
      let titleOff := tRes.2.2
      if lineEnd_ = 0 ∨ linkEnd = linkOff then none
      else
        some (lineEnd_, win d idOff (idEnd - idOff),
              win d linkOff (linkEnd - linkOff),
              if titleEnd > titleOff then
                some (win d titleOff (titleEnd - titleOff))
              else none)

def is_ref (d : List Nat) (beg end_ : Nat) :
    Option (Nat × List Nat × List Nat × Option (List Nat)) :=
  if beg + 3 ≥ end_ then none
  else
    let sp := if bget d beg = 32 then
                if bget d (beg + 1) = 32 then
                  if bget d (beg + 2) = 32 then 3 else 2
                else 1
              else 0
    if sp = 3 ∧ bget d (beg + 3) = 32 then none
    else
      let i0 := sp + beg
      if bget d i0 ≠ 91 then none
      else
        let idOff := i0 + 1
        let i1 := scanW (fun c => !(c == 10) && !(c == 13) && !(c == 93)) d idOff end_
        if i1 ≥ end_ ∨ bget d i1 ≠ 93 then none
        else
          let idEnd := i1
          let i2 := i1 + 1
          if i2 ≥ end_ ∨ bget d i2 ≠ 58 then none
          else is_refRest d end_ idOff idEnd i2

/-- End-of-line skip of `is_footnote` (markdown.c:3036-3042). -/
def fnSkipEol (d : List Nat) (end_ i : Nat) : Nat :=
  let t := i + 1
  if t < end_ ∧ bget d t = 10 ∧ bget d (t - 1) = 13 then t + 1 else t

/-- Line-terminator advance after the colon of `is_footnote`
(markdown.c:3033-3043). -/
def fnSkip5 (d : List Nat) (end_ i : Nat) : Nat :=
  if i < end_ ∧ (bget d i = 10 ∨ bget d i = 13) then fnSkipEol d end_ i else i

/-- Content-collection loop of `is_footnote` (markdown.c:3063-3122):
returns `(start, contents)` at loop exit.  Each continuing iteration
advances the position past at least one byte, so `fuel = end_`
suffices. -/
def is_footnoteLoop (d : List Nat) (end_ : Nat) :
    Nat → Nat → Nat → Bool → List Nat → Nat × List Nat
  | 0, _, start, _, contents => (start, contents)
  | fuel + 1, i, start, in_empty, contents =>
    if i < end_ then
      let i1 := scanW (fun c => !(c == 10) && !(c == 13)) d i end_
      if is_empty (win d start (i1 - start)) ≠ 0 then
        let i2 := if i1 < end_ ∧ (bget d i1 = 10 ∨ bget d i1 = 13) then fnSkipEol d end_ i1
                  else i1
        is_footnoteLoop d end_ fuel i2 i2 true contents
      else
        let ind := scanW (fun c => c == 32) d start (min (start + 4) end_) - start
        if in_empty ∧ ind = 0 then (start, contents)
        else
          let c1 := if in_empty then contents ++ [10] else contents
          let c2 := c1 ++ win d (start + ind) (i1 - start - ind)
          if i1 < end_ then
            let c3 := c2 ++ [10]
            let i2 := if bget d i1 = 10 ∨ bget d i1 = 13 then fnSkipEol d end_ i1
                      else i1
            is_footnoteLoop d end_ fuel i2 i2 false c3
          else
            is_footnoteLoop d end_ fuel i1 i1 false c2
    else (start, contents)

/-- `is_footnote` (markdown.c:2971-3145): `some (last, id, contents)`
when the region starting at `beg` is a footnote definition. -/
def is_footnote (d : List Nat) (beg end_ : Nat) :
    Option (Nat × List Nat × List Nat) :=
  if beg + 3 ≥ end_ then none
  else
    let sp := if bget d beg = 32 then
                if bget d (beg + 1) = 32 then
                  if bget d (beg + 2) = 32 then 3 else 2
                else 1
              else 0
    if sp = 3 ∧ bget d (beg + 3) = 32 then none
    else
      let i0 := sp + beg
      if bget d i0 ≠ 91 then none
      else
        let i1 := i0 + 1
        if i1 ≥ end_ ∨ bget d i1 ≠ 94 then none
        else
          let idOff := i1 + 1
          let i2 := scanW (fun c => !(c == 10) && !(c == 13) && !(c == 93)) d idOff end_
          if i2 ≥ end_ ∨ bget d i2 ≠ 93 then none
          else
            let idEnd := i2
            let i3 := i2 + 1
            if i3 ≥ end_ ∨ bget d i3 ≠ 58 then none
            else
              let i4 := scanW (fun c => c == 32) d (i3 + 1) end_
              let i5 := fnSkip5 d end_ i4
              let i6 := scanW (fun c => c == 32) d i5 end_
              if i6 ≥ end_ ∨ bget d i6 = 10 ∨ bget d i6 = 13 then none
              else
                let r := is_footnoteLoop d end_ end_ i6 i6 false []
                some (r.1, win d idOff (idEnd - idOff), r.2)

/-! ### HTML blocks -/

/-- `htmlblock_end_tag` (markdown.c:2533-2557): length through the
closing `</tag>` plus the following blank line(s); 0 when there is no
match.  `tag` is the lowercased canonical tag name. -/
def htmlblock_end_tag (tag : List Nat) (l : List Nat) : Nat :=
  if tag.length + 3 ≥ l.length ∨ (win l 2 tag.length).map tolowerB ≠ tag.map tolowerB ∨
      bget l (tag.length + 2) ≠ 62 then 0
  else
    let i := tag.length + 3
    let w := if i < l.length then is_empty (l.drop i) else 0
    if i < l.length ∧ w = 0 then 0
    else
      let i1 := i + w
      let w1 := if i1 < l.length then is_empty (l.drop i1) else 0
      i1 + w1

/-- Closing-candidate scan of `htmlblock_end` (markdown.c:2568-2574):
advance to the next `</` while counting newlines. -/
def hbScan (l : List Nat) : Nat → Nat → Nat → Nat × Nat
  | 0, i, bl => (i, bl)
  | fuel + 1, i, bl =>
    if i < l.length ∧ ¬ (bget l (i - 1) = 60 ∧ bget l i = 47) then
      hbScan l fuel (i + 1) (if bget l i = 10 then bl + 1 else bl)
    else (i, bl)

/-- Main loop of `htmlblock_end` (markdown.c:2559-2600); each iteration
begins with `i++`, so `fuel = length` suffices. -/
def htmlblock_endLoop (tag l : List Nat) (sol : Bool) : Nat → Nat → Nat → Nat
  | 0, _, _ => 0
  | fuel + 1, i, bl =>
    if i < l.length then
      let r := hbScan l l.length (i + 1) bl
      let i2 := r.1
      let bl2 := r.2
      if sol ∧ bl2 > 0 ∧ bget l (i2 - 2) ≠ 10 then htmlblock_endLoop tag l sol fuel i2 bl2
      else if i2 + 2 + tag.length ≥ l.length then 0
      else
        let et := htmlblock_end_tag tag (l.drop (i2 - 1))
        if et ≠ 0 then i2 + et - 1
        else htmlblock_endLoop tag l sol fuel i2 bl2
    else 0

/-- `htmlblock_end` (markdown.c:2559-2600). -/
def htmlblock_end (tag l : List Nat) (sol : Bool) : Nat :=
  htmlblock_endLoop tag l sol l.length 1 0

/-- Comment-terminator scan of `parse_htmlblock` (markdown.c:2634-2636). -/
def commentScan (l : List Nat) : Nat → Nat → Nat
  | 0, i => i
  | fuel + 1, i =>
    if i < l.length ∧ ¬ (bget l (i - 2) = 45 ∧ bget l (i - 1) = 45 ∧ bget l i = 62) then
      commentScan l fuel (i + 1)
    else i

/-- Byte strings `"ins"` and `"del"` (markdown.c:2689). -/
def insBytes : List Nat := [105, 110, 115]
def delBytes : List Nat := [100, 101, 108]

/-- `parse_htmlblock` (markdown.c:2605-2705): `(ob', consumed)`;
no recursion and no pool use.  `findBlockTag` decides tag recognition
(modelled from the spec, html_blocks.h is not under src/); its
canonical result is the lowercased query. -/
def parse_htmlblock (cfg : Config) (ob l : List Nat) (do_render : Bool) :
    List Nat × Nat :=
  let size := l.length
  if size < 2 ∨ bget l 0 ≠ 60 then (ob, 0)
  else
    let i := scanW (fun c => !(c == 62) && !(c == 32)) l 1 size
    let curtag : Option (List Nat) :=
      if i < size ∧ cfg.findBlockTag (win l 1 (i - 1)) then
        some ((win l 1 (i - 1)).map tolowerB)
      else none
    match curtag with
    | none =>
      -- HTML comment, laxist form
      let commentRes : Option (List Nat × Nat) :=
        if size > 5 ∧ bget l 1 = 33 ∧ bget l 2 = 45 ∧ bget l 3 = 45 then
          let k := commentScan l size 5
          let k1 := k + 1
          let j := if k1 < size then is_empty (l.drop k1) else 0
          if j ≠ 0 then
            let w := win l 0 (k1 + j)
            some (match cfg.cb.blockhtml with
                  | some f => if do_render then f ob w else ob
                  | none => ob, k1 + j)
          else none
        else none
      match commentRes with
      | some r => r
      | none =>
        -- HR, the only self-closing block tag considered
        if size > 4 ∧ (bget l 1 = 104 ∨ bget l 1 = 72) ∧ (bget l 2 = 114 ∨ bget l 2 = 82) then
          let k := scanW (fun c => !(c == 62)) l 3 size
          if k + 1 < size then
            let k1 := k + 1
            let j := is_empty (l.drop k1)
            if j ≠ 0 then
              let w := win l 0 (k1 + j)
              (match cfg.cb.blockhtml with
               | some f => if do_render then f ob w else ob
               | none => ob, k1 + j)
            else (ob, 0)
          else (ob, 0)
        else (ob, 0)
    | some tag =>
      let te0 := htmlblock_end tag l true
      let te := if te0 = 0 ∧ tag ≠ insBytes ∧ tag ≠ delBytes then htmlblock_end tag l false
                else te0
      if te = 0 then (ob, 0)
      else
        (match cfg.cb.blockhtml with
         | some f => if do_render then f ob (win l 0 te) else ob
         | none => ob, te)

/-! ### Fenced and indented code, paragraph, blockquote, list scans -/

/-- Body loop of `parse_fencedcode` (markdown.c:2126-2154):
`(work, consumed)`. -/
def fencedLoop (l : List Nat) : Nat → Nat → List Nat → List Nat × Nat
  | 0, beg, work => (work, beg)
  | fuel + 1, beg, work =>
    if beg < l.length then
      let fr := is_codefence (l.drop beg)
      if fr.1 ≠ 0 ∧ fr.2.length = 0 then (work, beg + fr.1)
      else
        let e := lineEnd l beg
        let work1 := if beg < e then
                       if is_empty (win l beg (e - beg)) ≠ 0 then work ++ [10]
                       else work ++ win l beg (e - beg)
                     else work
        fencedLoop l fuel e work1
    else (work, beg)

/-- `parse_fencedcode` (markdown.c:2109-2167):
`(st', ob', consumed)`; no recursion into the parser core. -/
def parse_fencedcode (cfg : Config) (st : MDState) (ob l : List Nat) :
    MDState × List Nat × Nat :=
  let fr := is_codefence l
  if fr.1 = 0 then (st, ob, 0)
  else
    let st1 := (rndr_newbuf st .block).1
    let r := fencedLoop l l.length fr.1 []
    let work := r.1
    let work1 := if work ≠ [] ∧ work.getLast? ≠ some 10 then work ++ [10] else work
    let ob1 := match cfg.cb.blockcode with
               | some f => f ob work1 (if fr.2.length ≠ 0 then some fr.2 else none)
               | none => ob
    (rndr_popbuf st1 .block, ob1, r.2)

/-- Body loop of `parse_blockcode` (markdown.c:2180-2207):
`(work, consumed)`. -/
def blockcodeLoop (l : List Nat) : Nat → Nat → List Nat → List Nat × Nat
  | 0, beg, work => (work, beg)
  | fuel + 1, beg, work =>
    if beg < l.length then
      let e := lineEnd l beg
      let pre := prefix_code (win l beg (e - beg))
      if pre ≠ 0 then
        let b2 := beg + pre
        let work1 := if b2 < e then
                       if is_empty (win l b2 (e - b2)) ≠ 0 then work ++ [10]
                       else work ++ win l b2 (e - b2)
                     else work
        blockcodeLoop l fuel e work1
      else if is_empty (win l beg (e - beg)) = 0 then (work, beg)
      else
        let work1 := if beg < e then
                       if is_empty (win l beg (e - beg)) ≠ 0 then work ++ [10]
                       else work ++ win l beg (e - beg)
                     else work
        blockcodeLoop l fuel e work1
    else (work, beg)

/-- `parse_blockcode` (markdown.c:2169-2222): `(st', ob', consumed)`. -/
def parse_blockcode (cfg : Config) (st : MDState) (ob l : List Nat) :
    MDState × List Nat × Nat :=
  let st1 := (rndr_newbuf st .block).1
  let r := blockcodeLoop l l.length 0 []
  let work1 := (r.1.reverse.dropWhile (fun c => c == 10)).reverse ++ [10]
  let ob1 := match cfg.cb.blockcode with
             | some f => f ob work1 none
             | none => ob
  (rndr_popbuf st1 .block, ob1, r.2)

/-- Line loop of `parse_paragraph` (markdown.c:1976-2028):
`(i, end, level)` at loop exit. -/
def paragraphLoop (cfg : Config) (ob l : List Nat) : Nat → Nat → Nat → Nat × Nat × Nat
  | 0, i, lastEnd => (i, lastEnd, 0)
  | fuel + 1, i, lastEnd =>
    if i < l.length then
      let e := lineEnd l i
      if is_empty (l.drop i) ≠ 0 then (i, e, 0)
      else if is_headerline (l.drop i) ≠ 0 then (i, e, is_headerline (l.drop i))
      else if is_atxheader cfg (l.drop i) ∨ is_hrule (l.drop i) ∨
          prefix_quote (l.drop i) ≠ 0 then (i, i, 0)
      else if cfg.ext.laxSpacing ∧ ¬ isalnumB (bget l i) then
        if prefix_oli (l.drop i) ≠ 0 ∨ prefix_uli (l.drop i) ≠ 0 then (i, i, 0)
        else if bget l i = 60 ∧ cfg.cb.blockhtml.isSome ∧
            (parse_htmlblock cfg ob (l.drop i) false).2 ≠ 0 then (i, i, 0)
        else if cfg.ext.fencedCode ∧ (is_codefence (l.drop i)).1 ≠ 0 then (i, i, 0)
        else paragraphLoop cfg ob l fuel e e
      else paragraphLoop cfg ob l fuel e e
    else (i, lastEnd, 0)

/-- Line-collection loop of `parse_blockquote` (markdown.c:1925-1952):
`(work, end)`; the C code splices the prefix-stripped segments in place
with `memmove`, here they are concatenated into a fresh list. -/
def bqLoop (l : List Nat) : Nat → Nat → Nat → List Nat → List Nat × Nat
  | 0, _, end0, work => (work, end0)
  | fuel + 1, beg, end0, work =>
    if beg < l.length then
      let e := lineEnd l beg
      let pre := prefix_quote (win l beg (e - beg))
      if pre ≠ 0 then
        bqLoop l fuel e e (work ++ win l (beg + pre) (e - (beg + pre)))
      else if is_empty (win l beg (e - beg)) ≠ 0 ∧
          (e ≥ l.length ∨ (prefix_quote (l.drop e) = 0 ∧ is_empty (l.drop e) = 0)) then
        (work, e)
      else
        bqLoop l fuel e e (work ++ win l beg (e - beg))
    else (work, end0)

/-- Line loop of `parse_listitem` (markdown.c:2277-2360):
`(work, sublist, flags, beg, has_inside_empty)` at loop exit. -/
def listitemLoop (cfg : Config) (l : List Nat) (orgpre : Nat) :
    Nat → Nat → List Nat → Nat → ListFlags → Bool → Bool → Bool →
    List Nat × Nat × ListFlags × Nat × Bool
  | 0, beg, work, sublist, flags, _, has_ie, _ => (work, sublist, flags, beg, has_ie)
  | fuel + 1, beg, work, sublist, flags, in_empty, has_ie, in_fence =>
    if beg < l.length then
      let e := lineEnd l beg
      if is_empty (win l beg (e - beg)) ≠ 0 then
        listitemLoop cfg l orgpre fuel e work sublist flags true has_ie in_fence
      else
        let i := scanW (fun c => c == 32) l beg (min (beg + 4) e) - beg
        let pre := i
        let inner := win l (beg + i) (e - beg - i)
        let in_fence1 := if cfg.ext.fencedCode ∧ (is_codefence inner).1 ≠ 0 then
                           ¬ in_fence else in_fence
        let has_next_uli := if in_fence1 then 0 else prefix_uli inner
        let has_next_oli := if in_fence1 then 0 else prefix_oli inner
        if in_empty ∧ ((flags.ordered ∧ has_next_uli ≠ 0) ∨
            (¬ flags.ordered ∧ has_next_oli ≠ 0)) then
          (work, sublist, { flags with liEnd := true }, beg, has_ie)
        else if (has_next_uli ≠ 0 ∧ ¬ is_hrule inner) ∨ has_next_oli ≠ 0 then
          let has_ie1 := if in_empty then true else has_ie
          if pre = orgpre then (work, sublist, flags, beg, has_ie1)
          else
            let sublist1 := if sublist = 0 then work.length else sublist
            listitemLoop cfg l orgpre fuel e (work ++ inner) sublist1 flags false has_ie1 in_fence1
        else if in_empty ∧ pre = 0 then
          (work, sublist, { flags with liEnd := true }, beg, has_ie)
        else
          let p := if in_empty then (work ++ [10], true) else (work, has_ie)
          listitemLoop cfg l orgpre fuel e (p.1 ++ inner) sublist flags false p.2 in_fence1
    else (work, sublist, flags, beg, has_ie)

/-! ### Table scans -/

/-- Underline parsing loop of `parse_table_header`
(markdown.c:2814-2855): `some (column alignments, exit index)` when all
columns parse, `none` on a break (which makes the caller fail). -/
def tableUnderLoop (l : List Nat) (under_end : Nat) :
    Nat → Nat → List (Bool × Bool) → Option (List (Bool × Bool) × Nat)
  | 0, i, acc => some (acc, i)
  | cols + 1, i, acc =>
    if i < under_end then
      let i1 := scanW (fun c => c == 32) l i under_end
      let p0 : Bool × Nat × Nat := if bget l i1 = 58 then (true, 1, i1 + 1) else (false, 0, i1)
      let i3 := scanW (fun c => c == 45) l p0.2.2 under_end
      let dash1 := p0.2.1 + (i3 - p0.2.2)
      let p1 : Bool × Nat × Nat := if i3 < under_end ∧ bget l i3 = 58 then
                                     (true, dash1 + 1, i3 + 1) else (false, dash1, i3)
      let i5 := scanW (fun c => c == 32) l p1.2.2 under_end
      if i5 < under_end ∧ bget l i5 ≠ 124 then none
      else if p1.2.1 < 3 then none
      else tableUnderLoop l under_end cols (i5 + 1) (acc ++ [(p0.1, p1.1)])
    else none

/-- Header recognition of `parse_table_header` (markdown.c:2767-2860)
minus the final `parse_table_row` call (done by the caller in the
recursive core): `some (header_end, under_end + 1, columns, col_data)`
or `none` when the region is not a table header. -/
def tableHeaderScan (l : List Nat) : Option (Nat × Nat × Nat × List (Bool × Bool)) :=
  let size := l.length
  let i := scanW (fun c => !(c == 10)) l 0 size
  let pipes := (win l 0 i).count 124
  if i = size ∨ pipes = 0 then none
  else
    let header_end := trimBack isspaceB l 0 i i
    let pipes1 : Int := pipes - (if bget l 0 = 124 then 1 else 0) -
                        (if header_end ≠ 0 ∧ bget l (header_end - 1) = 124 then 1 else 0)
    let columns := (pipes1 + 1).toNat
    let i2 := i + 1
    let i3 := if i2 < size ∧ bget l i2 = 124 then i2 + 1 else i2
    let under_end := scanW (fun c => !(c == 10)) l i3 size
    match tableUnderLoop l under_end columns i3 [] with
    | none => none
    | some r => some (header_end, under_end + 1, columns, r.1)

/-! ### Recursive core

All mutually recursive functions are structurally recursive on the fuel
counter `gas` (decremented at every nested call and loop iteration) and
return `Except Fail _`; `Fail.gas` is fuel exhaustion, `Fail.progress`
marks a loop iteration that failed to advance (which would be an
infinite loop in the C code). -/

/-- Failure modes of the fuelled translation. -/
inductive Fail where
  | gas
  | progress
deriving DecidableEq

/-- Bracket-matching scan of `char_link` (markdown.c:1162-1176) over
the window `w` with the link at absolute offset `b`: returns the
relative index of the matching `]` (or ≥ size) and the
`text_has_nl` flag. -/
def linkBracketScan (w : List Nat) (b size : Nat) : Nat → Nat → Int → Bool → Nat × Bool
  | 0, i, _, nl => (i, nl)
  | fuel + 1, i, level, nl =>
    if i < size then
      let c := bget w (b + i)
      if c = 10 then linkBracketScan w b size fuel (i + 1) level true
      else if bget w (b + i - 1) = 92 then linkBracketScan w b size fuel (i + 1) level nl
      else if c = 91 then linkBracketScan w b size fuel (i + 1) (level + 1) nl
      else if c = 93 then
        if level - 1 ≤ 0 then (i, nl)
        else linkBracketScan w b size fuel (i + 1) (level - 1) nl
      else linkBracketScan w b size fuel (i + 1) level nl
    else (i, nl)

/-- Inline-link URL scan of `char_link` (markdown.c:1240-1250). -/
def linkUrlScan (w : List Nat) (b size : Nat) : Nat → Nat → Nat
  | 0, i => i
  | fuel + 1, i =>
    if i < size then
      let c := bget w (b + i)
      if c = 92 then linkUrlScan w b size fuel (i + 2)
      else if c = 41 then i
      else if 1 ≤ i ∧ isspaceB (bget w (b + i - 1)) ∧ (c = 39 ∨ c = 34) then i
      else linkUrlScan w b size fuel (i + 1)
    else i

/-- Inline-link title scan of `char_link` (markdown.c:1261-1276):
`(exit index, in_title at exit)`. -/
def linkTitleScan (w : List Nat) (b size qtype : Nat) : Nat → Nat → Bool → Nat
  | 0, i, _ => i
  | fuel + 1, i, in_title =>
    if i < size then
      let c := bget w (b + i)
      if c = 92 then linkTitleScan w b size qtype fuel (i + 2) in_title
      else if c = qtype then linkTitleScan w b size qtype fuel (i + 1) false
      else if c = 41 ∧ ¬ in_title then i
      else linkTitleScan w b size qtype fuel (i + 1) in_title
    else i

/-- Newline squashing of reference-link ids (markdown.c:1361-1367 and
1403-1409): newlines become a single space unless the previous byte was
a space; `prev` starts as the byte before the id. -/
def nlSquash : List Nat → Nat → List Nat
  | [], _ => []
  | c :: r, prev =>
    if c ≠ 10 then c :: nlSquash r c
    else if prev ≠ 32 then 32 :: nlSquash r c
    else nlSquash r c

/-- Marker advance for the empty-line branch of the first pass and of
`is_footnote`-style scans is built into their loops; this helper is the
terminator-collapsing loop of pass 1 (markdown.c:3518-3525): starting
at `e`, consume the maximal run of `\n`/`\r` bytes, appending one `\n`
to the staging buffer for each `\n` and for each `\r` that is followed
by a further byte that is not `\n`. -/
def pass1Newlines (d : List Nat) : Nat → Nat → List Nat → List Nat × Nat
  | 0, e, text => (text, e)
  | fuel + 1, e, text =>
    if e < d.length ∧ (bget d e = 10 ∨ bget d e = 13) then
      let text1 := if bget d e = 10 ∨ (e + 1 < d.length ∧ bget d (e + 1) ≠ 10) then
                     text ++ [10] else text
      pass1Newlines d fuel (e + 1) text1
    else (text, e)

/-- Title scan of the inline-style branch of `char_link`
(markdown.c:1260-1297): `(title_b, title_e, i)` after the optional
quoted title at `iB`. -/
def linkTitleParse (w : List Nat) (b size iB : Nat) : Nat × Nat × Nat :=
  if bget w (b + iB) = 39 ∨ bget w (b + iB) = 34 then
    let qtype := bget w (b + iB)
    let iC := linkTitleScan w b size qtype size (iB + 1) true
    if iC ≥ size then (0, 0, size + 1)
    else
      let title_b := iB + 1
      let te0 := backScan isspaceB w (b + title_b) (b + iC - 1) - b
      if bget w (b + te0) ≠ 39 ∧ bget w (b + te0) ≠ 34 then (0, 0, iC)
      else (title_b, te0, iC)
  else (0, 0, iB)

/-- Link/title extraction of the inline-style branch of `char_link`
(markdown.c:1298-1326) once the bounds are known. -/
def linkInlineRest (st : MDState) (w : List Nat) (b iA iB title_b title_e iD : Nat) :
    Option (MDState × Option (List Nat) × Option (List Nat) × Nat) :=
  let link_e1 := if title_b = 0 ∧ (bget w (b + iB) = 39 ∨ bget w (b + iB) = 34) ∧
                    iD ≠ iB then iD else iB
  let link_e2 := trimBack isspaceB w (b + iA) (b + link_e1) (b + link_e1) - b
  let link_b1 := if bget w (b + iA) = 60 then iA + 1 else iA
  let link_e3 := if bget w (b + link_e2 - 1) = 62 then link_e2 - 1 else link_e2
  let st1 := if link_e3 > link_b1 then (rndr_newbuf st .span).1 else st
  let linkv := if link_e3 > link_b1 then some (win w (b + link_b1) (link_e3 - link_b1))
               else none
  let st2 := if title_e > title_b then (rndr_newbuf st1 .span).1 else st1
  let titlev := if title_e > title_b then some (win w (b + title_b) (title_e - title_b))
                else none
  some (st2, linkv, titlev, iD + 1)

/-- Inline-style branch of `char_link` (markdown.c:1240-1326). -/
def linkInline (st : MDState) (w : List Nat) (b size i : Nat) :
    Option (MDState × Option (List Nat) × Option (List Nat) × Nat) :=
  let iA := scanW isspaceB w (b + i + 1) (b + size) - b
  let iB := linkUrlScan w b size size iA
  if iB ≥ size then none
  else
    let tR := linkTitleParse w b size iB
    if tR.2.2 > size then none
    else linkInlineRest st w b iA iB tR.1 tR.2.1 tR.2.2

/-- Reference-style branch of `char_link` (markdown.c:1327-1380); the
`match` on the table lookup is written with `Option.map`. -/
def linkRefStyle (st : MDState) (w : List Nat) (b size txt_e : Nat)
    (text_has_nl : Bool) (i : Nat) :
    Option (MDState × Option (List Nat) × Option (List Nat) × Nat) :=
  let link_b := i + 1
  let iA := scanW (fun c => !(c == 93)) w (b + link_b) (b + size) - b
  if iA ≥ size then none
  else
    let pid : MDState × List Nat :=
      if link_b = iA then
        if text_has_nl then
          ((rndr_newbuf st .span).1, nlSquash (win w (b + 1) (txt_e - 1)) (bget w b))
        else (st, win w (b + 1) (txt_e - 1))
      else (st, win w (b + link_b) (iA - link_b))
    (find_link_ref pid.1.refs pid.2).map (fun lr => (pid.1, some lr.link, lr.title, iA + 1))

/-- Shortcut-reference branch of `char_link` (markdown.c:1381-1402). -/
def linkShortcut (st : MDState) (w : List Nat) (b txt_e : Nat) (text_has_nl : Bool) :
    Option (MDState × Option (List Nat) × Option (List Nat) × Nat) :=
  let pid : MDState × List Nat :=
    if text_has_nl then
      ((rndr_newbuf st .span).1, nlSquash (win w (b + 1) (txt_e - 1)) (bget w b))
    else (st, win w (b + 1) (txt_e - 1))
  (find_link_ref pid.1.refs pid.2).map (fun lr => (pid.1, some lr.link, lr.title, txt_e + 1))

/-- Link/title resolution of `char_link` (markdown.c:1217-1402): the
inline, reference and shortcut forms; `none` is a `goto cleanup` with
`ret = 0`. -/
def linkResolve (st : MDState) (w : List Nat) (b size txt_e : Nat)
    (text_has_nl : Bool) (i : Nat) :
    Option (MDState × Option (List Nat) × Option (List Nat) × Nat) :=
  if i < size ∧ bget w (b + i) = 40 then linkInline st w b size i
  else if i < size ∧ bget w (b + i) = 91 then linkRefStyle st w b size txt_e text_has_nl i
  else linkShortcut st w b txt_e text_has_nl

mutual

/-- `parse_inline` (markdown.c:497-537): nesting guard, then the
trigger-dispatch loop. -/
def parse_inline (gas : Nat) (cfg : Config) (st : MDState) (ob w : List Nat) :
    Except Fail (List Nat × MDState) :=
  if st.spanSize + st.blockSize > cfg.maxNesting then .ok (ob, st)
  else
    match gas with
    | 0 => .error .gas
    | g + 1 => parse_inlineLoop g cfg st ob w 0 0
termination_by structural gas

/-- Dispatch loop of `parse_inline` (markdown.c:508-536). -/
def parse_inlineLoop (gas : Nat) (cfg : Config) (st : MDState) (ob w : List Nat)
    (i e : Nat) : Except Fail (List Nat × MDState) :=
  match gas with
  | 0 => .error .gas
  | g + 1 =>
    let size := w.length
    if i < size then
      let e1 := scanW (fun c => activeChar cfg c == MDChar.none_) w e size
      let ob1 := match cfg.cb.normalText with
                 | some f => f ob (win w i (e1 - i))
                 | none => ob ++ win w i (e1 - i)
      if e1 ≥ size then .ok (ob1, st)
      else do
        let i1 := e1
        let r ← charTrigger g cfg (activeChar cfg (bget w i1)) st ob1 w i1
        let st1 := r.1
        let ob2 := r.2.1
        let consumed := r.2.2
        if consumed = 0 then parse_inlineLoop g cfg st1 ob2 w i1 (i1 + 1)
        else parse_inlineLoop g cfg st1 ob2 w (i1 + consumed) (i1 + consumed)
    else .ok (ob, st)
termination_by structural gas

/-- Trigger dispatch `markdown_char_ptrs[(int)action]`
(markdown.c:131-145, 528). -/
def charTrigger (gas : Nat) (cfg : Config) (action : MDChar) (st : MDState)
    (ob w : List Nat) (i : Nat) : Except Fail (MDState × List Nat × Nat) :=
  match gas with
  | 0 => .error .gas
  | g + 1 =>
    match action with
    | .none_ => .ok (st, ob, 0)
    | .emphasis => char_emphasis g cfg st ob w i
    | .codespan =>
      let p := char_codespan cfg ob (w.drop i)
      .ok (st, p.1, p.2)
    | .linebreak =>
      let p := char_linebreak cfg ob w i
      .ok (st, p.1, p.2)
    | .link => char_link g cfg st ob w i
    | .langle => .ok (char_langle_tag cfg st ob (w.drop i))
    | .escape =>
      let p := char_escape cfg ob (w.drop i)
      .ok (st, p.1, p.2)
    | .entity =>
      let p := char_entity cfg ob (w.drop i)
      .ok (st, p.1, p.2)
    | .autolinkUrl => .ok (char_autolink_url cfg st ob w i)
    | .autolinkEmail => .ok (char_autolink_email cfg st ob w i)
    | .autolinkWWW => .ok (char_autolink_www cfg st ob w i)
    | .superscript => char_superscript g cfg st ob w i
termination_by structural gas

/-- `char_emphasis` (markdown.c:829-870); `i` is the trigger offset in
window `w`. -/
def char_emphasis (gas : Nat) (cfg : Config) (st : MDState) (ob w : List Nat)
    (i : Nat) : Except Fail (MDState × List Nat × Nat) :=
  match gas with
  | 0 => .error .gas
  | g + 1 =>
    let size := w.length - i
    if cfg.ext.noIntraEmphasis ∧ i > 0 ∧ ¬ isspaceB (bget w (i - 1)) ∧
        bget w (i - 1) ≠ 62 then .ok (st, ob, 0)
    else
      let c := bget w i
      if size > 2 ∧ bget w (i + 1) ≠ c then
        if c = 43 ∨ c = 126 ∨ isspaceB (bget w (i + 1)) then .ok (st, ob, 0)
        else do
          let r ← parse_emph1 g cfg st ob w (i + 1) c
          if r.2.2 = 0 then .ok (r.1, r.2.1, 0)
          else .ok (r.1, r.2.1, r.2.2 + 1)
      else if size > 3 ∧ bget w (i + 1) = c ∧ bget w (i + 2) ≠ c then
        if isspaceB (bget w (i + 2)) then .ok (st, ob, 0)
        else do
          let r ← parse_emph2 g cfg st ob w (i + 2) c
          if r.2.2 = 0 then .ok (r.1, r.2.1, 0)
          else .ok (r.1, r.2.1, r.2.2 + 2)
      else if size > 4 ∧ bget w (i + 1) = c ∧ bget w (i + 2) = c ∧
          bget w (i + 3) ≠ c then
        if c = 43 ∨ c = 126 ∨ isspaceB (bget w (i + 3)) then .ok (st, ob, 0)
        else do
          let r ← parse_emph3 g cfg st ob w (i + 3) c
          if r.2.2 = 0 then .ok (r.1, r.2.1, 0)
          else .ok (r.1, r.2.1, r.2.2 + 3)
      else .ok (st, ob, 0)
termination_by structural gas

/-- `parse_emph1` (markdown.c:671-719); `b` is the absolute start of
its window inside `w`. -/
def parse_emph1 (gas : Nat) (cfg : Config) (st : MDState) (ob w : List Nat)
    (b : Nat) (c : Nat) : Except Fail (MDState × List Nat × Nat) :=
  match gas with
  | 0 => .error .gas
  | g + 1 =>
    match cfg.cb.emphasis with
    | none => .ok (st, ob, 0)
    | some _ =>
      let size := w.length - b
      let i0 := if size > 1 ∧ bget w b = c ∧ bget w (b + 1) = c then 1 else 0
      parse_emph1Loop g cfg st ob w b c i0
termination_by structural gas

def parse_emph1Loop (gas : Nat) (cfg : Config) (st : MDState) (ob w : List Nat)
    (b c i : Nat) : Except Fail (MDState × List Nat × Nat) :=
  match gas with
  | 0 => .error .gas
  | g + 1 =>
    let size := w.length - b
    if i < size then
      let len := find_emph_char (w.drop (b + i)) c
      if len = 0 then .ok (st, ob, 0)
      else
        let i1 := i + len
        if i1 ≥ size then .ok (st, ob, 0)
        else if bget w (b + i1) = c ∧ ¬ isspaceB (bget w (b + i1 - 1)) then
          if cfg.ext.noIntraEmphasis ∧ i1 + 1 < size ∧ isalnumB (bget w (b + i1 + 1)) then
            parse_emph1Loop g cfg st ob w b c i1
          else
            match cfg.cb.emphasis with
            | none => .ok (st, ob, 0)
            | some f => do
              let st1 := (rndr_newbuf st .span).1
              let r ← parse_inline g cfg st1 [] (win w b i1)
              let p := f ob r.1
              let st2 := rndr_popbuf r.2 .span
              .ok (st2, p.1, if p.2 then i1 + 1 else 0)
        else parse_emph1Loop g cfg st ob w b c i1
    else .ok (st, ob, 0)
termination_by structural gas

/-- `parse_emph2` (markdown.c:724-763). -/
def parse_emph2 (gas : Nat) (cfg : Config) (st : MDState) (ob w : List Nat)
    (b c : Nat) : Except Fail (MDState × List Nat × Nat) :=
  match gas with
  | 0 => .error .gas
  | g + 1 =>
    let method := if c = 43 then cfg.cb.ins
                  else if c = 126 then cfg.cb.strikethrough
                  else cfg.cb.doubleEmphasis
    match method with
    | none => .ok (st, ob, 0)
    | some f => parse_emph2Loop g cfg f st ob w b c 0
termination_by structural gas

def parse_emph2Loop (gas : Nat) (cfg : Config)
    (f : List Nat → List Nat → (List Nat × Bool)) (st : MDState) (ob w : List Nat)
    (b c i : Nat) : Except Fail (MDState × List Nat × Nat) :=
  match gas with
  | 0 => .error .gas
  | g + 1 =>
    let size := w.length - b
    if i < size then
      let len := find_emph_char (w.drop (b + i)) c
      if len = 0 then .ok (st, ob, 0)
      else
        let i1 := i + len
        if i1 + 1 < size ∧ bget w (b + i1) = c ∧ bget w (b + i1 + 1) = c ∧ i1 > 0 ∧
            ¬ isspaceB (bget w (b + i1 - 1)) then do
          let st1 := (rndr_newbuf st .span).1
          let r ← parse_inline g cfg st1 [] (win w b i1)
          let p := f ob r.1
          let st2 := rndr_popbuf r.2 .span
          .ok (st2, p.1, if p.2 then i1 + 2 else 0)
        else parse_emph2Loop g cfg f st ob w b c (i1 + 1)
    else .ok (st, ob, 0)
termination_by structural gas

/-- `parse_emph3` (markdown.c:770-824). -/
def parse_emph3 (gas : Nat) (cfg : Config) (st : MDState) (ob w : List Nat)
    (b c : Nat) : Except Fail (MDState × List Nat × Nat) :=
  match gas with
  | 0 => .error .gas
  | g + 1 => parse_emph3Loop g cfg st ob w b c 0
termination_by structural gas

def parse_emph3Loop (gas : Nat) (cfg : Config) (st : MDState) (ob w : List Nat)
    (b c i : Nat) : Except Fail (MDState × List Nat × Nat) :=
  match gas with
  | 0 => .error .gas
  | g + 1 =>
    let size := w.length - b
    if i < size then
      let len := find_emph_char (w.drop (b + i)) c
      if len = 0 then .ok (st, ob, 0)
      else
        let i1 := i + len
        if bget w (b + i1) ≠ c ∨ isspaceB (bget w (b + i1 - 1)) then
          parse_emph3Loop g cfg st ob w b c i1
        else if i1 + 2 < size ∧ bget w (b + i1 + 1) = c ∧ bget w (b + i1 + 2) = c ∧
            cfg.cb.tripleEmphasis.isSome then
          match cfg.cb.tripleEmphasis with
          | none => .ok (st, ob, 0)
          | some f => do
            let st1 := (rndr_newbuf st .span).1
            let r ← parse_inline g cfg st1 [] (win w b i1)
            let p := f ob r.1
            let st2 := rndr_popbuf r.2 .span
            .ok (st2, p.1, if p.2 then i1 + 3 else 0)
        else if i1 + 1 < size ∧ bget w (b + i1 + 1) = c then do
          let r ← parse_emph1 g cfg st ob w (b - 2) c
          if r.2.2 = 0 then .ok (r.1, r.2.1, 0)
          else .ok (r.1, r.2.1, r.2.2 - 2)
        else do
          let r ← parse_emph2 g cfg st ob w (b - 1) c
          if r.2.2 = 0 then .ok (r.1, r.2.1, 0)
          else .ok (r.1, r.2.1, r.2.2 - 1)
    else .ok (st, ob, 0)
termination_by structural gas

/-- `char_superscript` (markdown.c:1486-1534). -/
def char_superscript (gas : Nat) (cfg : Config) (st : MDState) (ob w : List Nat)
    (i : Nat) : Except Fail (MDState × List Nat × Nat) :=
  match gas with
  | 0 => .error .gas
  | g + 1 =>
    let size := w.length - i
    match cfg.cb.superscript with
    | none => .ok (st, ob, 0)
    | some f =>
      if size < 2 then .ok (st, ob, 0)
      else
        let ps : Nat × Nat :=
          if bget w (i + 1) = 40 then
            (2, scanIW (fun j => !(bget w (i + j) == 41) && !(bget w (i + j - 1) == 92)) 2 size)
          else
            (1, scanIW (fun j => !(isspaceB (bget w (i + j)))) 1 size)
        let sup_start := ps.1
        let sup_len := ps.2
        if sup_start = 2 ∧ sup_len = size then .ok (st, ob, 0)
        else if sup_len - sup_start = 0 then
          .ok (st, ob, if sup_start = 2 then 3 else 0)
        else do
          let st1 := (rndr_newbuf st .span).1
          let r ← parse_inline g cfg st1 [] (win w (i + sup_start) (sup_len - sup_start))
          let p := f ob r.1
          let st2 := rndr_popbuf r.2 .span
          .ok (st2, p.1, if sup_start = 2 then sup_len + 1 else sup_len)
termination_by structural gas

/-- `char_link` (markdown.c:1147-1484); `b` is the trigger offset of
`[` in window `w`.  Every `goto cleanup` restores the span-pool size to
its entry value. -/
def char_link (gas : Nat) (cfg : Config) (st : MDState) (ob w : List Nat)
    (b : Nat) : Except Fail (MDState × List Nat × Nat) :=
  match gas with
  | 0 => .error .gas
  | g + 1 =>
    let size := w.length - b
    let is_img := b > 0 ∧ bget w (b - 1) = 33
    let org := st.spanSize
    let cleanup : MDState → List Nat → Bool → Nat → MDState × List Nat × Nat :=
      fun st1 ob1 ret ii => ({ st1 with spanSize := org }, ob1, if ret then ii else 0)
    if (is_img ∧ cfg.cb.image.isNone) ∨ (¬ is_img ∧ cfg.cb.link.isNone) then
      .ok (cleanup st ob false 0)
    else
      let br := linkBracketScan w b size size 1 1 false
      if br.1 ≥ size then .ok (cleanup st ob false 0)
      else
        let txt_e := br.1
        let text_has_nl := br.2
        if cfg.ext.footnotes ∧ bget w (b + 1) = 94 then
          -- footnote link
          if txt_e < 3 then .ok (cleanup st ob false 0)
          else
            let id := win w (b + 2) (txt_e - 2)
            match find_footnote_idx st.found id with
            | none => .ok (cleanup st ob false 0)
            | some idx =>
              let fr := st.found.getD idx default
              let st1 := if ¬ fr.isUsed then
                           { st with
                             used := st.used ++ [idx],
                             found := st.found.set idx
                               { fr with isUsed := true, num := st.used.length + 1 } }
                         else st
              let num := if ¬ fr.isUsed then st.used.length + 1 else fr.num
              match cfg.cb.footnoteRef with
              | some f =>
                let p := f ob num
                .ok (cleanup st1 p.1 p.2 (txt_e + 1))
              | none => .ok (cleanup st1 ob false 0)
        else
          let iw := scanW isspaceB w (b + txt_e + 1) (b + size) - b
          charLinkRest g cfg st ob w b size is_img org txt_e text_has_nl iw
termination_by structural gas

/-- Continuation of `char_link` after the footnote branch
(markdown.c:1217-1484): the inline, reference and shortcut forms. -/
def charLinkRest (gas : Nat) (cfg : Config) (st : MDState) (ob w : List Nat)
    (b size : Nat) (is_img : Bool) (org txt_e : Nat) (text_has_nl : Bool)
    (i : Nat) : Except Fail (MDState × List Nat × Nat) :=
  match gas with
  | 0 => .error .gas
  | g + 1 =>
    let cleanup : MDState → List Nat → Bool → Nat → MDState × List Nat × Nat :=
      fun st1 ob1 ret ii => ({ st1 with spanSize := org }, ob1, if ret then ii else 0)
    match linkResolve st w b size txt_e text_has_nl i with
    | none => .ok (cleanup st ob false 0)
    | some res => do
      let st2 := res.1
      let linkv := res.2.1
      let titlev := res.2.2.1
      let iFinal := res.2.2.2
      -- building content: img alt is escaped, link content is parsed
      let contentRes : Except Fail (MDState × Option (List Nat)) :=
        if txt_e > 1 then
          let st3 := (rndr_newbuf st2 .span).1
          if is_img then .ok (st3, some (win w (b + 1) (txt_e - 1)))
          else do
            let st4 := { st3 with inLinkBody := true }
            let r ← parse_inline g cfg st4 [] (win w (b + 1) (txt_e - 1))
            .ok ({ r.2 with inLinkBody := false }, some r.1)
        else .ok (st2, none)
      let cr ← contentRes
      let st5 := cr.1
      let contentv := cr.2
      let p2 : MDState × Option (List Nat) :=
        match linkv with
        | some lk => ((rndr_newbuf st5 .span).1, some (unscape_text [] lk))
        | none => (st5, none)
      let st6 := p2.1
      let u_link := p2.2
      if is_img then
        match cfg.cb.image with
        | some f =>
          let ob1 := if ob.getLast? = some 33 then ob.dropLast else ob
          let pr := f ob1 u_link titlev contentv
          pure (cleanup st6 pr.1 pr.2 iFinal)
        | none => pure (cleanup st6 ob false 0)
      else
        match cfg.cb.link with
        | some f =>
          let pr := f ob u_link titlev contentv
          pure (cleanup st6 pr.1 pr.2 iFinal)
        | none => pure (cleanup st6 ob false 0)

termination_by structural gas
end

/-- Table-cell flags for column `col` (`col_data[col] | header_flag`,
markdown.c:2751). -/
def mkTableFlags (colData : List (Bool × Bool)) (col : Nat) (hdr : Bool) : TableFlags :=
  { alignL := (colData.getD col (false, false)).1,
    alignR := (colData.getD col (false, false)).2,
    headerRow := hdr }

mutual

/-- `parse_block` (markdown.c:2917-2962): nesting guard, then the
first-match-wins rule loop. -/
def parse_block (gas : Nat) (cfg : Config) (st : MDState) (ob l : List Nat) :
    Except Fail (List Nat × MDState) :=
  if st.spanSize + st.blockSize > cfg.maxNesting then .ok (ob, st)
  else
    match gas with
    | 0 => .error .gas
    | g + 1 => parse_blockLoop g cfg st ob l 0
termination_by structural gas

/-- Rule loop of `parse_block` (markdown.c:2926-2961); a rule that
consumes nothing on a path the C code would loop on yields
`Fail.progress`. -/
def parse_blockLoop (gas : Nat) (cfg : Config) (st : MDState) (ob l : List Nat)
    (beg : Nat) : Except Fail (List Nat × MDState) :=
  match gas with
  | 0 => .error .gas
  | g + 1 =>
    if beg < l.length then do
      let r ← parse_blockStep g cfg st ob l beg
      if r.2.2 = 0 then .error .progress
      else parse_blockLoop g cfg r.1 r.2.1 l (beg + r.2.2)
    else .ok (ob, st)
termination_by structural gas

/-- One rule application of `parse_block` at offset `beg`
(markdown.c:2928-2960): first matching rule wins. -/
def parse_blockStep (gas : Nat) (cfg : Config) (st : MDState) (ob l : List Nat)
    (beg : Nat) : Except Fail (MDState × List Nat × Nat) :=
  match gas with
  | 0 => .error .gas
  | g + 1 =>
    let txt := l.drop beg
    if is_atxheader cfg txt then parse_atxheader g cfg st ob txt
    else if bget l beg = 60 ∧ cfg.cb.blockhtml.isSome ∧
        (parse_htmlblock cfg ob txt true).2 ≠ 0 then
      .ok (st, (parse_htmlblock cfg ob txt true).1, (parse_htmlblock cfg ob txt true).2)
    else if is_empty txt ≠ 0 then .ok (st, ob, is_empty txt)
    else if is_hrule txt then
      .ok (st,
        (match cfg.cb.hrule with
         | some f => f ob
         | none => ob),
        scanW (fun c => !(c == 10)) l beg l.length + 1 - beg)
    else if cfg.ext.fencedCode ∧ (parse_fencedcode cfg st ob txt).2.2 ≠ 0 then
      .ok (parse_fencedcode cfg st ob txt)
    else
      (if cfg.ext.tables then parse_table g cfg st ob txt
       else .ok (st, ob, 0)) >>= fun tb =>
        parse_blockRules g cfg tb txt (cfg.ext.tables && !(tb.2.2 == 0))
termination_by structural gas

/-- Tail of the `parse_block` rule chain, after the table rule
(markdown.c:2946-2960); `tablesHit` records a successful table parse
(its result `tb` is then returned as is). -/
def parse_blockRules (gas : Nat) (cfg : Config) (tb : MDState × List Nat × Nat)
    (txt : List Nat) (tablesHit : Bool) :
    Except Fail (MDState × List Nat × Nat) :=
  match gas with
  | 0 => .error .gas
  | g + 1 =>
    if tablesHit then .ok tb
    else if prefix_quote txt ≠ 0 then parse_blockquote g cfg tb.1 tb.2.1 txt
    else if prefix_code txt ≠ 0 then .ok (parse_blockcode cfg tb.1 tb.2.1 txt)
    else if prefix_uli txt ≠ 0 then
      parse_list g cfg tb.1 tb.2.1 txt { ordered := false }
    else if prefix_oli txt ≠ 0 then
      parse_list g cfg tb.1 tb.2.1 txt { ordered := true }
    else parse_paragraph g cfg tb.1 tb.2.1 txt
termination_by structural gas

/-- `parse_atxheader` (markdown.c:2430-2477). -/
def parse_atxheader (gas : Nat) (cfg : Config) (st : MDState) (ob l : List Nat) :
    Except Fail (MDState × List Nat × Nat) :=
  match gas with
  | 0 => .error .gas
  | g + 1 =>
    let size := l.length
    let level := scanW (fun c => c == 35) l 0 (min 6 size)
    let i := scanW (fun c => c == 32) l level size
    let e0 := scanW (fun c => !(c == 10)) l i size
    let skip := e0
    let e1 := trimBack (fun c => c == 35) l 0 e0 e0
    let e2 := trimBack (fun c => c == 32) l 0 e1 e1
    if e2 > i then do
      let st1 := (rndr_newbuf st .span).1
      let r ← parse_inline g cfg st1 [] (win l i (e2 - i))
      let ob1 := match cfg.cb.header with
                 | some f => f ob r.1 level
                 | none => ob
      .ok (rndr_popbuf r.2 .span, ob1, skip)
    else .ok (st, ob, skip)

/-- `parse_blockquote` (markdown.c:1912-1963). -/
def parse_blockquote (gas : Nat) (cfg : Config) (st : MDState) (ob l : List Nat) :
    Except Fail (MDState × List Nat × Nat) :=
  match gas with
  | 0 => .error .gas
  | g + 1 => do
    let st1 := (rndr_newbuf st .block).1
    let r0 := bqLoop l l.length 0 0 []
    let r ← parse_block g cfg st1 [] r0.1
    let ob1 := match cfg.cb.blockquote with
               | some f => f ob r.1
               | none => ob
    .ok (rndr_popbuf r.2 .block, ob1, r0.2)
termination_by structural gas

/-- `parse_paragraph` (markdown.c:1970-2104). -/
def parse_paragraph (gas : Nat) (cfg : Config) (st : MDState) (ob l : List Nat) :
    Except Fail (MDState × List Nat × Nat) :=
  match gas with
  | 0 => .error .gas
  | g + 1 =>
    let pl := paragraphLoop cfg ob l l.length 0 0
    let i := pl.1
    let e := pl.2.1
    let level := pl.2.2
    let w1 := trimBack (fun c => c == 10) l 0 i i
    if level = 0 then do
      let st1 := (rndr_newbuf st .block).1
      let r ← parse_inline g cfg st1 [] (win l 0 w1)
      let ob1 := match cfg.cb.paragraph with
                 | some f => f ob r.1
                 | none => ob
      .ok (rndr_popbuf r.2 .block, ob1, e)
    else do
      -- setext header: the last line becomes the header, the rest is
      -- emitted as its own paragraph first
      let hr : Except Fail (MDState × List Nat × Nat × Nat) :=
        if w1 ≠ 0 then
          let w2 := backScan (fun c => !(c == 10)) l 0 (w1 - 1)
          let beg2 := w2 + 1
          let w3 := trimBack (fun c => c == 10) l 0 w2 w2
          if w3 > 0 then do
            let st1 := (rndr_newbuf st .block).1
            let r ← parse_inline g cfg st1 [] (win l 0 w3)
            let ob1 := match cfg.cb.paragraph with
                       | some f => f ob r.1
                       | none => ob
            .ok (rndr_popbuf r.2 .block, ob1, beg2, w1 - beg2)
          else .ok (st, ob, 0, w1)
        else .ok (st, ob, 0, 0)
      let h ← hr
      let st2 := h.1
      let ob2 := h.2.1
      let hOff := h.2.2.1
      let hLen := h.2.2.2
      let st3 := (rndr_newbuf st2 .span).1
      let r ← parse_inline g cfg st3 [] (win l hOff hLen)
      let ob3 := match cfg.cb.header with
                 | some f => f ob2 r.1 level
                 | none => ob2
      .ok (rndr_popbuf r.2 .span, ob3, e)

/-- `parse_list` (markdown.c:2399-2425). -/
def parse_list (gas : Nat) (cfg : Config) (st : MDState) (ob l : List Nat)
    (flags : ListFlags) : Except Fail (MDState × List Nat × Nat) :=
  match gas with
  | 0 => .error .gas
  | g + 1 => do
    let st1 := (rndr_newbuf st .block).1
    let r ← parse_listLoop g cfg st1 [] l flags 0
    let ob1 := match cfg.cb.list with
               | some f => f ob r.2.1 r.2.2.1
               | none => ob
    .ok (rndr_popbuf r.1 .block, ob1, r.2.2.2)
termination_by structural gas

/-- Item loop of `parse_list` (markdown.c:2409-2416):
`(st, work, flags, i)`. -/
def parse_listLoop (gas : Nat) (cfg : Config) (st : MDState) (work l : List Nat)
    (flags : ListFlags) (i : Nat) : Except Fail (MDState × List Nat × ListFlags × Nat) :=
  match gas with
  | 0 => .error .gas
  | g + 1 =>
    if i < l.length then do
      let r ← parse_listitem g cfg st work (l.drop i) flags
      let j := r.2.2.2
      let i1 := i + j
      if j = 0 ∨ r.2.2.1.liEnd then .ok (r.1, r.2.1, r.2.2.1, i1)
      else parse_listLoop g cfg r.1 r.2.1 l r.2.2.1 i1
    else .ok (st, work, flags, i)
termination_by structural gas

/-- `parse_listitem` (markdown.c:2228-2394):
`(st, ob, flags, consumed)`. -/
def parse_listitem (gas : Nat) (cfg : Config) (st : MDState) (ob l : List Nat)
    (flags : ListFlags) : Except Fail (MDState × List Nat × ListFlags × Nat) :=
  match gas with
  | 0 => .error .gas
  | g + 1 =>
    let orgpre := spaces3 l
    let beg0 := if prefix_uli l ≠ 0 then prefix_uli l else prefix_oli l
    if beg0 = 0 then .ok (st, ob, flags, 0)
    else do
      let e0 := lineEnd l beg0
      let st1 := (rndr_newbuf st .span).1
      let st2 := (rndr_newbuf st1 .span).1
      let work0 := win l beg0 (e0 - beg0)
      let lr := listitemLoop cfg l orgpre l.length e0 work0 0 flags false false false
      let work := lr.1
      let sublist := lr.2.1
      let flags1 := lr.2.2.1
      let begF := lr.2.2.2.1
      let has_ie := lr.2.2.2.2
      let flags2 := if has_ie then { flags1 with liBlock := true } else flags1
      let r ← parse_listitemInter g cfg st2 work sublist flags2.liBlock
      let ob1 := match cfg.cb.listitem with
                 | some f => f ob r.1 flags2
                 | none => ob
      let st3 := rndr_popbuf (rndr_popbuf r.2 .span) .span
      .ok (st3, ob1, flags2, begF)
termination_by structural gas

/-- Body parse of one list item (markdown.c:2365-2383): block or
inline, with an optional sublist split. -/
def parse_listitemInter (gas : Nat) (cfg : Config) (st : MDState) (work : List Nat)
    (sublist : Nat) (liBlock : Bool) : Except Fail (List Nat × MDState) :=
  match gas with
  | 0 => .error .gas
  | g + 1 =>
    if liBlock then
      if sublist ≠ 0 ∧ sublist < work.length then do
        let r1 ← parse_block g cfg st [] (work.take sublist)
        parse_block g cfg r1.2 r1.1 (work.drop sublist)
      else parse_block g cfg st [] work
    else
      if sublist ≠ 0 ∧ sublist < work.length then do
        let r1 ← parse_inline g cfg st [] (work.take sublist)
        parse_block g cfg r1.2 r1.1 (work.drop sublist)
      else parse_inline g cfg st [] work
termination_by structural gas

/-- `parse_table` (markdown.c:2862-2912). -/
def parse_table (gas : Nat) (cfg : Config) (st : MDState) (ob l : List Nat) :
    Except Fail (MDState × List Nat × Nat) :=
  match gas with
  | 0 => .error .gas
  | g + 1 => do
    let st1 := (rndr_newbuf st .span).1
    let st2 := (rndr_newbuf st1 .block).1
    let hd ← parse_table_header g cfg st2 [] l
    let stH := hd.1
    let header_work := hd.2.1
    let i0 := hd.2.2.1
    let columns := hd.2.2.2.1
    let colData := hd.2.2.2.2
    if i0 > 0 then do
      let rw ← parse_tableRows g cfg stH [] l columns colData i0
      let ob1 := match cfg.cb.table with
                 | some f => f ob header_work rw.2.1
                 | none => ob
      let st3 := rndr_popbuf (rndr_popbuf rw.1 .span) .block
      .ok (st3, ob1, rw.2.2)
    else
      .ok (rndr_popbuf (rndr_popbuf stH .span) .block, ob, i0)

/-- Body-row loop of `parse_table` (markdown.c:2881-2900):
`(st, body_work, i)`. -/
def parse_tableRows (gas : Nat) (cfg : Config) (st : MDState) (body l : List Nat)
    (columns : Nat) (colData : List (Bool × Bool)) (i : Nat) :
    Except Fail (MDState × List Nat × Nat) :=
  match gas with
  | 0 => .error .gas
  | g + 1 =>
    if i < l.length then
      let i2 := scanW (fun c => !(c == 10)) l i l.length
      let pipes := (win l i (i2 - i)).count 124
      if pipes = 0 ∨ i2 = l.length then .ok (st, body, i)
      else do
        let r ← parse_table_row g cfg st body (win l i (i2 - i)) columns colData false
        parse_tableRows g cfg r.1 r.2 l columns colData (i2 + 1)
    else .ok (st, body, i)
termination_by structural gas

/-- `parse_table_header` (markdown.c:2767-2860):
`(st, ob, consumed, columns, col_data)`. -/
def parse_table_header (gas : Nat) (cfg : Config) (st : MDState) (ob l : List Nat) :
    Except Fail (MDState × List Nat × Nat × Nat × List (Bool × Bool)) :=
  match gas with
  | 0 => .error .gas
  | g + 1 =>
    match tableHeaderScan l with
    | none => .ok (st, ob, 0, 0, [])
    | some r => do
      let rr ← parse_table_row g cfg st ob (l.take r.1) r.2.2.1 r.2.2.2 true
      .ok (rr.1, rr.2, r.2.1, r.2.2.1, r.2.2.2)

/-- `parse_table_row` (markdown.c:2707-2765): `(st, ob)`. -/
def parse_table_row (gas : Nat) (cfg : Config) (st : MDState) (ob l : List Nat)
    (columns : Nat) (colData : List (Bool × Bool)) (hdr : Bool) :
    Except Fail (MDState × List Nat) :=
  match gas with
  | 0 => .error .gas
  | g + 1 =>
    match cfg.cb.tableCell, cfg.cb.tableRow with
    | some cellF, some rowF => do
      let st1 := (rndr_newbuf st .span).1
      let i0 := if 0 < l.length ∧ bget l 0 = 124 then 1 else 0
      let r ← parse_tableCells g cfg st1 [] l columns colData hdr 0 i0
      let row1 := ((List.range' r.2.2 (columns - r.2.2)).foldl
                    (fun acc c => cellF acc [] (mkTableFlags colData c hdr)) r.2.1)
      let ob1 := rowF ob row1
      .ok (rndr_popbuf r.1 .span, ob1)
    | _, _ => .ok (st, ob)

/-- Cell loop of `parse_table_row` (markdown.c:2727-2755):
`(st, row_work, col at exit)`. -/
def parse_tableCells (gas : Nat) (cfg : Config) (st : MDState) (row l : List Nat)
    (columns : Nat) (colData : List (Bool × Bool)) (hdr : Bool) (col i : Nat) :
    Except Fail (MDState × List Nat × Nat) :=
  match gas with
  | 0 => .error .gas
  | g + 1 =>
    if col < columns ∧ i < l.length then do
      let st1 := (rndr_newbuf st .span).1
      let i1 := scanW isspaceB l i l.length
      let cell_start := i1
      let i2 := scanIW (fun j => !(bget l j == 124) || (decide (0 < j) && (bget l (j - 1) == 92)))
                  i1 l.length
      let cell_end := i2 - 1
      let ce := backScan isspaceB l cell_start cell_end
      let r ← parse_inline g cfg st1 [] (win l cell_start (1 + ce - cell_start))
      let row1 := match cfg.cb.tableCell with
                  | some f => f row r.1 (mkTableFlags colData col hdr)
                  | none => row
      let st2 := rndr_popbuf r.2 .span
      parse_tableCells g cfg st2 row1 l columns colData hdr (col + 1) (i2 + 1)
    else .ok (st, row, col)
termination_by structural gas

/-- `parse_footnote_def` (markdown.c:2482-2497): `(st, ob)`. -/
def parse_footnote_def (gas : Nat) (cfg : Config) (st : MDState) (ob : List Nat)
    (num : Nat) (contents : List Nat) : Except Fail (MDState × List Nat) :=
  match gas with
  | 0 => .error .gas
  | g + 1 => do
    let st1 := (rndr_newbuf st .span).1
    let r ← parse_block g cfg st1 [] contents
    let ob1 := match cfg.cb.footnoteDef with
               | some f => f ob r.1 num
               | none => ob
    .ok (rndr_popbuf r.2 .span, ob1)

/-- Item loop of `parse_footnote_list` (markdown.c:2516-2520). -/
def parse_footnoteItems (gas : Nat) (cfg : Config) (st : MDState) (work : List Nat)
    (items : List Nat) : Except Fail (MDState × List Nat) :=
  match gas with
  | 0 => .error .gas
  | g + 1 =>
    match items with
    | [] => .ok (st, work)
    | idx :: rest => do
      let ref := st.found.getD idx default
      let r ← parse_footnote_def g cfg st work ref.num ref.contents
      parse_footnoteItems g cfg r.1 r.2 rest
termination_by structural gas

/-- `parse_footnote_list` (markdown.c:2502-2527): renders
`footnotes_used` in first-use order. -/
def parse_footnote_list (gas : Nat) (cfg : Config) (st : MDState) (ob : List Nat) :
    Except Fail (MDState × List Nat) :=
  match gas with
  | 0 => .error .gas
  | g + 1 =>
    if st.used.length = 0 then .ok (st, ob)
    else do
      let st1 := (rndr_newbuf st .block).1
      let r ← parse_footnoteItems g cfg st1 [] st.used
      let ob1 := match cfg.cb.footnotes with
                 | some f => f ob r.2
                 | none => ob
      .ok (rndr_popbuf r.1 .block, ob1)

end

/-! ### Two-pass driver -/

/-- UTF-8 BOM bytes (markdown.c:3462). -/
def UTF8_BOM : List Nat := [239, 187, 191]

/-- Line loop of pass 1 of `sd_markdown_render` (markdown.c:3501-3529):
footnote and link-reference definitions are extracted out of band,
remaining lines are copied to the staging buffer with tabs expanded and
terminators collapsed.  An iteration that fails to advance `beg` yields
`Fail.progress`. -/
def pass1Loop (gas : Nat) (cfg : Config) (d : List Nat) (beg : Nat)
    (text : List Nat) (st : MDState) : Except Fail (List Nat × MDState) :=
  match gas with
  | 0 => .error .gas
  | g + 1 =>
    if beg < d.length then
      match (if cfg.ext.footnotes then is_footnote d beg d.length else none) with
      | some fr =>
        if fr.1 ≤ beg then .error .progress
        else
          pass1Loop g cfg d fr.1 text
            { st with found := st.found ++
                [{ id := hash_link_ref fr.2.1, isUsed := false, num := 0,
                   contents := fr.2.2 }] }
      | none =>
        match is_ref d beg d.length with
        | some rr =>
          if rr.1 ≤ beg then .error .progress
          else
            pass1Loop g cfg d rr.1 text
              { st with refs := add_link_ref st.refs rr.2.1 rr.2.2.1 rr.2.2.2 }
        | none =>
          let e1 := scanW (fun c => !(c == 10) && !(c == 13)) d beg d.length
          let text1 := if e1 > beg then expand_tabs text (win d beg (e1 - beg)) else text
          let p := pass1Newlines d d.length e1 text1
          if p.2 ≤ beg then .error .progress
          else pass1Loop g cfg d p.2 p.1 st
    else .ok (text, st)

/-- Pass 1 of `sd_markdown_render` (markdown.c:3477-3529): reset the
reference tables, skip a UTF-8 BOM, then run the line loop.  Returns
the staging buffer and the populated parser state. -/
def pass1 (gas : Nat) (cfg : Config) (d : List Nat) : Except Fail (List Nat × MDState) :=
  let beg0 := if d.length ≥ 3 ∧ d.take 3 = UTF8_BOM then 3 else 0
  pass1Loop gas cfg d beg0 [] {}

/-- Pass 2 of `sd_markdown_render` (markdown.c:3536-3561) on the
staging buffer and state produced by pass 1. -/
def pass2 (gas : Nat) (cfg : Config) (ob : List Nat) (p : List Nat × MDState) :
    Except Fail (List Nat × MDState) := do
  let text := p.1
  let st := p.2
  let ob1 := match cfg.cb.docHeader with
             | some f => f ob
             | none => ob
  let r2 ← (if text.length ≠ 0 then
              let text2 := if text.getLast? ≠ some 10 ∧ text.getLast? ≠ some 13 then
                             text ++ [10] else text
              parse_block gas cfg st ob1 text2
            else .ok (ob1, st))
  let r3 ← (if cfg.ext.footnotes then do
              let r ← parse_footnote_list gas cfg r2.2 r2.1
              .ok (r.2, r.1)
            else .ok r2)
  let ob4 := match cfg.cb.docFooter with
             | some f => f r3.1
             | none => r3.1
  let ob5 := match cfg.cb.outline with
             | some f => f ob4
             | none => ob4
  .ok (ob5, r3.2)

/-- `sd_markdown_render` (markdown.c:3459-3574), with allocation
succeeding: pass 1 extracts references into the state and stages the
normalized text; pass 2 renders it into `ob`.  The result is the final
output buffer and parser state (whose pool counters the source asserts
to be zero at markdown.c:3572-3573). -/
def sd_markdown_render (gas : Nat) (cfg : Config) (ob d : List Nat) :
    Except Fail (List Nat × MDState) := do
  let p ← pass1 gas cfg d
  pass2 gas cfg ob p

/-- Pool-balance invariant of the parser cluster at one gas level:
every function of the two mutual blocks, when it returns `.ok`,
returns a state whose two pool counters equal those of its input state
(for `charLinkRest`, whose every exit runs the `cleanup` of
`char_link`, the span counter equals the caller-supplied `org`).  This
is the inductive content of the source's exit assertions
`work_bufs[*].size == 0` (markdown.c:3572-3573). -/
structure PoolAll (gas : Nat) : Prop where
  pinline : ∀ cfg st ob w r, parse_inline gas cfg st ob w = .ok r →
    r.2.spanSize = st.spanSize ∧ r.2.blockSize = st.blockSize
  piloop : ∀ cfg st ob w i e r, parse_inlineLoop gas cfg st ob w i e = .ok r →
    r.2.spanSize = st.spanSize ∧ r.2.blockSize = st.blockSize
  ctrig : ∀ cfg a st ob w i r, charTrigger gas cfg a st ob w i = .ok r →
    r.1.spanSize = st.spanSize ∧ r.1.blockSize = st.blockSize
  cemph : ∀ cfg st ob w i r, char_emphasis gas cfg st ob w i = .ok r →
    r.1.spanSize = st.spanSize ∧ r.1.blockSize = st.blockSize
  pe1 : ∀ cfg st ob w b c r, parse_emph1 gas cfg st ob w b c = .ok r →
    r.1.spanSize = st.spanSize ∧ r.1.blockSize = st.blockSize
  pe1l : ∀ cfg st ob w b c i r, parse_emph1Loop gas cfg st ob w b c i = .ok r →
    r.1.spanSize = st.spanSize ∧ r.1.blockSize = st.blockSize
  pe2 : ∀ cfg st ob w b c r, parse_emph2 gas cfg st ob w b c = .ok r →
    r.1.spanSize = st.spanSize ∧ r.1.blockSize = st.blockSize
  pe2l : ∀ cfg f st ob w b c i r, parse_emph2Loop gas cfg f st ob w b c i = .ok r →
    r.1.spanSize = st.spanSize ∧ r.1.blockSize = st.blockSize
  pe3 : ∀ cfg st ob w b c r, parse_emph3 gas cfg st ob w b c = .ok r →
    r.1.spanSize = st.spanSize ∧ r.1.blockSize = st.blockSize
  pe3l : ∀ cfg st ob w b c i r, parse_emph3Loop gas cfg st ob w b c i = .ok r →
    r.1.spanSize = st.spanSize ∧ r.1.blockSize = st.blockSize
  csup : ∀ cfg st ob w i r, char_superscript gas cfg st ob w i = .ok r →
    r.1.spanSize = st.spanSize ∧ r.1.blockSize = st.blockSize
  clink : ∀ cfg st ob w b r, char_link gas cfg st ob w b = .ok r →
    r.1.spanSize = st.spanSize ∧ r.1.blockSize = st.blockSize
  clrest : ∀ cfg st ob w b size is_img org txt_e thn i r,
    charLinkRest gas cfg st ob w b size is_img org txt_e thn i = .ok r →
    r.1.spanSize = org ∧ r.1.blockSize = st.blockSize
  pblock : ∀ cfg st ob l r, parse_block gas cfg st ob l = .ok r →
    r.2.spanSize = st.spanSize ∧ r.2.blockSize = st.blockSize
  pbloop : ∀ cfg st ob l beg r, parse_blockLoop gas cfg st ob l beg = .ok r →
    r.2.spanSize = st.spanSize ∧ r.2.blockSize = st.blockSize
  pbstep : ∀ cfg st ob l beg r, parse_blockStep gas cfg st ob l beg = .ok r →
    r.1.spanSize = st.spanSize ∧ r.1.blockSize = st.blockSize
  pbrules : ∀ cfg tb txt th r, parse_blockRules gas cfg tb txt th = .ok r →
    r.1.spanSize = tb.1.spanSize ∧ r.1.blockSize = tb.1.blockSize
  patx : ∀ cfg st ob l r, parse_atxheader gas cfg st ob l = .ok r →
    r.1.spanSize = st.spanSize ∧ r.1.blockSize = st.blockSize
  pbq : ∀ cfg st ob l r, parse_blockquote gas cfg st ob l = .ok r →
    r.1.spanSize = st.spanSize ∧ r.1.blockSize = st.blockSize
  ppar : ∀ cfg st ob l r, parse_paragraph gas cfg st ob l = .ok r →
    r.1.spanSize = st.spanSize ∧ r.1.blockSize = st.blockSize
  plist : ∀ cfg st ob l fl r, parse_list gas cfg st ob l fl = .ok r →
    r.1.spanSize = st.spanSize ∧ r.1.blockSize = st.blockSize
  plloop : ∀ cfg st work l fl i r, parse_listLoop gas cfg st work l fl i = .ok r →
    r.1.spanSize = st.spanSize ∧ r.1.blockSize = st.blockSize
  plitem : ∀ cfg st ob l fl r, parse_listitem gas cfg st ob l fl = .ok r →
    r.1.spanSize = st.spanSize ∧ r.1.blockSize = st.blockSize
  pliInter : ∀ cfg st work sub lb r, parse_listitemInter gas cfg st work sub lb = .ok r →
    r.2.spanSize = st.spanSize ∧ r.2.blockSize = st.blockSize
  ptable : ∀ cfg st ob l r, parse_table gas cfg st ob l = .ok r →
    r.1.spanSize = st.spanSize ∧ r.1.blockSize = st.blockSize
  ptrows : ∀ cfg st body l cols cd i r, parse_tableRows gas cfg st body l cols cd i = .ok r →
    r.1.spanSize = st.spanSize ∧ r.1.blockSize = st.blockSize
  pthead : ∀ cfg st ob l r, parse_table_header gas cfg st ob l = .ok r →
    r.1.spanSize = st.spanSize ∧ r.1.blockSize = st.blockSize
  ptrow : ∀ cfg st ob l cols cd hdr r, parse_table_row gas cfg st ob l cols cd hdr = .ok r →
    r.1.spanSize = st.spanSize ∧ r.1.blockSize = st.blockSize
  ptcells : ∀ cfg st row l cols cd hdr col i r,
    parse_tableCells gas cfg st row l cols cd hdr col i = .ok r →
    r.1.spanSize = st.spanSize ∧ r.1.blockSize = st.blockSize
  pfdef : ∀ cfg st ob num contents r, parse_footnote_def gas cfg st ob num contents = .ok r →
    r.1.spanSize = st.spanSize ∧ r.1.blockSize = st.blockSize
  pfitems : ∀ cfg st work items r, parse_footnoteItems gas cfg st work items = .ok r →
    r.1.spanSize = st.spanSize ∧ r.1.blockSize = st.blockSize
  pflist : ∀ cfg st ob r, parse_footnote_list gas cfg st ob = .ok r →
    r.1.spanSize = st.spanSize ∧ r.1.blockSize = st.blockSize

/-- Progress-freedom of the parser cluster at one gas level: no
function of the two mutual blocks returns `Fail.progress`; the one
fallible loop, the rule loop of `parse_block`, always advances
(markdown.c:2926-2961). -/
structure NoProg (gas : Nat) : Prop where
  pinline : ∀ cfg st ob w, parse_inline gas cfg st ob w ≠ .error .progress
  piloop : ∀ cfg st ob w i e, parse_inlineLoop gas cfg st ob w i e ≠ .error .progress
  ctrig : ∀ cfg a st ob w i, charTrigger gas cfg a st ob w i ≠ .error .progress
  cemph : ∀ cfg st ob w i, char_emphasis gas cfg st ob w i ≠ .error .progress
  pe1 : ∀ cfg st ob w b c, parse_emph1 gas cfg st ob w b c ≠ .error .progress
  pe1l : ∀ cfg st ob w b c i, parse_emph1Loop gas cfg st ob w b c i ≠ .error .progress
  pe2 : ∀ cfg st ob w b c, parse_emph2 gas cfg st ob w b c ≠ .error .progress
  pe2l : ∀ cfg f st ob w b c i, parse_emph2Loop gas cfg f st ob w b c i ≠ .error .progress
  pe3 : ∀ cfg st ob w b c, parse_emph3 gas cfg st ob w b c ≠ .error .progress
  pe3l : ∀ cfg st ob w b c i, parse_emph3Loop gas cfg st ob w b c i ≠ .error .progress
  csup : ∀ cfg st ob w i, char_superscript gas cfg st ob w i ≠ .error .progress
  clink : ∀ cfg st ob w b, char_link gas cfg st ob w b ≠ .error .progress
  clrest : ∀ cfg st ob w b size is_img org txt_e thn i,
    charLinkRest gas cfg st ob w b size is_img org txt_e thn i ≠ .error .progress
  pblock : ∀ cfg st ob l, parse_block gas cfg st ob l ≠ .error .progress
  pbloop : ∀ cfg st ob l beg, parse_blockLoop gas cfg st ob l beg ≠ .error .progress
  pbstep : ∀ cfg st ob l beg, parse_blockStep gas cfg st ob l beg ≠ .error .progress
  pbrules : ∀ cfg tb txt th, parse_blockRules gas cfg tb txt th ≠ .error .progress
  patx : ∀ cfg st ob l, parse_atxheader gas cfg st ob l ≠ .error .progress
  pbq : ∀ cfg st ob l, parse_blockquote gas cfg st ob l ≠ .error .progress
  ppar : ∀ cfg st ob l, parse_paragraph gas cfg st ob l ≠ .error .progress
  plist : ∀ cfg st ob l fl, parse_list gas cfg st ob l fl ≠ .error .progress
  plloop : ∀ cfg st work l fl i, parse_listLoop gas cfg st work l fl i ≠ .error .progress
  plitem : ∀ cfg st ob l fl, parse_listitem gas cfg st ob l fl ≠ .error .progress
  pliInter : ∀ cfg st work sub lb,
    parse_listitemInter gas cfg st work sub lb ≠ .error .progress
  ptable : ∀ cfg st ob l, parse_table gas cfg st ob l ≠ .error .progress
  ptrows : ∀ cfg st body l cols cd i,
    parse_tableRows gas cfg st body l cols cd i ≠ .error .progress
  pthead : ∀ cfg st ob l, parse_table_header gas cfg st ob l ≠ .error .progress
  ptrow : ∀ cfg st ob l cols cd hdr,
    parse_table_row gas cfg st ob l cols cd hdr ≠ .error .progress
  ptcells : ∀ cfg st row l cols cd hdr col i,
    parse_tableCells gas cfg st row l cols cd hdr col i ≠ .error .progress
  pfdef : ∀ cfg st ob num contents,
    parse_footnote_def gas cfg st ob num contents ≠ .error .progress
  pfitems : ∀ cfg st work items, parse_footnoteItems gas cfg st work items ≠ .error .progress
  pflist : ∀ cfg st ob, parse_footnote_list gas cfg st ob ≠ .error .progress

/-- Decidable equality on `Except`, for concrete evaluation of
results. -/
instance exceptDecEq {ε α : Type} [DecidableEq ε] [DecidableEq α] :
    DecidableEq (Except ε α) := fun x y =>
  match x, y with
  | .ok a, .ok b =>
    if h : a = b then .isTrue (by rw [h]) else .isFalse (by simp [h])
  | .error a, .error b =>
    if h : a = b then .isTrue (by rw [h]) else .isFalse (by simp [h])
  | .ok _, .error _ => .isFalse (by simp)
  | .error _, .ok _ => .isFalse (by simp)

/-! ## Theorems -/

/-! ### Facts about the scan helpers -/

theorem scanW_ge (p : Nat → Bool) (l : List Nat) (i stop : Nat) :
    i ≤ scanW p l i stop := Nat.le_add_right i _

theorem scanW_le_stop (p : Nat → Bool) (l : List Nat) (i stop : Nat)
    (h : i ≤ stop) : scanW p l i stop ≤ stop := by
  unfold scanW
  have h1 : (((l.drop i).take (stop - i)).takeWhile p).length ≤
      ((l.drop i).take (stop - i)).length := (List.takeWhile_prefix p).length_le
  have h2 : ((l.drop i).take (stop - i)).length ≤ stop - i := by
    simp [List.length_take]
  omega

theorem bget_drop_take (l : List Nat) (i stop k : Nat) (hk : k < stop - i) :
    ((l.drop i).take (stop - i)).getD k 0 = bget l (i + k) := by
  unfold bget
  rw [List.getD_eq_getElem?_getD, List.getD_eq_getElem?_getD]
  rw [List.getElem?_take_of_lt hk, List.getElem?_drop]

theorem scanW_stop_false (p : Nat → Bool) (l : List Nat) (i stop : Nat)
    (hstop : stop ≤ l.length) (h : scanW p l i stop < stop) :
    p (bget l (scanW p l i stop)) = false := by
  set ww := (l.drop i).take (stop - i) with hww
  set tw := ww.takeWhile p with htw
  have hj : scanW p l i stop = i + tw.length := rfl
  have hik : tw.length < stop - i := by omega
  have hwwlen : ww.length = stop - i := by
    rw [hww]
    simp [List.length_take, List.length_drop]
    omega
  have hlt : tw.length < ww.length := by omega
  -- the element right after the takeWhile prefix fails p
  have hsplit : tw ++ ww.dropWhile p = ww := List.takeWhile_append_dropWhile p ww
  have hdwne : ww.dropWhile p ≠ [] := by
    intro hnil
    rw [hnil, List.append_nil] at hsplit
    rw [hsplit] at hlt
    omega
  have hhead : p ((ww.dropWhile p).head hdwne) = false :=
    List.head_dropWhile_not p ww hdwne
  have helem : ww.getD tw.length 0 = (ww.dropWhile p).head hdwne := by
    conv_lhs => rw [← hsplit]
    rw [List.getD_eq_getElem?_getD]
    rw [List.getElem?_append_right (Nat.le_refl _)]
    simp only [Nat.sub_self]
    rw [List.getElem?_eq_getElem (by exact List.length_pos.mpr hdwne)]
    simp [List.head_eq_getElem]
  have hbg : bget l (i + tw.length) = ww.getD tw.length 0 := by
    rw [bget_drop_take l i stop tw.length hik]
  rw [hj, hbg, helem, hhead]

theorem scanW_all_true (p : Nat → Bool) (l : List Nat) (i stop : Nat)
    (hstop : stop ≤ l.length) :
    ∀ j, i ≤ j → j < scanW p l i stop → p (bget l j) = true := by
  intro j hij hj
  set ww := (l.drop i).take (stop - i) with hww
  set tw := ww.takeWhile p with htw
  have hj2 : j - i < tw.length := by
    have : scanW p l i stop = i + tw.length := rfl
    omega
  have hp : tw <+: ww := List.takeWhile_prefix p
  have hwwlen : ww.length = min (stop - i) (l.length - i) := by
    rw [hww]; simp [List.length_take, List.length_drop]
  have htwle : tw.length ≤ ww.length := hp.length_le
  have hmem : tw.getD (j - i) 0 ∈ tw := by
    rw [List.getD_eq_getElem?_getD, List.getElem?_eq_getElem hj2]
    exact List.getElem_mem _
  have hsat : p (tw.getD (j - i) 0) = true := List.mem_takeWhile_imp hmem
  have heq : tw.getD (j - i) 0 = bget l j := by
    rw [List.getD_eq_getElem?_getD, List.getElem?_eq_getElem hj2,
      hp.getElem hj2]
    have hq1 : j - i < stop - i :=
      Nat.lt_of_lt_of_le hj2 (Nat.le_trans htwle (by rw [hwwlen]; exact Nat.min_le_left _ _))
    have hq2 : j - i < l.length - i :=
      Nat.lt_of_lt_of_le hj2 (Nat.le_trans htwle (by rw [hwwlen]; exact Nat.min_le_right _ _))
    have hiL : i < l.length := by
      by_contra hc
      push_neg at hc
      have h0 : l.length - i = 0 := Nat.sub_eq_zero_of_le hc
      omega
    have hil : i + (j - i) < l.length := by
      have h5 := Nat.add_lt_add_left hq2 i
      rwa [Nat.add_sub_cancel' (Nat.le_of_lt hiL)] at h5
    have hwd : ww.getD (j - i) 0 = bget l (i + (j - i)) :=
      bget_drop_take l i stop (j - i) hq1
    rw [List.getD_eq_getElem?_getD,
      List.getElem?_eq_getElem (Nat.lt_of_lt_of_le hj2 htwle)] at hwd
    simp only [Option.getD_some] at hwd
    have hj3 : i + (j - i) = j := by omega
    rw [hj3] at hwd
    exact hwd
  rw [← heq, hsat]

/-- `scanW` is determined by its interval properties: it is the unique
`v` in `[i, stop]` below which `p` holds and at which `p` fails (unless
`v = stop`). -/
theorem scanW_eq (p : Nat → Bool) (l : List Nat) (i stop v : Nat)
    (hstop : stop ≤ l.length) (hi : i ≤ stop)
    (hiv : i ≤ v) (hvs : v ≤ stop)
    (hall : ∀ k, k < v → i ≤ k → p (bget l k) = true)
    (hend : v < stop → p (bget l v) = false) :
    scanW p l i stop = v := by
  rcases Nat.lt_trichotomy (scanW p l i stop) v with h | h | h
  · have h1 := scanW_stop_false p l i stop hstop (Nat.lt_of_lt_of_le h hvs)
    have h2 := hall _ h (scanW_ge p l i stop)
    rw [h1] at h2
    exact absurd h2 (by simp)
  · exact h
  · have h1 := scanW_all_true p l i stop hstop v hiv h
    have h2 := hend (Nat.lt_of_lt_of_le h (scanW_le_stop p l i stop hi))
    rw [h2] at h1
    exact absurd h1 (by simp)

/-- `trimBack` is determined by its interval properties. -/
theorem trimBack_eq (p : Nat → Bool) (l : List Nat) (lo v : Nat)
    (hstop : ¬(lo < v ∧ p (bget l (v - 1)) = true)) :
    ∀ fuel f, v ≤ f → lo ≤ v → f - v ≤ fuel →
      (∀ k, v < k → k ≤ f → p (bget l (k - 1)) = true) →
      trimBack p l lo fuel f = v := by
  intro fuel
  induction fuel with
  | zero =>
    intro f hvf _ hfuel _
    have : f = v := by omega
    subst this
    rfl
  | succ n ih =>
    intro f hvf hlov hfuel hall
    rcases Nat.eq_or_lt_of_le hvf with heq | hlt
    · subst heq
      unfold trimBack
      rw [if_neg]
      intro hc
      exact hstop ⟨hc.1, hc.2⟩
    · unfold trimBack
      rw [if_pos ⟨by omega, hall f hlt (Nat.le_refl f)⟩]
      exact ih (f - 1) (by omega) hlov (by omega)
        (fun k hk1 hk2 => hall k hk1 (by omega))

/-- The delimiter scan of `char_codespan` stops exactly at the end of
the first point where `nb` consecutive backticks occur at or after
index `nb`. -/
theorem codespanScan_eq (l : List Nat) (nb j : Nat)
    (hnbj : nb ≤ j) (hjl : j + nb ≤ l.length)
    (hrun : ∀ k, k < nb → bget l (j + k) = 96)
    (hmin : ∀ e, e < j → nb ≤ e → ∃ k, k < nb ∧ ¬ bget l (e + k) = 96) :
    ∀ fuel e cnt, nb ≤ e - cnt → cnt ≤ nb → e ≤ j + nb →
      (∀ k, k < cnt → bget l (e - cnt + k) = 96) →
      (j ≤ e → e - j ≤ cnt) →
      j + nb - e ≤ fuel →
      codespanScan l nb fuel e cnt = (j + nb, nb) := by
  have key : ∀ e cnt, nb ≤ e - cnt → cnt ≤ nb → e ≤ j + nb →
      (∀ k, k < cnt → bget l (e - cnt + k) = 96) → cnt = nb → e = j + nb := by
    intro e cnt hec hcnt hej hstreak hcn
    subst hcn
    by_cases hje : j ≤ e - cnt
    · omega
    · push_neg at hje
      obtain ⟨k, hk, hkne⟩ := hmin (e - cnt) hje hec
      exact absurd (hstreak k hk) hkne
  intro fuel
  induction fuel with
  | zero =>
    intro e cnt hec hcnt hej hstreak hjcnt hfuel
    have he : e = j + nb := by omega
    have hc : cnt = nb := by
      have := hjcnt (by omega)
      omega
    subst he; subst hc
    rfl
  | succ n ih =>
    intro e cnt hec hcnt hej hstreak hjcnt hfuel
    rcases Nat.eq_or_lt_of_le hcnt with hcn | hlt
    · have he := key e cnt hec hcnt hej hstreak hcn
      subst hcn
      unfold codespanScan
      rw [if_neg (by omega)]
      rw [he]
    · have helt : e < j + nb := by
        rcases Nat.eq_or_lt_of_le hej with he | h
        · have := hjcnt (by omega)
          omega
        · exact h
      unfold codespanScan
      rw [if_pos ⟨by omega, hlt⟩]
      by_cases hb : bget l e = 96
      · rw [if_pos hb]
        refine ih (e + 1) (cnt + 1) (by omega) (by omega) (by omega)
          (fun k hk => ?_) (fun hje => ?_) (by omega)
        · rcases Nat.lt_or_ge k cnt with hkc | hkc
          · have := hstreak k hkc
            have harith : e + 1 - (cnt + 1) = e - cnt := by omega
            rw [harith]
            exact this
          · have harith : e + 1 - (cnt + 1) + k = e := by omega
            rw [harith]
            exact hb
        · rcases Nat.lt_or_ge e j with hje2 | hje2
          · omega
          · have := hjcnt hje2
            omega
      · rw [if_neg hb]
        refine ih (e + 1) 0 (by omega) (by omega) (by omega)
          (fun k hk => absurd hk (by omega)) (fun hje => ?_) (by omega)
        have hje2 : j ≤ e ∨ j = e + 1 := by omega
        rcases hje2 with hje2 | hje2
        · exfalso
          have hlt2 : e < j + nb := helt
          have h96 : bget l e = 96 := by
            have : e - j < nb := by
              have := hjcnt hje2
              omega
            have := hrun (e - j) this
            have harith : j + (e - j) = e := by omega
            rwa [harith] at this
          exact hb h96
        · omega

/-! ### Trimming both ends of a list -/

theorem dropWhile_eq_drop (p : Nat → Bool) :
    ∀ l : List Nat, l.dropWhile p = l.drop (l.takeWhile p).length := by
  intro l
  induction l with
  | nil => rfl
  | cons c cs ih =>
    by_cases h : p c
    · simp [List.dropWhile_cons, List.takeWhile_cons, h, ih]
    · simp [List.dropWhile_cons, List.takeWhile_cons, h]

theorem takeWhile_take_of_lt (p : Nat → Bool) :
    ∀ (l : List Nat) (m : Nat), (l.takeWhile p).length < m →
      (l.take m).takeWhile p = l.takeWhile p := by
  intro l
  induction l with
  | nil => intro m _; simp
  | cons c cs ih =>
    intro m hm
    by_cases h : p c
    · cases m with
      | zero => simp [List.takeWhile_cons, h] at hm
      | succ m' =>
        simp only [List.take_succ_cons, List.takeWhile_cons, h, if_true]
        rw [ih m' (by simp [List.takeWhile_cons, h] at hm; omega)]
    · cases m with
      | zero => simp [List.takeWhile_cons, h] at hm
      | succ m' => simp [List.take_succ_cons, List.takeWhile_cons, h]

theorem length_dropWhile_eq (p : Nat → Bool) (l : List Nat) :
    (l.dropWhile p).length = l.length - (l.takeWhile p).length := by
  rw [dropWhile_eq_drop]
  simp

theorem rdropWhile_length (p : Nat → Bool) (l : List Nat) :
    (l.rdropWhile p).length = l.length - (l.reverse.takeWhile p).length := by
  rw [List.rdropWhile]
  rw [List.length_reverse]
  rw [length_dropWhile_eq]
  simp

theorem takeWhile_eq_take (p : Nat → Bool) (l : List Nat) :
    l.takeWhile p = l.take (l.takeWhile p).length :=
  List.prefix_iff_eq_take.mp (List.takeWhile_prefix p)

theorem rdropWhile_eq_take (p : Nat → Bool) (l : List Nat) :
    l.rdropWhile p = l.take (l.rdropWhile p).length :=
  List.prefix_iff_eq_take.mp (List.rdropWhile_prefix p l)

/-- Removing the leading `p`-run and then the trailing `p`-run of a
list is the slice between the first-failure index and the end of
`rdropWhile`. -/
theorem trim_both_eq_take_drop (p : Nat → Bool) (xs : List Nat) :
    (xs.dropWhile p).rdropWhile p
      = (xs.take (xs.rdropWhile p).length).drop (xs.takeWhile p).length := by
  have ha_le : (xs.takeWhile p).length ≤ xs.length := (List.takeWhile_prefix p).length_le
  have hb_le : (xs.reverse.takeWhile p).length ≤ xs.length := by
    have h := (List.takeWhile_prefix p (l := xs.reverse)).length_le
    simpa using h
  have hrd : (xs.rdropWhile p).length
      = xs.length - (xs.reverse.takeWhile p).length := rdropWhile_length p xs
  rw [List.rdropWhile, dropWhile_eq_drop p xs, List.reverse_drop]
  by_cases hcase : (xs.reverse.takeWhile p).length
      < xs.length - (xs.takeWhile p).length
  · have htw : (xs.reverse.take (xs.length - (xs.takeWhile p).length)).takeWhile p
        = xs.reverse.takeWhile p :=
      takeWhile_take_of_lt p xs.reverse _ hcase
    rw [dropWhile_eq_drop p, htw]
    have hlen1 : (xs.reverse.take (xs.length - (xs.takeWhile p).length)).length
        = xs.length - (xs.takeWhile p).length := by
      simp
    have e1 : ((xs.reverse.take (xs.length - (xs.takeWhile p).length)).drop
          (xs.reverse.takeWhile p).length).reverse
        = (xs.reverse.take (xs.length - (xs.takeWhile p).length)).reverse.take
          ((xs.reverse.take (xs.length - (xs.takeWhile p).length)).length
            - (xs.reverse.takeWhile p).length) :=
      List.reverse_drop
    have e2 : (xs.reverse.take (xs.length - (xs.takeWhile p).length)).reverse
        = xs.reverse.reverse.drop
          (xs.reverse.length - (xs.length - (xs.takeWhile p).length)) :=
      List.reverse_take
    rw [e1, e2, List.reverse_reverse, List.length_reverse, hlen1]
    rw [List.drop_take, hrd]
    have harith : xs.length - (xs.length - (xs.takeWhile p).length)
        = (xs.takeWhile p).length := by omega
    rw [harith]
    congr 1
    omega
  · push_neg at hcase
    have hall : ∀ x ∈ xs.reverse.take (xs.length - (xs.takeWhile p).length), p x := by
      intro x hx
      have hsub : xs.reverse.take (xs.length - (xs.takeWhile p).length)
          = (xs.reverse.takeWhile p).take (xs.length - (xs.takeWhile p).length) := by
        conv_rhs => rw [takeWhile_eq_take p xs.reverse]
        rw [List.take_take]
        congr 1
        omega
      rw [hsub] at hx
      exact List.mem_takeWhile_imp (List.mem_of_mem_take hx)
    rw [List.dropWhile_eq_nil_iff.mpr hall]
    rw [List.reverse_nil, eq_comm]
    rw [List.drop_eq_nil_iff]
    simp only [List.length_take]
    omega

theorem takeWhile_getD (p : Nat → Bool) (xs : List Nat) (m : Nat)
    (hm : m < (xs.takeWhile p).length) : p (xs.getD m 0) = true := by
  have hp : xs.takeWhile p <+: xs := List.takeWhile_prefix p
  have hlen : m < xs.length := Nat.lt_of_lt_of_le hm hp.length_le
  have hmem : (xs.takeWhile p)[m] ∈ xs.takeWhile p := List.getElem_mem _
  have hsat := List.mem_takeWhile_imp hmem
  rw [hp.getElem] at hsat
  rw [List.getD_eq_getElem?_getD, List.getElem?_eq_getElem hlen]
  simpa using hsat

theorem takeWhile_getD_end (p : Nat → Bool) :
    ∀ xs : List Nat, (xs.takeWhile p).length < xs.length →
      p (xs.getD (xs.takeWhile p).length 0) = false := by
  intro xs
  induction xs with
  | nil => simp
  | cons c cs ih =>
    intro h
    by_cases hc : p c
    · rw [List.takeWhile_cons_of_pos hc] at h ⊢
      simp only [List.length_cons, List.getD_cons_succ]
      exact ih (by simpa using h)
    · rw [List.takeWhile_cons_of_neg hc]
      simp only [List.length_nil, List.getD_cons_zero]
      simpa using hc

theorem rdropWhile_getD_last (p : Nat → Bool) (xs : List Nat)
    (h : 0 < (xs.rdropWhile p).length) :
    p (xs.getD ((xs.rdropWhile p).length - 1) 0) = false := by
  have hne : xs.rdropWhile p ≠ [] := by
    intro hc
    rw [hc] at h
    simp at h
  have hlast := List.rdropWhile_last_not p xs hne
  have hget : (xs.rdropWhile p).getLast hne
      = (xs.rdropWhile p)[(xs.rdropWhile p).length - 1] :=
    List.getLast_eq_getElem _ hne
  have hpre : xs.rdropWhile p <+: xs := List.rdropWhile_prefix p xs
  have hlt : (xs.rdropWhile p).length - 1 < xs.length :=
    Nat.lt_of_lt_of_le (by omega) hpre.length_le
  rw [hget, hpre.getElem] at hlast
  rw [List.getD_eq_getElem?_getD, List.getElem?_eq_getElem hlt]
  simpa using hlast

theorem rdropWhile_getD_tail (p : Nat → Bool) (xs : List Nat) (m : Nat)
    (h1 : (xs.rdropWhile p).length ≤ m) (h2 : m < xs.length) :
    p (xs.getD m 0) = true := by
  have hb : (xs.rdropWhile p).length
      = xs.length - (xs.reverse.takeWhile p).length := rdropWhile_length p xs
  have hib : xs.length - 1 - m < (xs.reverse.takeWhile p).length := by omega
  have hsat := takeWhile_getD p xs.reverse (xs.length - 1 - m) hib
  have hrl : xs.length - 1 - m < xs.reverse.length := by
    simp only [List.length_reverse]
    omega
  rw [List.getD_eq_getElem?_getD, List.getElem?_reverse (by omega),
    ← List.getD_eq_getElem?_getD] at hsat
  have harith : xs.length - 1 - (xs.length - 1 - m) = m := by omega
  rwa [harith] at hsat

theorem win_take_drop (l : List Nat) (i len a rd : Nat) (h1 : rd ≤ len) :
    ((win l i len).take rd).drop a = win l (i + a) (rd - a) := by
  unfold win
  rw [List.take_take, List.drop_take, List.drop_drop]
  congr 1
  omega

/-- C5 (amended): when the inline span opens with `nb` backticks and
`j` marks the start of the first point at or after the opener where
`nb` consecutive backticks occur (`hrun`: the closing run, `hmin`: no
earlier one), `char_codespan` consumes up to the end of that closing
run and passes to the codespan callback the inner bytes with ALL
leading and ALL trailing spaces removed — `NULL` when nothing
remains.  (The original claim said: the next run of exactly `nb`
backticks, and one space trimmed from each side.) -/
theorem C5_codespan_trims_all_spaces
    (f : List Nat → Option (List Nat) → (List Nat × Bool))
    (ob l : List Nat) (nb j : Nat)
    (hnbdef : scanW (fun x => x == 96) l 0 l.length = nb)
    (hnb : 0 < nb) (hnbj : nb ≤ j) (hjl : j + nb ≤ l.length)
    (hrun : ∀ k, k < nb → bget l (j + k) = 96)
    (hmin : ∀ e, e < j → nb ≤ e → ∃ k, k < nb ∧ ¬ bget l (e + k) = 96) :
    char_codespan { cb := { codespan := some f } } ob l =
      (let content := ((win l nb (j - nb)).dropWhile (fun x => x == 32)).rdropWhile
          (fun x => x == 32)
       let pr := if content = [] then f ob none else f ob (some content)
       (pr.1, if pr.2 then j + nb else 0)) := by
  have hscan : codespanScan l nb l.length nb 0 = (j + nb, nb) :=
    codespanScan_eq l nb j hnbj hjl hrun hmin l.length nb 0 (by omega) (by omega)
      (by omega) (fun k hk => absurd hk (by omega)) (fun hj2 => by omega) (by omega)
  have hinner_len : (win l nb (j - nb)).length = j - nb := by
    unfold win
    simp only [List.length_take, List.length_drop]
    omega
  have ha_le : ((win l nb (j - nb)).takeWhile (fun x => x == 32)).length ≤ j - nb := by
    have h := (List.takeWhile_prefix (fun x => x == 32)
      (l := win l nb (j - nb))).length_le
    rwa [hinner_len] at h
  have hrd_le : ((win l nb (j - nb)).rdropWhile (fun x => x == 32)).length ≤ j - nb := by
    have h := (List.rdropWhile_prefix (fun x => x == 32) (win l nb (j - nb))).length_le
    rwa [hinner_len] at h
  have hbg : ∀ m, m < j - nb → (win l nb (j - nb)).getD m 0 = bget l (nb + m) := by
    intro m hm
    exact bget_drop_take l nb j m (by omega)
  have hfb : scanW (fun x => x == 32) l nb (j + nb)
      = nb + ((win l nb (j - nb)).takeWhile (fun x => x == 32)).length := by
    apply scanW_eq _ _ _ _ _ hjl (by omega) (by omega) (by omega)
    · intro k hk hnbk
      have hm : k - nb < ((win l nb (j - nb)).takeWhile (fun x => x == 32)).length := by
        omega
      have hsat := takeWhile_getD (fun x => x == 32) (win l nb (j - nb)) (k - nb) hm
      rw [hbg (k - nb) (by omega)] at hsat
      have harith : nb + (k - nb) = k := by omega
      rwa [harith] at hsat
    · intro hlt
      by_cases hcase : ((win l nb (j - nb)).takeWhile (fun x => x == 32)).length < j - nb
      · have hend := takeWhile_getD_end (fun x => x == 32) (win l nb (j - nb))
          (by rw [hinner_len]; exact hcase)
        rwa [hbg _ hcase] at hend
      · have haeq : ((win l nb (j - nb)).takeWhile (fun x => x == 32)).length
            = j - nb := by omega
        rw [haeq]
        have harith : nb + (j - nb) = j := by omega
        rw [harith]
        have h96 := hrun 0 hnb
        rw [Nat.add_zero] at h96
        rw [h96]
        rfl
  have hfe : trimBack (fun x => x == 32) l nb j j
      = nb + ((win l nb (j - nb)).rdropWhile (fun x => x == 32)).length := by
    refine trimBack_eq _ l nb _ ?_ j j (by omega) (by omega) (by omega) ?_
    · intro hc
      obtain ⟨hc1, hc2⟩ := hc
      have hrd_pos : 0 < ((win l nb (j - nb)).rdropWhile (fun x => x == 32)).length := by
        omega
      have hlastf := rdropWhile_getD_last (fun x => x == 32) (win l nb (j - nb)) hrd_pos
      rw [hbg _ (by omega)] at hlastf
      have harith : nb + (((win l nb (j - nb)).rdropWhile (fun x => x == 32)).length - 1)
          = nb + ((win l nb (j - nb)).rdropWhile (fun x => x == 32)).length - 1 := by
        omega
      rw [harith] at hlastf
      have hlastf2 : (bget l (nb + ((win l nb (j - nb)).rdropWhile
          (fun x => x == 32)).length - 1) == 32) = false := hlastf
      rw [hlastf2] at hc2
      exact absurd hc2 (by simp)
    · intro k hk1 hk2
      have hsat := rdropWhile_getD_tail (fun x => x == 32) (win l nb (j - nb))
        (k - 1 - nb) (by omega) (by rw [hinner_len]; omega)
      rw [hbg _ (by omega)] at hsat
      have harith : nb + (k - 1 - nb) = k - 1 := by omega
      rwa [harith] at hsat
  simp only [char_codespan]
  rw [hnbdef, hscan]
  simp only []
  rw [if_neg (by simp)]
  have hj1 : j + nb - nb = j := by omega
  rw [hj1, hfb, hfe]
  by_cases hle : ((win l nb (j - nb)).takeWhile (fun x => x == 32)).length
      < ((win l nb (j - nb)).rdropWhile (fun x => x == 32)).length
  · rw [if_pos (by omega)]
    have hcontent : ((win l nb (j - nb)).dropWhile (fun x => x == 32)).rdropWhile
          (fun x => x == 32)
        = ((win l nb (j - nb)).take
              ((win l nb (j - nb)).rdropWhile (fun x => x == 32)).length).drop
            ((win l nb (j - nb)).takeWhile (fun x => x == 32)).length :=
      trim_both_eq_take_drop _ _
    have hclen : (((win l nb (j - nb)).take
          ((win l nb (j - nb)).rdropWhile (fun x => x == 32)).length).drop
        ((win l nb (j - nb)).takeWhile (fun x => x == 32)).length).length
        = ((win l nb (j - nb)).rdropWhile (fun x => x == 32)).length
          - ((win l nb (j - nb)).takeWhile (fun x => x == 32)).length := by
      simp only [List.length_drop, List.length_take, hinner_len]
      omega
    have hcne : ((win l nb (j - nb)).dropWhile (fun x => x == 32)).rdropWhile
        (fun x => x == 32) ≠ [] := by
      rw [hcontent]
      intro hnil
      rw [hnil] at hclen
      simp at hclen
      omega
    have hwin := win_take_drop l nb (j - nb)
      ((win l nb (j - nb)).takeWhile (fun x => x == 32)).length
      ((win l nb (j - nb)).rdropWhile (fun x => x == 32)).length hrd_le
    have harith2 : nb + ((win l nb (j - nb)).rdropWhile (fun x => x == 32)).length
          - (nb + ((win l nb (j - nb)).takeWhile (fun x => x == 32)).length)
        = ((win l nb (j - nb)).rdropWhile (fun x => x == 32)).length
          - ((win l nb (j - nb)).takeWhile (fun x => x == 32)).length := by
      omega
    rw [harith2, ← hwin, ← hcontent]
    simp only [if_neg hcne]
  · rw [if_neg (by omega)]
    have hc0 : ((win l nb (j - nb)).dropWhile (fun x => x == 32)).rdropWhile
        (fun x => x == 32) = [] := by
      rw [trim_both_eq_take_drop]
      rw [List.drop_eq_nil_iff]
      simp only [List.length_take, hinner_len]
      omega
    simp [hc0]

/-- C5 (counterexample to the original claim): on `"` ``  a  ` ``"` the
inner content is `"  a  "`; trimming ONE space from each side would
pass `" a "` (`[32, 97, 32]`), but `char_codespan` passes `[97]` — all
spaces are trimmed.  And on `` "`a``x`" `` the next run of EXACTLY one
backtick is the final one (claimed consumed length 6); the code closes
at the FIRST backtick encountered (a run of length two), consuming 3. -/
theorem C5_counterexample :
    (char_codespan { cb := { codespan := some (fun ob w => (ob ++ w.getD [], true)) } }
        [] [96, 32, 32, 97, 32, 32, 96] = ([97], 7) ∧ ([97] : List Nat) ≠ [32, 97, 32]) ∧
    (char_codespan { cb := { codespan := some (fun ob w => (ob ++ w.getD [], true)) } }
        [] [96, 97, 96, 96, 120, 96] = ([97], 3) ∧ (3 : Nat) ≠ 6) := by
  exact ⟨⟨by decide, by decide⟩, ⟨by decide, by decide⟩⟩

/-- Witness for the amended C5 at `"` ``  a  ` ``"`: `nb = 1`, closing
run at `j = 6`, content `[97]` after full trimming, consumed 7. -/
theorem C5_witness :
    scanW (fun x => x == 96) [96, 32, 32, 97, 32, 32, 96] 0
        ([96, 32, 32, 97, 32, 32, 96] : List Nat).length = 1 ∧
    char_codespan
        { cb := { codespan := some (fun ob w => (ob ++ w.getD [], true)) } }
        [] [96, 32, 32, 97, 32, 32, 96]
      = ([97], 7) :=
  ⟨by decide,
   C5_codespan_trims_all_spaces (fun ob w => (ob ++ w.getD [], true)) []
     [96, 32, 32, 97, 32, 32, 96] 1 6 (by decide) (by decide) (by decide) (by decide)
     (by decide) (by decide)⟩

theorem scanW_step (p : Nat → Bool) (l : List Nat) (i stop : Nat)
    (hstop : stop ≤ l.length) (hi : i < stop) (hp : p (bget l i) = true) :
    scanW p l i stop = scanW p l (i + 1) stop := by
  apply scanW_eq p l i stop _ hstop (by omega)
    (Nat.le_trans (by omega) (scanW_ge p l (i + 1) stop))
    (scanW_le_stop p l (i + 1) stop (by omega))
  · intro k hk hik
    rcases Nat.eq_or_lt_of_le hik with heq | hlt
    · rw [← heq]
      exact hp
    · exact scanW_all_true p l (i + 1) stop hstop k hlt hk
  · intro hlt
    exact scanW_stop_false p l (i + 1) stop hstop hlt

theorem scanW_stop_here (p : Nat → Bool) (l : List Nat) (i stop : Nat)
    (hstop : stop ≤ l.length) (h : i < stop → p (bget l i) = false) :
    scanW p l i stop = i := by
  rcases Nat.lt_or_ge i stop with hlt | hge
  · exact scanW_eq p l i stop i hstop (by omega) (Nat.le_refl i) (by omega)
      (fun k hk hik => by omega) (fun _ => h hlt)
  · unfold scanW
    rw [Nat.sub_eq_zero_of_le hge]
    simp

theorem countP_congr (l : List Nat) (p q : Nat → Bool)
    (h : ∀ a ∈ l, p a = q a) : l.countP p = l.countP q := by
  induction l with
  | nil => rfl
  | cons c cs ih =>
    rw [List.countP_cons, List.countP_cons, h c (by simp),
      ih (fun a ha => h a (by simp [ha]))]

/-- C7 (amended): starting on a terminator byte run, the pass-1
collapsing loop stops exactly at the end of the maximal `\n`/`\r` run
and appends exactly one `\n` per position that holds `\n` or holds a
`\r` whose NEXT byte exists and is not `\n` — so a `\r` that is the
last byte of the document appends nothing.  (The original claim said a
final `\r` also writes a `\n`.) -/
theorem C7_pass1_newlines (d : List Nat) :
    ∀ fuel e text, d.length ≤ fuel + e →
    pass1Newlines d fuel e text
      = (text ++ List.replicate
            ((List.range (scanW (fun c => c == 10 || c == 13) d e d.length - e)).countP
              (fun k => (bget d (e + k) == 10)
                || (decide (e + k + 1 < d.length) && !(bget d (e + k + 1) == 10)))) 10,
          scanW (fun c => c == 10 || c == 13) d e d.length) := by
  intro fuel
  induction fuel with
  | zero =>
    intro e text hfuel
    have hr : scanW (fun c => c == 10 || c == 13) d e d.length = e :=
      scanW_stop_here _ d e d.length (Nat.le_refl _) (fun hlt => by omega)
    rw [hr]
    simp [pass1Newlines]
  | succ n ih =>
    intro e text hfuel
    by_cases hcond : e < d.length ∧ (bget d e = 10 ∨ bget d e = 13)
    · have hp : (fun c => c == 10 || c == 13) (bget d e) = true := by
        rcases hcond.2 with h | h <;> simp [h]
      have hstep : scanW (fun c => c == 10 || c == 13) d e d.length
          = scanW (fun c => c == 10 || c == 13) d (e + 1) d.length :=
        scanW_step _ d e d.length (Nat.le_refl _) hcond.1 hp
      have hr1 : e + 1 ≤ scanW (fun c => c == 10 || c == 13) d (e + 1) d.length :=
        scanW_ge _ d (e + 1) d.length
      unfold pass1Newlines
      rw [if_pos hcond]
      rw [ih (e + 1) _ (by omega)]
      rw [hstep]
      refine Prod.ext ?_ rfl
      simp only []
      have hm : scanW (fun c => c == 10 || c == 13) d (e + 1) d.length - e
          = (scanW (fun c => c == 10 || c == 13) d (e + 1) d.length - (e + 1)) + 1 := by
        omega
      rw [hm, List.range_succ_eq_map, List.countP_cons, List.countP_map]
      have hshift : (List.range
            (scanW (fun c => c == 10 || c == 13) d (e + 1) d.length - (e + 1))).countP
            ((fun k => (bget d (e + k) == 10)
              || (decide (e + k + 1 < d.length) && !(bget d (e + k + 1) == 10)))
              ∘ Nat.succ)
          = (List.range
            (scanW (fun c => c == 10 || c == 13) d (e + 1) d.length - (e + 1))).countP
            (fun k => (bget d (e + 1 + k) == 10)
              || (decide (e + 1 + k + 1 < d.length) && !(bget d (e + 1 + k + 1) == 10))) := by
        apply countP_congr
        intro a _
        simp only [Function.comp_apply]
        have h1 : e + Nat.succ a = e + 1 + a := by omega
        rw [h1]
      rw [hshift]
      generalize (List.range
          (scanW (fun c => c == 10 || c == 13) d (e + 1) d.length - (e + 1))).countP
          (fun k => (bget d (e + 1 + k) == 10)
            || (decide (e + 1 + k + 1 < d.length) && !(bget d (e + 1 + k + 1) == 10))) = m
      by_cases hq : bget d e = 10 ∨ (e + 1 < d.length ∧ bget d (e + 1) ≠ 10)
      · rw [if_pos hq]
        have hone : ((bget d (e + 0) == 10)
            || (decide (e + 0 + 1 < d.length) && !(bget d (e + 0 + 1) == 10))) = true := by
          simp only [Nat.add_zero]
          rcases hq with h | ⟨h1, h2⟩
          · simp [h]
          · simp [h1, h2]
        rw [hone, if_pos rfl]
        rw [List.replicate_succ, List.append_assoc]
        rfl
      · rw [if_neg hq]
        push_neg at hq
        have hzero : ((bget d (e + 0) == 10)
            || (decide (e + 0 + 1 < d.length) && !(bget d (e + 0 + 1) == 10))) = false := by
          simp only [Nat.add_zero]
          obtain ⟨h10, himp⟩ := hq
          by_cases hlt : e + 1 < d.length
          · have h2 := himp hlt
            simp [h10, h2]
          · simp [h10, hlt]
        rw [hzero, if_neg (by simp), Nat.add_zero]
    · have hnp : e < d.length → (fun c => c == 10 || c == 13) (bget d e) = false := by
        intro hlt
        have h10 : ¬ bget d e = 10 := fun hc => hcond ⟨hlt, Or.inl hc⟩
        have h13 : ¬ bget d e = 13 := fun hc => hcond ⟨hlt, Or.inr hc⟩
        simp [h10, h13]
      have hr : scanW (fun c => c == 10 || c == 13) d e d.length = e :=
        scanW_stop_here _ d e d.length (Nat.le_refl _) hnp
      unfold pass1Newlines
      rw [if_neg hcond, hr]
      simp

/-- C7 (counterexample to the original claim): on the document `"a\r"`
the final `\r` is the last byte, so pass 1 stages only `[97]` — no
newline is written for it, against the claim that a trailing `\r` also
yields one `\n` (which would stage `[97, 10]`). -/
theorem C7_counterexample :
    pass1 5 { cb := {} } [97, 13] = .ok ([97], {}) ∧ ([97] : List Nat) ≠ [97, 10] := by
  exact ⟨by decide, by decide⟩

/-- Witness for the amended C7 on `"a\r"` from the terminator position:
the run is consumed, nothing is appended. -/
theorem C7_witness :
    ([97, 13] : List Nat).length ≤ 2 + 1 ∧
    pass1Newlines [97, 13] 2 1 [97] = ([97], 2) :=
  ⟨by decide, C7_pass1_newlines [97, 13] 2 1 [97] (by decide)⟩

/-- C2 (amended): reference lookup resolves a twice-defined id to the
LAST definition (`add_link_ref` prepends to the hash bucket and
`find_link_ref` returns the first chain entry), not the first; what IS
order-independent is definition versus use: rendering depends on the
document only through pass 1, so any two documents with equal pass-1
results (staged text and collected references) render identically — in
particular a reference defined before or after its use. -/
theorem C2_last_ref_wins_and_order_independence :
    (∀ (refs : List (List LinkRef)) (name l1 l2 : List Nat)
        (t1 t2 : Option (List Nat)),
      refs.length = REF_TABLE_SIZE →
      find_link_ref (add_link_ref (add_link_ref refs name l1 t1) name l2 t2) name
        = some { id := hash_link_ref name, link := l2, title := t2 }) ∧
    (∀ gas cfg (ob d1 d2 : List Nat),
      pass1 gas cfg d1 = pass1 gas cfg d2 →
      sd_markdown_render gas cfg ob d1 = sd_markdown_render gas cfg ob d2) := by
  constructor
  · intro refs name l1 l2 t1 t2 hlen
    unfold find_link_ref add_link_ref
    have hmod : hash_link_ref name % REF_TABLE_SIZE < refs.length := by
      rw [hlen]
      exact Nat.mod_lt _ (by decide)
    have hset : ∀ (rs : List (List LinkRef)) (x : List LinkRef),
        hash_link_ref name % REF_TABLE_SIZE < rs.length →
        (rs.set (hash_link_ref name % REF_TABLE_SIZE) x).getD
          (hash_link_ref name % REF_TABLE_SIZE) [] = x := by
      intro rs x hx
      rw [List.getD_eq_getElem?_getD, List.getElem?_set_self]
      · simp
      · omega
    simp only []
    rw [hset _ _ (by simpa using hmod)]
    rw [List.find?_cons_of_pos _ (by simp)]
  · intro gas cfg ob d1 d2 h
    unfold sd_markdown_render
    rw [h]

/-- C2 (counterexample to the original claim): with `"[a]: u1"` then
`"[a]: u2"` both defined, lookup of `[a]` yields the SECOND link
`"u2"`, not the first. -/
theorem C2_counterexample :
    (pass1 20 { cb := {} }
        [91, 97, 93, 58, 32, 117, 49, 10, 91, 97, 93, 58, 32, 117, 50, 10]).toOption.map
        (fun p => (find_link_ref p.2.refs [97]).map (fun r => r.link))
      = some (some [117, 50]) ∧
    ([117, 50] : List Nat) ≠ [117, 49] := by
  exact ⟨by decide, by decide⟩

/-- Witness for the amended C2: the double-definition lookup at a
concrete table, and the pair `"A\n\n[a]: u\n"` / `"A\n[a]: u\n\n"`
(reference after / before the paragraph) with equal pass-1 results and
hence equal renders. -/
theorem C2_witness :
    (List.replicate REF_TABLE_SIZE ([] : List LinkRef)).length = REF_TABLE_SIZE ∧
    find_link_ref
        (add_link_ref (add_link_ref (List.replicate REF_TABLE_SIZE []) [97] [117, 49] none)
          [97] [117, 50] none) [97]
      = some { id := hash_link_ref [97], link := [117, 50], title := none } ∧
    pass1 20 { cb := {} } [65, 10, 10, 91, 97, 93, 58, 32, 117, 10]
      = pass1 20 { cb := {} } [65, 10, 91, 97, 93, 58, 32, 117, 10, 10] ∧
    sd_markdown_render 20 { cb := {} } [] [65, 10, 10, 91, 97, 93, 58, 32, 117, 10]
      = sd_markdown_render 20 { cb := {} } [] [65, 10, 91, 97, 93, 58, 32, 117, 10, 10] :=
  ⟨by decide,
   C2_last_ref_wins_and_order_independence.1 (List.replicate REF_TABLE_SIZE [])
     [97] [117, 49] [117, 50] none none (by decide),
   by decide,
   C2_last_ref_wins_and_order_independence.2 20 { cb := {} } []
     [65, 10, 10, 91, 97, 93, 58, 32, 117, 10]
     [65, 10, 91, 97, 93, 58, 32, 117, 10, 10] (by decide)⟩

/-- C3 (amended): appending one `"\n"` to the document preserves the
rendered output whenever pass 1 maps the extended document to exactly
the original staging text plus one `\n`, with the same collected
state, and the original staging text is non-empty and does not already
end in a terminator: pass 2 newline-normalizes both staging texts to
the same bytes before parsing.  (The original universal claim is
false: an unterminated fenced code block absorbs the appended
newline into the staged — and rendered — code text.) -/
theorem C3_append_newline_render (gas : Nat) (cfg : Config)
    (ob d1 d2 s : List Nat) (st : MDState)
    (h1 : pass1 gas cfg d1 = .ok (s, st))
    (h2 : pass1 gas cfg d2 = .ok (s ++ [10], st))
    (hne : s ≠ [])
    (hlast : s.getLast? ≠ some 10 ∧ s.getLast? ≠ some 13) :
    sd_markdown_render gas cfg ob d1 = sd_markdown_render gas cfg ob d2 := by
  unfold sd_markdown_render
  rw [h1, h2]
  show pass2 gas cfg ob (s, st) = pass2 gas cfg ob (s ++ [10], st)
  unfold pass2
  simp only []
  rw [if_pos (by simpa using hne), if_pos hlast, if_pos (by simp),
    if_neg (by simp [List.getLast?_concat])]

/-- C3 (counterexample to the original claim): with fenced code
enabled and a blockcode callback that echoes the code text, the
document `"` ``` `\nx\n"` (an unterminated fenced block) renders
`"x\n"`, but with one `"\n"` appended it renders `"x\n\n"` — the
appended newline lands inside the code text. -/
theorem C3_counterexample :
    (sd_markdown_render 100
        { cb := { blockcode := some (fun ob text _ => ob ++ text) },
          ext := { fencedCode := true } } [] [96, 96, 96, 10, 120, 10]).toOption.map
        Prod.fst = some [120, 10] ∧
    (sd_markdown_render 100
        { cb := { blockcode := some (fun ob text _ => ob ++ text) },
          ext := { fencedCode := true } } []
        [96, 96, 96, 10, 120, 10, 10]).toOption.map Prod.fst = some [120, 10, 10] ∧
    ([120, 10] : List Nat) ≠ [120, 10, 10] := by
  exact ⟨by decide, by decide, by decide⟩

/-- Witness for the amended C3 at `"a"` / `"a\n"`. -/
theorem C3_witness :
    pass1 10 { cb := {} } [97] = .ok ([97], {}) ∧
    pass1 10 { cb := {} } [97, 10] = .ok ([97] ++ [10], {}) ∧
    sd_markdown_render 10 { cb := {} } [] [97]
      = sd_markdown_render 10 { cb := {} } [] [97, 10] :=
  ⟨by decide, by decide,
   C3_append_newline_render 10 { cb := {} } [] [97] [97, 10] [97] {}
     (by decide) (by decide) (by decide) (by decide)⟩

/-! ### C1: pool balance -/

theorem bind_ok {α β : Type} (e : Except Fail α) (f : α → Except Fail β) (r : β)
    (h : (e >>= f) = .ok r) : ∃ a, e = .ok a ∧ f a = .ok r := by
  cases e with
  | ok a => exact ⟨a, rfl, h⟩
  | error x => exact Except.noConfusion h

theorem char_langle_tag_pool (cfg : Config) (st : MDState) (ob l : List Nat) :
    (char_langle_tag cfg st ob l).1.spanSize = st.spanSize ∧
    (char_langle_tag cfg st ob l).1.blockSize = st.blockSize := by
  unfold char_langle_tag
  simp only []
  constructor <;> (repeat' split) <;> simp [rndr_newbuf, rndr_popbuf]

theorem char_autolink_www_pool (cfg : Config) (st : MDState) (ob w : List Nat) (i : Nat) :
    (char_autolink_www cfg st ob w i).1.spanSize = st.spanSize ∧
    (char_autolink_www cfg st ob w i).1.blockSize = st.blockSize := by
  unfold char_autolink_www
  simp only []
  constructor <;> (repeat' split) <;> simp [rndr_newbuf, rndr_popbuf]

theorem char_autolink_email_pool (cfg : Config) (st : MDState) (ob w : List Nat) (i : Nat) :
    (char_autolink_email cfg st ob w i).1.spanSize = st.spanSize ∧
    (char_autolink_email cfg st ob w i).1.blockSize = st.blockSize := by
  unfold char_autolink_email
  simp only []
  constructor <;> (repeat' split) <;> simp [rndr_newbuf, rndr_popbuf]

theorem char_autolink_url_pool (cfg : Config) (st : MDState) (ob w : List Nat) (i : Nat) :
    (char_autolink_url cfg st ob w i).1.spanSize = st.spanSize ∧
    (char_autolink_url cfg st ob w i).1.blockSize = st.blockSize := by
  unfold char_autolink_url
  simp only []
  constructor <;> (repeat' split) <;> simp [rndr_newbuf, rndr_popbuf]

theorem parse_fencedcode_pool (cfg : Config) (st : MDState) (ob l : List Nat) :
    (parse_fencedcode cfg st ob l).1.spanSize = st.spanSize ∧
    (parse_fencedcode cfg st ob l).1.blockSize = st.blockSize := by
  unfold parse_fencedcode
  simp only []
  constructor <;> (repeat' split) <;> simp [rndr_newbuf, rndr_popbuf]

theorem parse_blockcode_pool (cfg : Config) (st : MDState) (ob l : List Nat) :
    (parse_blockcode cfg st ob l).1.spanSize = st.spanSize ∧
    (parse_blockcode cfg st ob l).1.blockSize = st.blockSize := by
  unfold parse_blockcode
  simp [rndr_newbuf, rndr_popbuf]

theorem poolAll_zero : PoolAll 0 := by
  constructor
  all_goals intros
  all_goals rename_i h
  all_goals simp only [parse_inline, parse_inlineLoop, charTrigger, char_emphasis,
    parse_emph1, parse_emph1Loop, parse_emph2, parse_emph2Loop, parse_emph3,
    parse_emph3Loop, char_superscript, char_link, charLinkRest, parse_block,
    parse_blockLoop, parse_atxheader, parse_blockquote, parse_paragraph, parse_list,
    parse_listLoop, parse_listitem, parse_table, parse_tableRows, parse_table_header,
    parse_table_row, parse_tableCells, parse_footnote_def, parse_footnoteItems,
    parse_footnote_list, parse_blockStep, parse_blockRules, parse_listitemInter] at h
  all_goals first
    | exact Except.noConfusion h
    | exact h.elim
    | (split at h
       · cases h
         exact ⟨rfl, rfl⟩
       · exact Except.noConfusion h)

theorem span_sandwich (st a : MDState)
    (h1 : a.spanSize = ((rndr_newbuf st .span).1).spanSize)
    (h2 : a.blockSize = ((rndr_newbuf st .span).1).blockSize) :
    (rndr_popbuf a .span).spanSize = st.spanSize ∧
    (rndr_popbuf a .span).blockSize = st.blockSize := by
  simp [rndr_newbuf] at h1 h2
  simp [rndr_popbuf, h1, h2]

theorem block_sandwich (st a : MDState)
    (h1 : a.spanSize = ((rndr_newbuf st .block).1).spanSize)
    (h2 : a.blockSize = ((rndr_newbuf st .block).1).blockSize) :
    (rndr_popbuf a .block).spanSize = st.spanSize ∧
    (rndr_popbuf a .block).blockSize = st.blockSize := by
  simp [rndr_newbuf] at h1 h2
  simp [rndr_popbuf, h1, h2]

theorem poolStep_pinline (g : Nat) (ih : PoolAll g) :
    ∀ cfg st ob w r, parse_inline (g + 1) cfg st ob w = .ok r →
      r.2.spanSize = st.spanSize ∧ r.2.blockSize = st.blockSize := by
  intro cfg st ob w r h
  unfold parse_inline at h
  split at h
  · cases h
    exact ⟨rfl, rfl⟩
  · exact ih.piloop cfg st ob w 0 0 r h

theorem poolStep_piloop (g : Nat) (ih : PoolAll g) :
    ∀ cfg st ob w i e r, parse_inlineLoop (g + 1) cfg st ob w i e = .ok r →
      r.2.spanSize = st.spanSize ∧ r.2.blockSize = st.blockSize := by
  intro cfg st ob w i e r h
  unfold parse_inlineLoop at h
  simp only [] at h
  split at h
  · split at h
    · cases h
      exact ⟨rfl, rfl⟩
    · obtain ⟨a, ha, h⟩ := bind_ok _ _ _ h
      have h1 := ih.ctrig _ _ _ _ _ _ _ ha
      split at h
      · have h2 := ih.piloop _ _ _ _ _ _ _ h
        exact ⟨h2.1.trans h1.1, h2.2.trans h1.2⟩
      · have h2 := ih.piloop _ _ _ _ _ _ _ h
        exact ⟨h2.1.trans h1.1, h2.2.trans h1.2⟩
  · cases h
    exact ⟨rfl, rfl⟩

theorem poolStep_ctrig (g : Nat) (ih : PoolAll g) :
    ∀ cfg a st ob w i r, charTrigger (g + 1) cfg a st ob w i = .ok r →
      r.1.spanSize = st.spanSize ∧ r.1.blockSize = st.blockSize := by
  intro cfg a st ob w i r h
  unfold charTrigger at h
  cases a
  case none_ =>
    cases h
    exact ⟨rfl, rfl⟩
  case emphasis => exact ih.cemph _ _ _ _ _ _ h
  case codespan =>
    cases h
    exact ⟨rfl, rfl⟩
  case linebreak =>
    cases h
    exact ⟨rfl, rfl⟩
  case link => exact ih.clink _ _ _ _ _ _ h
  case langle =>
    cases h
    exact char_langle_tag_pool cfg st ob (w.drop i)
  case escape =>
    cases h
    exact ⟨rfl, rfl⟩
  case entity =>
    cases h
    exact ⟨rfl, rfl⟩
  case autolinkUrl =>
    cases h
    exact char_autolink_url_pool cfg st ob w i
  case autolinkEmail =>
    cases h
    exact char_autolink_email_pool cfg st ob w i
  case autolinkWWW =>
    cases h
    exact char_autolink_www_pool cfg st ob w i
  case superscript => exact ih.csup _ _ _ _ _ _ h

theorem poolStep_cemph (g : Nat) (ih : PoolAll g) :
    ∀ cfg st ob w i r, char_emphasis (g + 1) cfg st ob w i = .ok r →
      r.1.spanSize = st.spanSize ∧ r.1.blockSize = st.blockSize := by
  intro cfg st ob w i r h
  unfold char_emphasis at h
  simp only [] at h
  split at h
  · cases h
    exact ⟨rfl, rfl⟩
  · split at h
    · split at h
      · cases h
        exact ⟨rfl, rfl⟩
      · obtain ⟨a, ha, h⟩ := bind_ok _ _ _ h
        have h1 := ih.pe1 _ _ _ _ _ _ _ ha
        split at h <;> (cases h; exact h1)
    · split at h
      · split at h
        · cases h
          exact ⟨rfl, rfl⟩
        · obtain ⟨a, ha, h⟩ := bind_ok _ _ _ h
          have h1 := ih.pe2 _ _ _ _ _ _ _ ha
          split at h <;> (cases h; exact h1)
      · split at h
        · split at h
          · cases h
            exact ⟨rfl, rfl⟩
          · obtain ⟨a, ha, h⟩ := bind_ok _ _ _ h
            have h1 := ih.pe3 _ _ _ _ _ _ _ ha
            split at h <;> (cases h; exact h1)
        · cases h
          exact ⟨rfl, rfl⟩

theorem poolStep_pe1 (g : Nat) (ih : PoolAll g) :
    ∀ cfg st ob w b c r, parse_emph1 (g + 1) cfg st ob w b c = .ok r →
      r.1.spanSize = st.spanSize ∧ r.1.blockSize = st.blockSize := by
  intro cfg st ob w b c r h
  unfold parse_emph1 at h
  simp only [] at h
  split at h
  · cases h
    exact ⟨rfl, rfl⟩
  · exact ih.pe1l _ _ _ _ _ _ _ _ h

theorem poolStep_pe1l (g : Nat) (ih : PoolAll g) :
    ∀ cfg st ob w b c i r, parse_emph1Loop (g + 1) cfg st ob w b c i = .ok r →
      r.1.spanSize = st.spanSize ∧ r.1.blockSize = st.blockSize := by
  intro cfg st ob w b c i r h
  unfold parse_emph1Loop at h
  simp only [] at h
  split at h
  · split at h
    · cases h
      exact ⟨rfl, rfl⟩
    · split at h
      · cases h
        exact ⟨rfl, rfl⟩
      · split at h
        · split at h
          · exact ih.pe1l _ _ _ _ _ _ _ _ h
          · split at h
            · cases h
              exact ⟨rfl, rfl⟩
            · obtain ⟨a, ha, h⟩ := bind_ok _ _ _ h
              have h1 := ih.pinline _ _ _ _ _ ha
              cases h
              exact span_sandwich st a.2 h1.1 h1.2
        · exact ih.pe1l _ _ _ _ _ _ _ _ h
  · cases h
    exact ⟨rfl, rfl⟩

theorem poolStep_pe2 (g : Nat) (ih : PoolAll g) :
    ∀ cfg st ob w b c r, parse_emph2 (g + 1) cfg st ob w b c = .ok r →
      r.1.spanSize = st.spanSize ∧ r.1.blockSize = st.blockSize := by
  intro cfg st ob w b c r h
  unfold parse_emph2 at h
  simp only [] at h
  split at h
  · cases h
    exact ⟨rfl, rfl⟩
  · exact ih.pe2l _ _ _ _ _ _ _ _ _ h

theorem poolStep_pe2l (g : Nat) (ih : PoolAll g) :
    ∀ cfg f st ob w b c i r, parse_emph2Loop (g + 1) cfg f st ob w b c i = .ok r →
      r.1.spanSize = st.spanSize ∧ r.1.blockSize = st.blockSize := by
  intro cfg f st ob w b c i r h
  unfold parse_emph2Loop at h
  simp only [] at h
  split at h
  · split at h
    · cases h
      exact ⟨rfl, rfl⟩
    · split at h
      · obtain ⟨a, ha, h⟩ := bind_ok _ _ _ h
        have h1 := ih.pinline _ _ _ _ _ ha
        cases h
        exact span_sandwich st a.2 h1.1 h1.2
      · exact ih.pe2l _ _ _ _ _ _ _ _ _ h
  · cases h
    exact ⟨rfl, rfl⟩

theorem poolStep_pe3 (g : Nat) (ih : PoolAll g) :
    ∀ cfg st ob w b c r, parse_emph3 (g + 1) cfg st ob w b c = .ok r →
      r.1.spanSize = st.spanSize ∧ r.1.blockSize = st.blockSize := by
  intro cfg st ob w b c r h
  unfold parse_emph3 at h
  exact ih.pe3l _ _ _ _ _ _ _ _ h

theorem poolStep_pe3l (g : Nat) (ih : PoolAll g) :
    ∀ cfg st ob w b c i r, parse_emph3Loop (g + 1) cfg st ob w b c i = .ok r →
      r.1.spanSize = st.spanSize ∧ r.1.blockSize = st.blockSize := by
  intro cfg st ob w b c i r h
  unfold parse_emph3Loop at h
  simp only [] at h
  split at h
  · split at h
    · cases h
      exact ⟨rfl, rfl⟩
    · split at h
      · exact ih.pe3l _ _ _ _ _ _ _ _ h
      · split at h
        · split at h
          · cases h
            exact ⟨rfl, rfl⟩
          · obtain ⟨a, ha, h⟩ := bind_ok _ _ _ h
            have h1 := ih.pinline _ _ _ _ _ ha
            cases h
            exact span_sandwich st a.2 h1.1 h1.2
        · split at h
          · obtain ⟨a, ha, h⟩ := bind_ok _ _ _ h
            have h1 := ih.pe1 _ _ _ _ _ _ _ ha
            split at h <;> (cases h; exact h1)
          · obtain ⟨a, ha, h⟩ := bind_ok _ _ _ h
            have h1 := ih.pe2 _ _ _ _ _ _ _ ha
            split at h <;> (cases h; exact h1)
  · cases h
    exact ⟨rfl, rfl⟩

theorem poolStep_csup (g : Nat) (ih : PoolAll g) :
    ∀ cfg st ob w i r, char_superscript (g + 1) cfg st ob w i = .ok r →
      r.1.spanSize = st.spanSize ∧ r.1.blockSize = st.blockSize := by
  intro cfg st ob w i r h
  unfold char_superscript at h
  simp only [] at h
  split at h
  · cases h
    exact ⟨rfl, rfl⟩
  · split at h
    · cases h
      exact ⟨rfl, rfl⟩
    · by_cases hps : bget w (i + 1) = 40
      · rw [if_pos hps] at h
        split at h
        · cases h
          exact ⟨rfl, rfl⟩
        · split at h
          · cases h
            exact ⟨rfl, rfl⟩
          · obtain ⟨a, ha, h⟩ := bind_ok _ _ _ h
            have h1 := ih.pinline _ _ _ _ _ ha
            cases h
            exact span_sandwich st a.2 h1.1 h1.2
      · rw [if_neg hps] at h
        split at h
        · cases h
          exact ⟨rfl, rfl⟩
        · split at h
          · cases h
            exact ⟨rfl, rfl⟩
          · obtain ⟨a, ha, h⟩ := bind_ok _ _ _ h
            have h1 := ih.pinline _ _ _ _ _ ha
            cases h
            exact span_sandwich st a.2 h1.1 h1.2

theorem ite_newbuf_span_block (c : Prop) [Decidable c] (x : MDState) :
    (if c then (rndr_newbuf x .span).1 else x).blockSize = x.blockSize := by
  split <;> simp [rndr_newbuf]

theorem linkInlineRest_blockSize (st : MDState) (w : List Nat) (b iA iB tb te iD : Nat)
    (res : MDState × Option (List Nat) × Option (List Nat) × Nat)
    (h : linkInlineRest st w b iA iB tb te iD = some res) :
    res.1.blockSize = st.blockSize := by
  unfold linkInlineRest at h
  simp only [] at h
  cases h
  simp only []
  rw [ite_newbuf_span_block, ite_newbuf_span_block]

theorem linkInline_blockSize (st : MDState) (w : List Nat) (b size i : Nat)
    (res : MDState × Option (List Nat) × Option (List Nat) × Nat)
    (h : linkInline st w b size i = some res) :
    res.1.blockSize = st.blockSize := by
  unfold linkInline at h
  simp only [] at h
  by_cases hB : linkUrlScan w b size size (scanW isspaceB w (b + i + 1) (b + size) - b)
      ≥ size
  · rw [if_pos hB] at h
    exact Option.noConfusion h
  · rw [if_neg hB] at h
    by_cases hC : (linkTitleParse w b size
        (linkUrlScan w b size size (scanW isspaceB w (b + i + 1) (b + size) - b))).2.2
        > size
    · rw [if_pos hC] at h
      exact Option.noConfusion h
    · rw [if_neg hC] at h
      exact linkInlineRest_blockSize _ _ _ _ _ _ _ _ _ h

theorem linkRefStyle_blockSize (st : MDState) (w : List Nat) (b size txt_e : Nat)
    (thn : Bool) (i : Nat)
    (res : MDState × Option (List Nat) × Option (List Nat) × Nat)
    (h : linkRefStyle st w b size txt_e thn i = some res) :
    res.1.blockSize = st.blockSize := by
  unfold linkRefStyle at h
  simp only [] at h
  by_cases hA : scanW (fun c => !(c == 93)) w (b + (i + 1)) (b + size) - b ≥ size
  · rw [if_pos hA] at h
    exact Option.noConfusion h
  · rw [if_neg hA] at h
    obtain ⟨lr, hfl, heq⟩ := Option.map_eq_some'.mp h
    subst heq
    simp only []
    repeat' split
    all_goals simp [rndr_newbuf]

theorem linkShortcut_blockSize (st : MDState) (w : List Nat) (b txt_e : Nat)
    (thn : Bool)
    (res : MDState × Option (List Nat) × Option (List Nat) × Nat)
    (h : linkShortcut st w b txt_e thn = some res) :
    res.1.blockSize = st.blockSize := by
  unfold linkShortcut at h
  simp only [] at h
  obtain ⟨lr, hfl, heq⟩ := Option.map_eq_some'.mp h
  subst heq
  simp only []
  repeat' split
  all_goals simp [rndr_newbuf]

theorem linkResolve_blockSize :
    ∀ st w b size txt_e thn i res,
      linkResolve st w b size txt_e thn i = some res →
      res.1.blockSize = st.blockSize := by
  intro st w b size txt_e thn i res h
  unfold linkResolve at h
  by_cases hA : i < size ∧ bget w (b + i) = 40
  · rw [if_pos hA] at h
    exact linkInline_blockSize _ _ _ _ _ _ h
  · rw [if_neg hA] at h
    by_cases hB : i < size ∧ bget w (b + i) = 91
    · rw [if_pos hB] at h
      exact linkRefStyle_blockSize _ _ _ _ _ _ _ _ h
    · rw [if_neg hB] at h
      exact linkShortcut_blockSize _ _ _ _ _ _ h

theorem poolStep_clink (g : Nat) (ih : PoolAll g) :
    ∀ cfg st ob w b r, char_link (g + 1) cfg st ob w b = .ok r →
      r.1.spanSize = st.spanSize ∧ r.1.blockSize = st.blockSize := by
  intro cfg st ob w b r h
  unfold char_link at h
  simp only [] at h
  split at h
  · cases h
    exact ⟨rfl, rfl⟩
  · split at h
    · cases h
      exact ⟨rfl, rfl⟩
    · split at h
      · split at h
        · cases h
          exact ⟨rfl, rfl⟩
        · split at h
          · cases h
            exact ⟨rfl, rfl⟩
          · split at h
            · cases h
              refine ⟨rfl, ?_⟩
              split <;> rfl
            · cases h
              refine ⟨rfl, ?_⟩
              split <;> rfl
      · exact ih.clrest _ _ _ _ _ _ _ _ _ _ _ _ h

theorem poolStep_clrest (g : Nat) (ih : PoolAll g) :
    ∀ cfg st ob w b size is_img org txt_e thn i r,
      charLinkRest (g + 1) cfg st ob w b size is_img org txt_e thn i = .ok r →
      r.1.spanSize = org ∧ r.1.blockSize = st.blockSize := by
  intro cfg st ob w b size is_img org txt_e thn i r h
  unfold charLinkRest at h
  simp only [] at h
  cases hres0 : linkResolve st w b size txt_e thn i with
  | none =>
    rw [hres0] at h
    simp only [] at h
    cases h
    exact ⟨rfl, rfl⟩
  | some res =>
    rw [hres0] at h
    simp only [] at h
    have hres := linkResolve_blockSize st w b size txt_e thn i res hres0
    obtain ⟨cr, hcr, h⟩ := bind_ok _ _ _ h
    have hcr5 : cr.1.blockSize = res.1.blockSize := by
      split at hcr
      · split at hcr
        · cases hcr
          simp [rndr_newbuf]
        · obtain ⟨a, ha, hcr⟩ := bind_ok _ _ _ hcr
          have h1 := ih.pinline _ _ _ _ _ ha
          cases hcr
          simp only []
          rw [h1.2]
          simp [rndr_newbuf]
      · cases hcr
        rfl
    have hst6 : (match res.2.1 with
        | some lk => ((rndr_newbuf cr.1 .span).1, some (unscape_text [] lk))
        | none => (cr.1, none)).1.blockSize = cr.1.blockSize := by
      split <;> simp [rndr_newbuf]
    split at h
    · split at h
      · cases h
        exact ⟨rfl, by
          simp only []
          rw [hst6, hcr5, hres]⟩
      · cases h
        exact ⟨rfl, by
          simp only []
          rw [hst6, hcr5, hres]⟩
    · split at h
      · cases h
        exact ⟨rfl, by
          simp only []
          rw [hst6, hcr5, hres]⟩
      · cases h
        exact ⟨rfl, by
          simp only []
          rw [hst6, hcr5, hres]⟩

theorem span2_sandwich (st a : MDState)
    (h1 : a.spanSize = ((rndr_newbuf ((rndr_newbuf st .span).1) .span).1).spanSize)
    (h2 : a.blockSize = ((rndr_newbuf ((rndr_newbuf st .span).1) .span).1).blockSize) :
    (rndr_popbuf (rndr_popbuf a .span) .span).spanSize = st.spanSize ∧
    (rndr_popbuf (rndr_popbuf a .span) .span).blockSize = st.blockSize := by
  simp [rndr_newbuf] at h1 h2
  simp [rndr_popbuf, h1, h2]

theorem span_block_sandwich (st a : MDState)
    (h1 : a.spanSize = ((rndr_newbuf ((rndr_newbuf st .span).1) .block).1).spanSize)
    (h2 : a.blockSize = ((rndr_newbuf ((rndr_newbuf st .span).1) .block).1).blockSize) :
    (rndr_popbuf (rndr_popbuf a .span) .block).spanSize = st.spanSize ∧
    (rndr_popbuf (rndr_popbuf a .span) .block).blockSize = st.blockSize := by
  simp [rndr_newbuf] at h1 h2
  simp [rndr_popbuf, h1, h2]

theorem poolStep_pblock (g : Nat) (ih : PoolAll g) :
    ∀ cfg st ob l r, parse_block (g + 1) cfg st ob l = .ok r →
      r.2.spanSize = st.spanSize ∧ r.2.blockSize = st.blockSize := by
  intro cfg st ob l r h
  unfold parse_block at h
  split at h
  · cases h
    exact ⟨rfl, rfl⟩
  · exact ih.pbloop cfg st ob l 0 r h

theorem poolStep_pbloop (g : Nat) (ih : PoolAll g) :
    ∀ cfg st ob l beg r, parse_blockLoop (g + 1) cfg st ob l beg = .ok r →
      r.2.spanSize = st.spanSize ∧ r.2.blockSize = st.blockSize := by
  intro cfg st ob l beg r h
  unfold parse_blockLoop at h
  split at h
  · obtain ⟨a, ha, h⟩ := bind_ok _ _ _ h
    have hstep := ih.pbstep _ _ _ _ _ _ ha
    split at h
    · exact Except.noConfusion h
    · have h2 := ih.pbloop _ _ _ _ _ _ h
      exact ⟨h2.1.trans hstep.1, h2.2.trans hstep.2⟩
  · cases h
    exact ⟨rfl, rfl⟩

theorem poolStep_pbstep (g : Nat) (ih : PoolAll g) :
    ∀ cfg st ob l beg r, parse_blockStep (g + 1) cfg st ob l beg = .ok r →
      r.1.spanSize = st.spanSize ∧ r.1.blockSize = st.blockSize := by
  intro cfg st ob l beg r h
  unfold parse_blockStep at h
  simp only [] at h
  split at h
  · exact ih.patx _ _ _ _ _ h
  · split at h
    · cases h
      exact ⟨rfl, rfl⟩
    · split at h
      · cases h
        exact ⟨rfl, rfl⟩
      · split at h
        · cases h
          exact ⟨rfl, rfl⟩
        · split at h
          · cases h
            exact parse_fencedcode_pool cfg st ob (l.drop beg)
          · obtain ⟨tb, htb, h⟩ := bind_ok _ _ _ h
            have htb5 : tb.1.spanSize = st.spanSize ∧
                tb.1.blockSize = st.blockSize := by
              split at htb
              · exact ih.ptable _ _ _ _ _ htb
              · cases htb
                exact ⟨rfl, rfl⟩
            have h3 := ih.pbrules _ _ _ _ _ h
            exact ⟨h3.1.trans htb5.1, h3.2.trans htb5.2⟩

theorem poolStep_pbrules (g : Nat) (ih : PoolAll g) :
    ∀ cfg tb txt th r, parse_blockRules (g + 1) cfg tb txt th = .ok r →
      r.1.spanSize = tb.1.spanSize ∧ r.1.blockSize = tb.1.blockSize := by
  intro cfg tb txt th r h
  unfold parse_blockRules at h
  split at h
  · cases h
    exact ⟨rfl, rfl⟩
  · split at h
    · exact ih.pbq _ _ _ _ _ h
    · split at h
      · cases h
        exact parse_blockcode_pool cfg tb.1 tb.2.1 txt
      · split at h
        · exact ih.plist _ _ _ _ _ _ h
        · split at h
          · exact ih.plist _ _ _ _ _ _ h
          · exact ih.ppar _ _ _ _ _ h

theorem poolStep_patx (g : Nat) (ih : PoolAll g) :
    ∀ cfg st ob l r, parse_atxheader (g + 1) cfg st ob l = .ok r →
      r.1.spanSize = st.spanSize ∧ r.1.blockSize = st.blockSize := by
  intro cfg st ob l r h
  unfold parse_atxheader at h
  simp only [] at h
  split at h
  · obtain ⟨a, ha, h⟩ := bind_ok _ _ _ h
    have h1 := ih.pinline _ _ _ _ _ ha
    cases h
    exact span_sandwich st a.2 h1.1 h1.2
  · cases h
    exact ⟨rfl, rfl⟩

theorem poolStep_pbq (g : Nat) (ih : PoolAll g) :
    ∀ cfg st ob l r, parse_blockquote (g + 1) cfg st ob l = .ok r →
      r.1.spanSize = st.spanSize ∧ r.1.blockSize = st.blockSize := by
  intro cfg st ob l r h
  unfold parse_blockquote at h
  simp only [] at h
  obtain ⟨a, ha, h⟩ := bind_ok _ _ _ h
  have h1 := ih.pblock _ _ _ _ _ ha
  cases h
  exact block_sandwich st a.2 h1.1 h1.2

theorem poolStep_ppar (g : Nat) (ih : PoolAll g) :
    ∀ cfg st ob l r, parse_paragraph (g + 1) cfg st ob l = .ok r →
      r.1.spanSize = st.spanSize ∧ r.1.blockSize = st.blockSize := by
  intro cfg st ob l r h
  unfold parse_paragraph at h
  simp only [] at h
  split at h
  · obtain ⟨a, ha, h⟩ := bind_ok _ _ _ h
    have h1 := ih.pinline _ _ _ _ _ ha
    cases h
    exact block_sandwich st a.2 h1.1 h1.2
  · obtain ⟨hri, hhr, h⟩ := bind_ok _ _ _ h
    have hhr5 : hri.1.spanSize = st.spanSize ∧ hri.1.blockSize = st.blockSize := by
      split at hhr
      · split at hhr
        · obtain ⟨a, ha, hhr⟩ := bind_ok _ _ _ hhr
          have h1 := ih.pinline _ _ _ _ _ ha
          cases hhr
          exact block_sandwich st a.2 h1.1 h1.2
        · cases hhr
          exact ⟨rfl, rfl⟩
      · cases hhr
        exact ⟨rfl, rfl⟩
    obtain ⟨a2, ha2, h⟩ := bind_ok _ _ _ h
    have h2 := ih.pinline _ _ _ _ _ ha2
    cases h
    have hs := span_sandwich hri.1 a2.2 h2.1 h2.2
    exact ⟨hs.1.trans hhr5.1, hs.2.trans hhr5.2⟩

theorem poolStep_plist (g : Nat) (ih : PoolAll g) :
    ∀ cfg st ob l fl r, parse_list (g + 1) cfg st ob l fl = .ok r →
      r.1.spanSize = st.spanSize ∧ r.1.blockSize = st.blockSize := by
  intro cfg st ob l fl r h
  unfold parse_list at h
  simp only [] at h
  obtain ⟨a, ha, h⟩ := bind_ok _ _ _ h
  have h1 := ih.plloop _ _ _ _ _ _ _ ha
  cases h
  exact block_sandwich st a.1 h1.1 h1.2

theorem poolStep_plloop (g : Nat) (ih : PoolAll g) :
    ∀ cfg st work l fl i r, parse_listLoop (g + 1) cfg st work l fl i = .ok r →
      r.1.spanSize = st.spanSize ∧ r.1.blockSize = st.blockSize := by
  intro cfg st work l fl i r h
  unfold parse_listLoop at h
  simp only [] at h
  split at h
  · obtain ⟨a, ha, h⟩ := bind_ok _ _ _ h
    have h1 := ih.plitem _ _ _ _ _ _ ha
    split at h
    · cases h
      exact h1
    · have h2 := ih.plloop _ _ _ _ _ _ _ h
      exact ⟨h2.1.trans h1.1, h2.2.trans h1.2⟩
  · cases h
    exact ⟨rfl, rfl⟩

theorem poolStep_pliInter (g : Nat) (ih : PoolAll g) :
    ∀ cfg st work sub lb r, parse_listitemInter (g + 1) cfg st work sub lb = .ok r →
      r.2.spanSize = st.spanSize ∧ r.2.blockSize = st.blockSize := by
  intro cfg st work sub lb r h
  unfold parse_listitemInter at h
  split at h
  · split at h
    · obtain ⟨r1, hr1, h⟩ := bind_ok _ _ _ h
      have e1 := ih.pblock _ _ _ _ _ hr1
      have e2 := ih.pblock _ _ _ _ _ h
      exact ⟨e2.1.trans e1.1, e2.2.trans e1.2⟩
    · exact ih.pblock _ _ _ _ _ h
  · split at h
    · obtain ⟨r1, hr1, h⟩ := bind_ok _ _ _ h
      have e1 := ih.pinline _ _ _ _ _ hr1
      have e2 := ih.pblock _ _ _ _ _ h
      exact ⟨e2.1.trans e1.1, e2.2.trans e1.2⟩
    · exact ih.pinline _ _ _ _ _ h

theorem poolStep_plitem (g : Nat) (ih : PoolAll g) :
    ∀ cfg st ob l fl r, parse_listitem (g + 1) cfg st ob l fl = .ok r →
      r.1.spanSize = st.spanSize ∧ r.1.blockSize = st.blockSize := by
  intro cfg st ob l fl r h
  unfold parse_listitem at h
  simp only [] at h
  split at h
  · obtain ⟨rr, hir, h⟩ := bind_ok _ _ _ h
    have hir5 := ih.pliInter _ _ _ _ _ _ hir
    cases h
    exact span2_sandwich st rr.2 hir5.1 hir5.2
  · split at h
    · cases h
      exact ⟨rfl, rfl⟩
    · obtain ⟨rr, hir, h⟩ := bind_ok _ _ _ h
      have hir5 := ih.pliInter _ _ _ _ _ _ hir
      cases h
      exact span2_sandwich st rr.2 hir5.1 hir5.2

theorem poolStep_ptable (g : Nat) (ih : PoolAll g) :
    ∀ cfg st ob l r, parse_table (g + 1) cfg st ob l = .ok r →
      r.1.spanSize = st.spanSize ∧ r.1.blockSize = st.blockSize := by
  intro cfg st ob l r h
  unfold parse_table at h
  simp only [] at h
  obtain ⟨hd, hhd, h⟩ := bind_ok _ _ _ h
  have h1 := ih.pthead _ _ _ _ _ hhd
  split at h
  · obtain ⟨rw0, hrw, h⟩ := bind_ok _ _ _ h
    have h2 := ih.ptrows _ _ _ _ _ _ _ _ hrw
    cases h
    exact span_block_sandwich st rw0.1 (h2.1.trans h1.1) (h2.2.trans h1.2)
  · cases h
    exact span_block_sandwich st hd.1 h1.1 h1.2

theorem poolStep_ptrows (g : Nat) (ih : PoolAll g) :
    ∀ cfg st body l cols cd i r, parse_tableRows (g + 1) cfg st body l cols cd i = .ok r →
      r.1.spanSize = st.spanSize ∧ r.1.blockSize = st.blockSize := by
  intro cfg st body l cols cd i r h
  unfold parse_tableRows at h
  simp only [] at h
  split at h
  · split at h
    · cases h
      exact ⟨rfl, rfl⟩
    · obtain ⟨a, ha, h⟩ := bind_ok _ _ _ h
      have h1 := ih.ptrow _ _ _ _ _ _ _ _ ha
      have h2 := ih.ptrows _ _ _ _ _ _ _ _ h
      exact ⟨h2.1.trans h1.1, h2.2.trans h1.2⟩
  · cases h
    exact ⟨rfl, rfl⟩

theorem poolStep_pthead (g : Nat) (ih : PoolAll g) :
    ∀ cfg st ob l r, parse_table_header (g + 1) cfg st ob l = .ok r →
      r.1.spanSize = st.spanSize ∧ r.1.blockSize = st.blockSize := by
  intro cfg st ob l r h
  unfold parse_table_header at h
  simp only [] at h
  split at h
  · cases h
    exact ⟨rfl, rfl⟩
  · obtain ⟨a, ha, h⟩ := bind_ok _ _ _ h
    have h1 := ih.ptrow _ _ _ _ _ _ _ _ ha
    cases h
    exact h1

theorem poolStep_ptrow (g : Nat) (ih : PoolAll g) :
    ∀ cfg st ob l cols cd hdr r, parse_table_row (g + 1) cfg st ob l cols cd hdr = .ok r →
      r.1.spanSize = st.spanSize ∧ r.1.blockSize = st.blockSize := by
  intro cfg st ob l cols cd hdr r h
  unfold parse_table_row at h
  simp only [] at h
  split at h
  · obtain ⟨a, ha, h⟩ := bind_ok _ _ _ h
    have h1 := ih.ptcells _ _ _ _ _ _ _ _ _ _ ha
    cases h
    exact span_sandwich st a.1 h1.1 h1.2
  all_goals (cases h; exact ⟨rfl, rfl⟩)

theorem poolStep_ptcells (g : Nat) (ih : PoolAll g) :
    ∀ cfg st row l cols cd hdr col i r,
      parse_tableCells (g + 1) cfg st row l cols cd hdr col i = .ok r →
      r.1.spanSize = st.spanSize ∧ r.1.blockSize = st.blockSize := by
  intro cfg st row l cols cd hdr col i r h
  unfold parse_tableCells at h
  simp only [] at h
  split at h
  · obtain ⟨a, ha, h⟩ := bind_ok _ _ _ h
    have h1 := ih.pinline _ _ _ _ _ ha
    have hs := span_sandwich st a.2 h1.1 h1.2
    have h2 := ih.ptcells _ _ _ _ _ _ _ _ _ _ h
    exact ⟨h2.1.trans hs.1, h2.2.trans hs.2⟩
  · cases h
    exact ⟨rfl, rfl⟩

theorem poolStep_pfdef (g : Nat) (ih : PoolAll g) :
    ∀ cfg st ob num contents r, parse_footnote_def (g + 1) cfg st ob num contents = .ok r →
      r.1.spanSize = st.spanSize ∧ r.1.blockSize = st.blockSize := by
  intro cfg st ob num contents r h
  unfold parse_footnote_def at h
  simp only [] at h
  obtain ⟨a, ha, h⟩ := bind_ok _ _ _ h
  have h1 := ih.pblock _ _ _ _ _ ha
  cases h
  exact span_sandwich st a.2 h1.1 h1.2

theorem poolStep_pfitems (g : Nat) (ih : PoolAll g) :
    ∀ cfg st work items r, parse_footnoteItems (g + 1) cfg st work items = .ok r →
      r.1.spanSize = st.spanSize ∧ r.1.blockSize = st.blockSize := by
  intro cfg st work items r h
  unfold parse_footnoteItems at h
  split at h
  · cases h
    exact ⟨rfl, rfl⟩
  · obtain ⟨a, ha, h⟩ := bind_ok _ _ _ h
    have h1 := ih.pfdef _ _ _ _ _ _ ha
    have h2 := ih.pfitems _ _ _ _ _ h
    exact ⟨h2.1.trans h1.1, h2.2.trans h1.2⟩

theorem poolStep_pflist (g : Nat) (ih : PoolAll g) :
    ∀ cfg st ob r, parse_footnote_list (g + 1) cfg st ob = .ok r →
      r.1.spanSize = st.spanSize ∧ r.1.blockSize = st.blockSize := by
  intro cfg st ob r h
  unfold parse_footnote_list at h
  simp only [] at h
  split at h
  · cases h
    exact ⟨rfl, rfl⟩
  · obtain ⟨a, ha, h⟩ := bind_ok _ _ _ h
    have h1 := ih.pfitems _ _ _ _ _ ha
    cases h
    exact block_sandwich st a.1 h1.1 h1.2

/-- The pool-balance invariant holds at every gas level: by induction,
each level's proof obligations are the `poolStep` lemmas applied to the
previous level. -/
theorem poolAll : ∀ gas, PoolAll gas := by
  intro gas
  induction gas with
  | zero => exact poolAll_zero
  | succ g ih =>
    exact {
      pinline := poolStep_pinline g ih
      piloop := poolStep_piloop g ih
      ctrig := poolStep_ctrig g ih
      cemph := poolStep_cemph g ih
      pe1 := poolStep_pe1 g ih
      pe1l := poolStep_pe1l g ih
      pe2 := poolStep_pe2 g ih
      pe2l := poolStep_pe2l g ih
      pe3 := poolStep_pe3 g ih
      pe3l := poolStep_pe3l g ih
      csup := poolStep_csup g ih
      clink := poolStep_clink g ih
      clrest := poolStep_clrest g ih
      pblock := poolStep_pblock g ih
      pbloop := poolStep_pbloop g ih
      pbstep := poolStep_pbstep g ih
      pbrules := poolStep_pbrules g ih
      patx := poolStep_patx g ih
      pbq := poolStep_pbq g ih
      ppar := poolStep_ppar g ih
      plist := poolStep_plist g ih
      plloop := poolStep_plloop g ih
      plitem := poolStep_plitem g ih
      pliInter := poolStep_pliInter g ih
      ptable := poolStep_ptable g ih
      ptrows := poolStep_ptrows g ih
      pthead := poolStep_pthead g ih
      ptrow := poolStep_ptrow g ih
      ptcells := poolStep_ptcells g ih
      pfdef := poolStep_pfdef g ih
      pfitems := poolStep_pfitems g ih
      pflist := poolStep_pflist g ih }

/-- Pass 1 only accumulates reference definitions: it never touches
the pool counters of the parser state. -/
theorem pass1Loop_pools (gas : Nat) : ∀ cfg d beg text st r,
    pass1Loop gas cfg d beg text st = .ok r →
    r.2.spanSize = st.spanSize ∧ r.2.blockSize = st.blockSize := by
  induction gas with
  | zero =>
    intro cfg d beg text st r h
    exact Except.noConfusion h
  | succ g ih =>
    intro cfg d beg text st r h
    unfold pass1Loop at h
    simp only [] at h
    split at h
    · split at h
      · split at h
        · exact Except.noConfusion h
        · have h2 := ih _ _ _ _ _ _ h
          exact h2
      · split at h
        · split at h
          · exact Except.noConfusion h
          · have h2 := ih _ _ _ _ _ _ h
            exact h2
        · split at h
          · split at h
            · exact Except.noConfusion h
            · have h2 := ih _ _ _ _ _ _ h
              exact h2
          · split at h
            · exact Except.noConfusion h
            · have h2 := ih _ _ _ _ _ _ h
              exact h2
    · cases h
      exact ⟨rfl, rfl⟩

/-- Pass 2 preserves the pool counters of the state produced by
pass 1: its calls into the parser cluster are pool-balanced. -/
theorem pass2_pools (gas : Nat) (cfg : Config) (ob : List Nat)
    (p r : List Nat × MDState) (h : pass2 gas cfg ob p = .ok r) :
    r.2.spanSize = p.2.spanSize ∧ r.2.blockSize = p.2.blockSize := by
  unfold pass2 at h
  simp only [] at h
  obtain ⟨a, ha, h⟩ := bind_ok _ _ _ h
  have ha5 : a.2.spanSize = p.2.spanSize ∧ a.2.blockSize = p.2.blockSize := by
    split at ha
    · exact (poolAll gas).pblock _ _ _ _ _ ha
    · cases ha
      exact ⟨rfl, rfl⟩
  obtain ⟨b, hb, h⟩ := bind_ok _ _ _ h
  have hb5 : b.2.spanSize = a.2.spanSize ∧ b.2.blockSize = a.2.blockSize := by
    split at hb
    · obtain ⟨c, hc, hb⟩ := bind_ok _ _ _ hb
      have hc5 := (poolAll gas).pflist _ _ _ _ hc
      cases hb
      exact hc5
    · cases hb
      exact ⟨rfl, rfl⟩
  cases h
  exact ⟨hb5.1.trans ha5.1, hb5.2.trans ha5.2⟩

/-! ### C1: pool balance of a full render -/

/-- C1: at the end of any successful `sd_markdown_render` — for every
input document, callback table and gas budget — both work-buffer pool
counters of the parser state are 0: every `rndr_newbuf` performed
during the render was matched by exactly one `rndr_popbuf` before the
render returned (the source's exit assertions at
markdown.c:3572-3573). -/
theorem C1_pool_balance (gas : Nat) (cfg : Config) (ob d : List Nat)
    (r : List Nat × MDState) (h : sd_markdown_render gas cfg ob d = .ok r) :
    r.2.spanSize = 0 ∧ r.2.blockSize = 0 := by
  unfold sd_markdown_render at h
  obtain ⟨p, hp, h⟩ := bind_ok _ _ _ h
  have h1 : p.2.spanSize = 0 ∧ p.2.blockSize = 0 := by
    unfold pass1 at hp
    have h2 := pass1Loop_pools gas cfg d _ [] {} p hp
    exact h2
  have h3 := pass2_pools gas cfg ob p r h
  exact ⟨h3.1.trans h1.1, h3.2.trans h1.2⟩

/-- Witness for C1: rendering the one-byte document `"a"` with the
empty callback table succeeds and leaves both pool counters at 0. -/
theorem C1_witness :
    (([], ({} : MDState)) : List Nat × MDState).2.spanSize = 0 ∧
    (([], ({} : MDState)) : List Nat × MDState).2.blockSize = 0 :=
  C1_pool_balance 50 { cb := {} } [] [97] ([], {}) (by decide)

/-! ### C4: progress of every loop

`Fail.progress` marks an iteration of the pass-1 line loop or of the
`parse_block` rule loop that fails to advance its cursor — exactly the
iterations on which the corresponding C `while` loops would spin
forever.  The theorems below show no reachable computation produces
it. -/

theorem scanW_lower (p : Nat → Bool) (l : List Nat) (i stop n : Nat)
    (hstop : stop ≤ l.length) (hns : n ≤ stop)
    (hall : ∀ k, i ≤ k → k < n → p (bget l k) = true) :
    n ≤ scanW p l i stop := by
  by_contra hc
  push_neg at hc
  have h1 : scanW p l i stop < stop := Nat.lt_of_lt_of_le hc hns
  have h2 := scanW_stop_false p l i stop hstop h1
  have h3 := hall _ (scanW_ge p l i stop) hc
  rw [h3] at h2
  exact Bool.noConfusion h2

theorem le_ite_succ_self (C : Prop) [Decidable C] (a : Nat) :
    a ≤ if C then a + 1 else a := by
  split
  · exact Nat.le_succ a
  · exact Nat.le_refl a

theorem refSkipEol_ge (d : List Nat) (end_ i : Nat) : i ≤ refSkipEol d end_ i := by
  unfold refSkipEol
  simp only []
  split
  · omega
  · omega

theorem refSkip4_ge (d : List Nat) (end_ i : Nat) : i ≤ refSkip4 d end_ i := by
  unfold refSkip4
  split
  · exact refSkipEol_ge d end_ i
  · exact Nat.le_refl i

theorem refAngle_ge (d : List Nat) (i : Nat) : i ≤ refAngle d i := by
  unfold refAngle
  split
  · exact Nat.le_succ i
  · exact Nat.le_refl i

theorem fnSkipEol_ge (d : List Nat) (end_ i : Nat) : i ≤ fnSkipEol d end_ i := by
  unfold fnSkipEol
  simp only []
  split
  · omega
  · omega

theorem ite_fnSkipEol_ge (C : Prop) [Decidable C] (d : List Nat) (end_ i : Nat) :
    i ≤ if C then fnSkipEol d end_ i else i := by
  split
  · exact fnSkipEol_ge d end_ i
  · exact Nat.le_refl i

theorem fnSkip5_ge (d : List Nat) (end_ i : Nat) : i ≤ fnSkip5 d end_ i := by
  unfold fnSkip5
  split
  · exact fnSkipEol_ge d end_ i
  · exact Nat.le_refl i

theorem ref_le1_cases (C1 C2 : Prop) [Decidable C1] [Decidable C2] (a b : Nat)
    (h : b < a) :
    (if C1 then a + 1 else if C2 then a else 0) = 0 ∨
      b < (if C1 then a + 1 else if C2 then a else 0) := by
  split
  · exact Or.inr (Nat.lt_succ_of_lt h)
  · split
    · exact Or.inr h
    · exact Or.inl rfl

theorem is_refTitle_fst (d : List Nat) (end_ i8 le1 b : Nat) (h8 : b < i8)
    (hle : le1 = 0 ∨ b < le1) :
    (is_refTitle d end_ i8 le1).1 = le1 ∨ b < (is_refTitle d end_ i8 le1).1 := by
  unfold is_refTitle
  simp only []
  set i9 := (if le1 ≠ 0 then scanW (fun c => c == 32) d (le1 + 1) end_ else i8) with hi9
  have h9 : b < i9 := by
    rw [hi9]
    split
    · rename_i hq
      rcases hle with h0 | hlt
      · exact absurd h0 hq
      · exact Nat.lt_of_lt_of_le (Nat.lt_succ_of_lt hlt) (scanW_ge _ _ _ _)
    · exact h8
  set i10 := scanW (fun c => !(c == 10) && !(c == 13)) d (i9 + 1) end_ with hi10
  have h10 : b < i10 := Nat.lt_of_lt_of_le (Nat.lt_succ_of_lt h9) (scanW_ge _ _ _ _)
  split
  · split
    · exact Or.inr (Nat.lt_of_lt_of_le h10 (le_ite_succ_self _ _))
    · exact Or.inl rfl
  · exact Or.inl rfl

theorem is_refTitle_pos (d : List Nat) (end_ i8 le1 b : Nat) (h8 : b < i8)
    (hle : le1 = 0 ∨ b < le1) (hnz : ¬ (is_refTitle d end_ i8 le1).1 = 0) :
    b < (is_refTitle d end_ i8 le1).1 := by
  rcases is_refTitle_fst d end_ i8 le1 b h8 hle with heq | hlt
  · rcases hle with h0 | hlt2
    · rw [heq] at hnz
      exact absurd h0 hnz
    · rw [heq]
      exact hlt2
  · exact hlt

theorem is_refRest_gt (d : List Nat) (end_ idOff idEnd i2 : Nat)
    (rr : Nat × List Nat × List Nat × Option (List Nat))
    (h : is_refRest d end_ idOff idEnd i2 = some rr) : i2 < rr.1 := by
  unfold is_refRest at h
  simp only [] at h
  set i3 := scanW (fun c => c == 32) d (i2 + 1) end_ with hi3
  set i4 := refSkip4 d end_ i3 with hi4
  set i5 := scanW (fun c => c == 32) d i4 end_ with hi5
  set i6 := refAngle d i5 with hi6
  set i7 := scanW (fun c => !(c == 32) && !(c == 10) && !(c == 13)) d i6 end_ with hi7
  set i8 := scanW (fun c => c == 32) d i7 end_ with hi8
  set le1 := (if i8 + 1 < end_ ∧ bget d i8 = 10 ∧ bget d (i8 + 1) = 13 then i8 + 1
              else if i8 ≥ end_ ∨ bget d i8 = 13 ∨ bget d i8 = 10 then i8 else 0)
    with hle1
  set lnkE := (if bget d (i7 - 1) = 62 then i7 - 1 else i7) with hlE
  have h3 : i2 < i3 := Nat.lt_of_lt_of_le (Nat.lt_succ_self i2) (scanW_ge _ _ _ _)
  have h4 : i2 < i4 := Nat.lt_of_lt_of_le h3 (refSkip4_ge d end_ i3)
  have h5 : i2 < i5 := Nat.lt_of_lt_of_le h4 (scanW_ge _ _ _ _)
  have h6 : i2 < i6 := Nat.lt_of_lt_of_le h5 (refAngle_ge d i5)
  have h7 : i2 < i7 := Nat.lt_of_lt_of_le h6 (scanW_ge _ _ _ _)
  have h8 : i2 < i8 := Nat.lt_of_lt_of_le h7 (scanW_ge _ _ _ _)
  split at h
  · exact Option.noConfusion h
  · split at h
    · exact Option.noConfusion h
    · split at h
      · exact Option.noConfusion h
      · rename_i hng
        cases h
        refine is_refTitle_pos d end_ _ _ i2 h8 ?_ ?_
        · rw [hle1]
          exact ref_le1_cases _ _ _ _ h8
        · exact fun h0 => hng (Or.inl h0)

/-- `is_ref` only reports a region that extends strictly beyond `beg`:
the pass-1 loop advances on it. -/
theorem is_ref_gt (d : List Nat) (beg end_ : Nat)
    (rr : Nat × List Nat × List Nat × Option (List Nat))
    (h : is_ref d beg end_ = some rr) : beg < rr.1 := by
  unfold is_ref at h
  simp only [] at h
  set sp := (if bget d beg = 32 then
               if bget d (beg + 1) = 32 then
                 if bget d (beg + 2) = 32 then 3 else 2
               else 1
             else 0) with hsp
  set i1 := scanW (fun c => !(c == 10) && !(c == 13) && !(c == 93)) d (sp + beg + 1) end_
    with hi1
  split at h
  · exact Option.noConfusion h
  · split at h
    · exact Option.noConfusion h
    · split at h
      · exact Option.noConfusion h
      · split at h
        · exact Option.noConfusion h
        · split at h
          · exact Option.noConfusion h
          · have h2 := is_refRest_gt _ _ _ _ _ _ h
            have h3 : sp + beg + 1 ≤ i1 := scanW_ge _ _ _ _
            omega

theorem is_footnoteLoop_ge (d : List Nat) (end_ : Nat) :
    ∀ fuel s in_e c, s ≤ (is_footnoteLoop d end_ fuel s s in_e c).1 := by
  intro fuel
  induction fuel with
  | zero =>
    intro s in_e c
    exact Nat.le_refl s
  | succ f ih =>
    intro s in_e c
    unfold is_footnoteLoop
    simp only []
    split
    · split
      · refine Nat.le_trans ?_ (ih _ _ _)
        refine Nat.le_trans ?_ (ite_fnSkipEol_ge _ _ _ _)
        exact scanW_ge _ _ _ _
      · split
        · exact Nat.le_refl s
        · split
          · refine Nat.le_trans ?_ (ih _ _ _)
            refine Nat.le_trans ?_ (ite_fnSkipEol_ge _ _ _ _)
            exact scanW_ge _ _ _ _
          · refine Nat.le_trans ?_ (ih _ _ _)
            exact scanW_ge _ _ _ _
    · exact Nat.le_refl s

/-- `is_footnote` only reports a region that extends strictly beyond
`beg`: the pass-1 loop advances on it. -/
theorem is_footnote_gt (d : List Nat) (beg end_ : Nat)
    (rr : Nat × List Nat × List Nat)
    (h : is_footnote d beg end_ = some rr) : beg < rr.1 := by
  unfold is_footnote at h
  simp only [] at h
  set sp := (if bget d beg = 32 then
               if bget d (beg + 1) = 32 then
                 if bget d (beg + 2) = 32 then 3 else 2
               else 1
             else 0) with hsp
  set i2 := scanW (fun c => !(c == 10) && !(c == 13) && !(c == 93)) d (sp + beg + 1 + 1) end_
    with hi2
  set i4 := scanW (fun c => c == 32) d (i2 + 1 + 1) end_ with hi4
  set i5 := fnSkip5 d end_ i4 with hi5
  set i6 := scanW (fun c => c == 32) d i5 end_ with hi6
  split at h
  · exact Option.noConfusion h
  · split at h
    · exact Option.noConfusion h
    · split at h
      · exact Option.noConfusion h
      · split at h
        · exact Option.noConfusion h
        · split at h
          · exact Option.noConfusion h
          · split at h
            · exact Option.noConfusion h
            · split at h
              · exact Option.noConfusion h
              · cases h
                refine Nat.lt_of_lt_of_le ?_ (is_footnoteLoop_ge _ _ _ _ _ _)
                have h2 : sp + beg + 1 + 1 ≤ i2 := scanW_ge _ _ _ _
                have h4 : i2 + 1 + 1 ≤ i4 := scanW_ge _ _ _ _
                have h5 : i4 ≤ i5 := fnSkip5_ge _ _ _
                have h6 : i5 ≤ i6 := scanW_ge _ _ _ _
                omega

theorem pass1Newlines_ge (d : List Nat) :
    ∀ fuel e text, e ≤ (pass1Newlines d fuel e text).2 := by
  intro fuel
  induction fuel with
  | zero =>
    intro e text
    exact Nat.le_refl e
  | succ f ih =>
    intro e text
    unfold pass1Newlines
    simp only []
    split
    · exact Nat.le_trans (Nat.le_succ e) (ih _ _)
    · exact Nat.le_refl e

theorem lineEnd_gt (l : List Nat) (beg : Nat) (h : beg < l.length) :
    beg < lineEnd l beg := by
  unfold lineEnd
  have := scanW_ge (fun x => !(x == 10)) l beg l.length
  omega

theorem fencedLoop_ge (l : List Nat) :
    ∀ fuel beg work, beg ≤ (fencedLoop l fuel beg work).2 := by
  intro fuel
  induction fuel with
  | zero =>
    intro beg work
    exact Nat.le_refl beg
  | succ f ih =>
    intro beg work
    unfold fencedLoop
    simp only []
    split
    · rename_i hbl
      split
      · exact Nat.le_add_right beg _
      · exact Nat.le_trans (Nat.le_of_lt (lineEnd_gt l beg hbl)) (ih _ _)
    · exact Nat.le_refl beg

/-- A region that starts with a code fence makes `parse_fencedcode`
consume at least the fence line. -/
theorem parse_fencedcode_pos (cfg : Config) (st : MDState) (ob l : List Nat)
    (h : (is_codefence l).1 ≠ 0) : (parse_fencedcode cfg st ob l).2.2 ≠ 0 := by
  unfold parse_fencedcode
  simp only []
  split
  · rename_i h0
    exact absurd h0 h
  · have h1 := fencedLoop_ge l l.length (is_codefence l).1 []
    show (fencedLoop l l.length (is_codefence l).1 []).2 ≠ 0
    omega

theorem prefix_code_facts (l : List Nat) (h : prefix_code l ≠ 0) :
    l.length > 3 ∧ bget l 0 = 32 ∧ bget l 1 = 32 ∧ bget l 2 = 32 ∧ bget l 3 = 32 := by
  unfold prefix_code at h
  split at h
  · assumption
  · exact absurd rfl h

theorem prefix_uli_len (l : List Nat) (h : prefix_uli l ≠ 0) : 0 < l.length := by
  unfold prefix_uli at h
  simp only [] at h
  split at h
  · exact absurd rfl h
  · rename_i hc
    push_neg at hc
    obtain ⟨h1, -⟩ := hc
    omega

theorem prefix_oli_len (l : List Nat) (h : prefix_oli l ≠ 0) : 0 < l.length := by
  unfold prefix_oli at h
  simp only [] at h
  split at h
  · exact absurd rfl h
  · split at h
    · exact absurd rfl h
    · rename_i hc
      push_neg at hc
      obtain ⟨h1, -⟩ := hc
      omega

theorem blockcodeLoop_pos (l : List Nat) :
    ∀ fuel beg work, 1 ≤ beg → (blockcodeLoop l fuel beg work).2 ≠ 0 := by
  intro fuel
  induction fuel with
  | zero =>
    intro beg work h
    show beg ≠ 0
    omega
  | succ f ih =>
    intro beg work h
    unfold blockcodeLoop
    simp only []
    split
    · rename_i hbl
      split
      · exact ih _ _ (Nat.le_trans h (Nat.le_of_lt (lineEnd_gt l beg hbl)))
      · split
        · show beg ≠ 0
          omega
        · exact ih _ _ (Nat.le_trans h (Nat.le_of_lt (lineEnd_gt l beg hbl)))
    · show beg ≠ 0
      omega

/-- An indented first line makes `parse_blockcode` consume at least
that line. -/
theorem parse_blockcode_pos (cfg : Config) (st : MDState) (ob l : List Nat)
    (h : prefix_code l ≠ 0) : (parse_blockcode cfg st ob l).2.2 ≠ 0 := by
  obtain ⟨hlen, h0, h1, h2, h3⟩ := prefix_code_facts l h
  have he4 : 4 ≤ scanW (fun x => !(x == 10)) l 0 l.length := by
    refine scanW_lower _ _ _ _ _ (Nat.le_refl _) (by omega) ?_
    intro k hk0 hk4
    have h03 : k = 0 ∨ k = 1 ∨ k = 2 ∨ k = 3 := by omega
    rcases h03 with hk | hk | hk | hk
    all_goals subst hk
    · rw [h0]
      rfl
    · rw [h1]
      rfl
    · rw [h2]
      rfl
    · rw [h3]
      rfl
  have heB : 4 ≤ lineEnd l 0 ∧ lineEnd l 0 ≤ l.length := by
    unfold lineEnd
    omega
  have hWk : ∀ k, k < lineEnd l 0 - 0 → bget (win l 0 (lineEnd l 0 - 0)) k = bget l k := by
    intro k hk
    have hb := bget_drop_take l 0 (lineEnd l 0) k hk
    rw [Nat.zero_add] at hb
    exact hb
  have hWlen : (win l 0 (lineEnd l 0 - 0)).length = min (lineEnd l 0 - 0) l.length := by
    unfold win
    rw [List.length_take, List.drop_zero]
  have hpre : prefix_code (win l 0 (lineEnd l 0 - 0)) ≠ 0 := by
    unfold prefix_code
    rw [if_pos]
    · exact Nat.noConfusion
    · refine ⟨by rw [hWlen]; omega, ?_, ?_, ?_, ?_⟩
      · rw [hWk 0 (by omega)]
        exact h0
      · rw [hWk 1 (by omega)]
        exact h1
      · rw [hWk 2 (by omega)]
        exact h2
      · rw [hWk 3 (by omega)]
        exact h3
  unfold parse_blockcode
  simp only []
  show (blockcodeLoop l l.length 0 []).2 ≠ 0
  obtain ⟨n, hn⟩ : ∃ n, l.length = n + 1 := ⟨l.length - 1, by omega⟩
  rw [hn]
  unfold blockcodeLoop
  simp only []
  rw [if_pos (by omega : (0 : Nat) < l.length)]
  rw [if_pos hpre]
  exact blockcodeLoop_pos l n _ _ (by have := lineEnd_gt l 0 (by omega); omega)

theorem bqLoop_pos (l : List Nat) :
    ∀ fuel beg end0 work, 1 ≤ end0 → (bqLoop l fuel beg end0 work).2 ≠ 0 := by
  intro fuel
  induction fuel with
  | zero =>
    intro beg end0 work h
    show end0 ≠ 0
    omega
  | succ f ih =>
    intro beg end0 work h
    unfold bqLoop
    simp only []
    split
    · rename_i hbl
      split
      · exact ih _ _ _ (Nat.le_trans (by omega) (lineEnd_gt l beg hbl))
      · split
        · show lineEnd l beg ≠ 0
          have := lineEnd_gt l beg hbl
          omega
        · exact ih _ _ _ (Nat.le_trans (by omega) (lineEnd_gt l beg hbl))
    · show end0 ≠ 0
      omega

theorem bqStart_pos (l : List Nat) (hl : 0 < l.length) :
    (bqLoop l l.length 0 0 []).2 ≠ 0 := by
  obtain ⟨n, hn⟩ : ∃ n, l.length = n + 1 := ⟨l.length - 1, by omega⟩
  rw [hn]
  unfold bqLoop
  simp only []
  rw [if_pos (by omega : (0 : Nat) < l.length)]
  split
  · exact bqLoop_pos l n _ _ _ (by have := lineEnd_gt l 0 hl; omega)
  · split
    · show lineEnd l 0 ≠ 0
      have := lineEnd_gt l 0 hl
      omega
    · exact bqLoop_pos l n _ _ _ (by have := lineEnd_gt l 0 hl; omega)

/-- A non-empty region makes `parse_blockquote` consume at least one
line. -/
theorem parse_blockquote_pos (gas : Nat) (cfg : Config) (st : MDState)
    (ob l : List Nat) (r : MDState × List Nat × Nat)
    (h : parse_blockquote gas cfg st ob l = .ok r) (hl : 0 < l.length) :
    r.2.2 ≠ 0 := by
  cases gas with
  | zero => exact Except.noConfusion h
  | succ g =>
    unfold parse_blockquote at h
    simp only [] at h
    obtain ⟨a, ha, h⟩ := bind_ok _ _ _ h
    cases h
    exact bqStart_pos l hl

/-- An ATX-header region makes `parse_atxheader` consume at least one
byte (the `#` run is skipped whatever follows). -/
theorem parse_atxheader_pos (gas : Nat) (cfg : Config) (st : MDState)
    (ob l : List Nat) (r : MDState × List Nat × Nat)
    (h : parse_atxheader gas cfg st ob l = .ok r)
    (hatx : is_atxheader cfg l = true) (hl : 0 < l.length) : r.2.2 ≠ 0 := by
  have h35 : bget l 0 = 35 := by
    unfold is_atxheader at hatx
    split at hatx
    · exact Bool.noConfusion hatx
    · rename_i hc
      omega
  have hlev : 1 ≤ scanW (fun c => c == 35) l 0 (min 6 l.length) := by
    refine scanW_lower _ _ _ _ _ (by omega) (by omega) ?_
    intro k hk0 hk1
    have hk : k = 0 := by omega
    subst hk
    rw [h35]
    rfl
  have hi := scanW_ge (fun c => c == 32) l (scanW (fun c => c == 35) l 0 (min 6 l.length))
    l.length
  have he0 := scanW_ge (fun c => !(c == 10)) l
    (scanW (fun c => c == 32) l (scanW (fun c => c == 35) l 0 (min 6 l.length)) l.length)
    l.length
  cases gas with
  | zero => exact Except.noConfusion h
  | succ g =>
    unfold parse_atxheader at h
    simp only [] at h
    split at h
    · obtain ⟨a, ha, h⟩ := bind_ok _ _ _ h
      cases h
      show scanW (fun c => !(c == 10)) l
        (scanW (fun c => c == 32) l (scanW (fun c => c == 35) l 0 (min 6 l.length))
          l.length) l.length ≠ 0
      omega
    · cases h
      show scanW (fun c => !(c == 10)) l
        (scanW (fun c => c == 32) l (scanW (fun c => c == 35) l 0 (min 6 l.length))
          l.length) l.length ≠ 0
      omega

theorem paragraphLoop_pos1 (cfg : Config) (ob l : List Nat) :
    ∀ fuel i lE, 1 ≤ i → 1 ≤ lE →
    (paragraphLoop cfg ob l fuel i lE).2.1 ≠ 0 := by
  intro fuel
  induction fuel with
  | zero =>
    intro i lE h1 h2
    show lE ≠ 0
    omega
  | succ f ih =>
    intro i lE h1 h2
    unfold paragraphLoop
    simp only []
    split
    · rename_i hbl
      split
      · show lineEnd l i ≠ 0
        have := lineEnd_gt l i hbl
        omega
      · split
        · show lineEnd l i ≠ 0
          have := lineEnd_gt l i hbl
          omega
        · split
          · show i ≠ 0
            omega
          · split
            · split
              · show i ≠ 0
                omega
              · split
                · show i ≠ 0
                  omega
                · split
                  · show i ≠ 0
                    omega
                  · exact ih _ _ (by have := lineEnd_gt l i hbl; omega)
                      (by have := lineEnd_gt l i hbl; omega)
            · exact ih _ _ (by have := lineEnd_gt l i hbl; omega)
                (by have := lineEnd_gt l i hbl; omega)
    · show lE ≠ 0
      omega

theorem paragraphLoop_start_pos (cfg : Config) (ob l : List Nat) (fuel : Nat)
    (hl : 0 < l.length)
    (hatx : is_atxheader cfg l = false)
    (hhr : is_hrule l = false)
    (hq : prefix_quote l = 0)
    (holi : prefix_oli l = 0)
    (huli : prefix_uli l = 0)
    (hhtml : ¬ (bget l 0 = 60 ∧ cfg.cb.blockhtml.isSome = true ∧
      (parse_htmlblock cfg ob l false).2 ≠ 0))
    (hfen : ¬ (cfg.ext.fencedCode = true ∧ (is_codefence l).1 ≠ 0))
    (hfuel : 0 < fuel) :
    (paragraphLoop cfg ob l fuel 0 0).2.1 ≠ 0 := by
  obtain ⟨n, hn⟩ : ∃ n, fuel = n + 1 := ⟨fuel - 1, by omega⟩
  subst hn
  unfold paragraphLoop
  simp only []
  rw [List.drop_zero]
  rw [if_pos hl]
  split
  · show lineEnd l 0 ≠ 0
    have := lineEnd_gt l 0 hl
    omega
  · split
    · show lineEnd l 0 ≠ 0
      have := lineEnd_gt l 0 hl
      omega
    · split
      · rename_i hc
        rcases hc with hc | hc | hc
        · rw [hatx] at hc
          exact Bool.noConfusion hc
        · rw [hhr] at hc
          exact Bool.noConfusion hc
        · exact absurd hq hc
      · split
        · split
          · rename_i hc
            rcases hc with hc | hc
            · exact absurd holi hc
            · exact absurd huli hc
          · exact paragraphLoop_pos1 cfg ob l n _ _
              (by have := lineEnd_gt l 0 hl; omega)
              (by have := lineEnd_gt l 0 hl; omega)
        · exact paragraphLoop_pos1 cfg ob l n _ _
            (by have := lineEnd_gt l 0 hl; omega)
            (by have := lineEnd_gt l 0 hl; omega)

/-- A paragraph region (no other rule matches at its start) makes
`parse_paragraph` consume at least one line. -/
theorem parse_paragraph_pos (gas : Nat) (cfg : Config) (st : MDState)
    (ob l : List Nat) (r : MDState × List Nat × Nat)
    (h : parse_paragraph gas cfg st ob l = .ok r)
    (hl : 0 < l.length)
    (hatx : is_atxheader cfg l = false)
    (hhr : is_hrule l = false)
    (hq : prefix_quote l = 0)
    (holi : prefix_oli l = 0)
    (huli : prefix_uli l = 0)
    (hhtml : ¬ (bget l 0 = 60 ∧ cfg.cb.blockhtml.isSome = true ∧
      (parse_htmlblock cfg ob l false).2 ≠ 0))
    (hfen : ¬ (cfg.ext.fencedCode = true ∧ (is_codefence l).1 ≠ 0)) :
    r.2.2 ≠ 0 := by
  cases gas with
  | zero => exact Except.noConfusion h
  | succ g =>
    unfold parse_paragraph at h
    simp only [] at h
    split at h
    · obtain ⟨a, ha, h⟩ := bind_ok _ _ _ h
      cases h
      exact paragraphLoop_start_pos cfg ob l l.length hl hatx hhr hq holi huli hhtml hfen
        (by omega)
    · obtain ⟨hh, hhd, h⟩ := bind_ok _ _ _ h
      obtain ⟨a2, ha2, h⟩ := bind_ok _ _ _ h
      cases h
      exact paragraphLoop_start_pos cfg ob l l.length hl hatx hhr hq holi huli hhtml hfen
        (by omega)

theorem listitemLoop_ge (cfg : Config) (l : List Nat) (orgpre : Nat) :
    ∀ fuel beg work sublist flags in_e has_ie in_f,
    beg ≤ (listitemLoop cfg l orgpre fuel beg work sublist flags in_e has_ie in_f).2.2.2.1 := by
  intro fuel
  induction fuel with
  | zero =>
    intro beg work sublist flags in_e has_ie in_f
    exact Nat.le_refl beg
  | succ f ih =>
    intro beg work sublist flags in_e has_ie in_f
    unfold listitemLoop
    simp only []
    split
    · rename_i hbl
      split
      · exact Nat.le_trans (Nat.le_of_lt (lineEnd_gt l beg hbl)) (ih _ _ _ _ _ _ _)
      · repeat' split
        all_goals first
          | exact Nat.le_refl beg
          | exact Nat.le_trans (Nat.le_of_lt (lineEnd_gt l beg hbl)) (ih _ _ _ _ _ _ _)
    · exact Nat.le_refl beg

theorem listitemLoop_pos (cfg : Config) (l : List Nat) (orgpre : Nat)
    (fuel beg : Nat) (work : List Nat) (sublist : Nat) (flags : ListFlags)
    (in_e has_ie in_f : Bool) (h : 1 ≤ beg) :
    (listitemLoop cfg l orgpre fuel beg work sublist flags in_e has_ie in_f).2.2.2.1 ≠ 0 := by
  have := listitemLoop_ge cfg l orgpre fuel beg work sublist flags in_e has_ie in_f
  omega

/-- A list-item region (a bullet or number prefix matches) makes
`parse_listitem` consume at least its first line. -/
theorem parse_listitem_pos (gas : Nat) (cfg : Config) (st : MDState)
    (ob l : List Nat) (fl : ListFlags) (r : MDState × List Nat × ListFlags × Nat)
    (h : parse_listitem gas cfg st ob l fl = .ok r)
    (hpre : prefix_uli l ≠ 0 ∨ prefix_oli l ≠ 0) : r.2.2.2 ≠ 0 := by
  cases gas with
  | zero => exact Except.noConfusion h
  | succ g =>
    have hl : 0 < l.length := by
      rcases hpre with hp | hp
      · exact prefix_uli_len l hp
      · exact prefix_oli_len l hp
    unfold parse_listitem at h
    simp only [] at h
    split at h
    · obtain ⟨a, ha, h⟩ := bind_ok _ _ _ h
      cases h
      refine listitemLoop_pos cfg l (spaces3 l) l.length _ _ _ _ _ _ _ ?_
      unfold lineEnd
      omega
    · rename_i hu
      split at h
      · rename_i ho
        rcases hpre with hp | hp
        · exact absurd hp hu
        · exact absurd ho hp
      · obtain ⟨a, ha, h⟩ := bind_ok _ _ _ h
        cases h
        refine listitemLoop_pos cfg l (spaces3 l) l.length _ _ _ _ _ _ _ ?_
        unfold lineEnd
        omega

theorem parse_listLoop_ge (gas : Nat) : ∀ cfg st work l fl i r,
    parse_listLoop gas cfg st work l fl i = .ok r → i ≤ r.2.2.2 := by
  induction gas with
  | zero =>
    intro cfg st work l fl i r h
    exact Except.noConfusion h
  | succ g ih =>
    intro cfg st work l fl i r h
    unfold parse_listLoop at h
    simp only [] at h
    split at h
    · obtain ⟨a, ha, h⟩ := bind_ok _ _ _ h
      split at h
      · cases h
        exact Nat.le_add_right i _
      · have h2 := ih _ _ _ _ _ _ _ h
        omega
    · cases h
      exact Nat.le_refl i

theorem parse_listLoop_start_pos (gas : Nat) (cfg : Config) (st : MDState)
    (work l : List Nat) (fl : ListFlags) (r : MDState × List Nat × ListFlags × Nat)
    (h : parse_listLoop gas cfg st work l fl 0 = .ok r)
    (hpre : prefix_uli l ≠ 0 ∨ prefix_oli l ≠ 0) : r.2.2.2 ≠ 0 := by
  cases gas with
  | zero => exact Except.noConfusion h
  | succ g =>
    have hl : 0 < l.length := by
      rcases hpre with hp | hp
      · exact prefix_uli_len l hp
      · exact prefix_oli_len l hp
    unfold parse_listLoop at h
    simp only [] at h
    rw [if_pos hl] at h
    obtain ⟨a, ha, h⟩ := bind_ok _ _ _ h
    have hj : a.2.2.2 ≠ 0 := by
      refine parse_listitem_pos g cfg st work (l.drop 0) fl a ha ?_
      rw [List.drop_zero]
      exact hpre
    split at h
    · cases h
      show 0 + a.2.2.2 ≠ 0
      omega
    · have h2 := parse_listLoop_ge g _ _ _ _ _ _ _ h
      omega

/-- A list region makes `parse_list` consume at least the first item
line. -/
theorem parse_list_pos (gas : Nat) (cfg : Config) (st : MDState)
    (ob l : List Nat) (fl : ListFlags) (r : MDState × List Nat × Nat)
    (h : parse_list gas cfg st ob l fl = .ok r)
    (hpre : prefix_uli l ≠ 0 ∨ prefix_oli l ≠ 0) : r.2.2 ≠ 0 := by
  cases gas with
  | zero => exact Except.noConfusion h
  | succ g =>
    unfold parse_list at h
    simp only [] at h
    obtain ⟨a, ha, h⟩ := bind_ok _ _ _ h
    have h2 := parse_listLoop_start_pos g _ _ _ _ _ _ ha hpre
    cases h
    exact h2

/-- The length consumed by `parse_htmlblock` depends only on the
input region, not on the output buffer nor on `do_render`
(markdown.c:2605-2705: `ob` and `do_render` only affect emission). -/
theorem parse_htmlblock_snd (cfg : Config) (ob ob2 l : List Nat) (dr dr2 : Bool) :
    (parse_htmlblock cfg ob l dr).2 = (parse_htmlblock cfg ob2 l dr2).2 := by
  unfold parse_htmlblock
  simp only []
  by_cases h1 : l.length < 2 ∨ bget l 0 ≠ 60
  · rw [if_pos h1, if_pos h1]
  · rw [if_neg h1, if_neg h1]
    by_cases h2 : scanW (fun c => !(c == 62) && !(c == 32)) l 1 l.length < l.length ∧
        cfg.findBlockTag
          (win l 1 (scanW (fun c => !(c == 62) && !(c == 32)) l 1 l.length - 1)) = true
    · rw [if_pos h2]
      simp only []
      split
      · split
        · rfl
        · rfl
      · split
        · rfl
        · rfl
    · rw [if_neg h2]
      simp only []
      by_cases h3 : l.length > 5 ∧ bget l 1 = 33 ∧ bget l 2 = 45 ∧ bget l 3 = 45
      · rw [if_pos h3, if_pos h3]
        by_cases h4 : (if commentScan l l.length 5 + 1 < l.length then
            is_empty (l.drop (commentScan l l.length 5 + 1)) else 0) ≠ 0
        · rw [if_pos h4, if_pos h4]
        · rw [if_neg h4, if_neg h4]
          simp only []
          split
          · split
            · split
              · rfl
              · rfl
            · rfl
          · rfl
      · rw [if_neg h3, if_neg h3]
        simp only []
        split
        · split
          · split
            · rfl
            · rfl
          · rfl
        · rfl

/-- The rule tail of `parse_block` always consumes at least one byte
on a non-empty region. -/
theorem parse_blockRules_pos (gas : Nat) (cfg : Config)
    (tb : MDState × List Nat × Nat) (txt : List Nat) (th : Bool)
    (r : MDState × List Nat × Nat)
    (h : parse_blockRules gas cfg tb txt th = .ok r)
    (hth : th = true → tb.2.2 ≠ 0)
    (hl : 0 < txt.length)
    (hatx : is_atxheader cfg txt = false)
    (hhr : is_hrule txt = false)
    (hhtml : ¬ (bget txt 0 = 60 ∧ cfg.cb.blockhtml.isSome = true ∧
      (parse_htmlblock cfg tb.2.1 txt false).2 ≠ 0))
    (hfen : ¬ (cfg.ext.fencedCode = true ∧ (is_codefence txt).1 ≠ 0)) :
    r.2.2 ≠ 0 := by
  cases gas with
  | zero => exact Except.noConfusion h
  | succ g =>
    unfold parse_blockRules at h
    split at h
    · rename_i hc
      cases h
      exact hth hc
    · split at h
      · exact parse_blockquote_pos g cfg tb.1 tb.2.1 txt r h hl
      · split at h
        · rename_i hq hc
          cases h
          exact parse_blockcode_pos cfg tb.1 tb.2.1 txt hc
        · split at h
          · rename_i hq hc hu
            exact parse_list_pos g cfg tb.1 tb.2.1 txt _ r h (Or.inl hu)
          · split at h
            · rename_i hq hc hu ho
              exact parse_list_pos g cfg tb.1 tb.2.1 txt _ r h (Or.inr ho)
            · rename_i hq hc hu ho
              refine parse_paragraph_pos g cfg tb.1 tb.2.1 txt r h hl hatx hhr
                ?_ ?_ ?_ hhtml hfen
              · omega
              · omega
              · omega

/-- One rule application of `parse_block` at an in-range offset always
consumes at least one byte: the C rule loop advances on every
iteration. -/
theorem parse_blockStep_pos (gas : Nat) (cfg : Config) (st : MDState)
    (ob l : List Nat) (beg : Nat) (r : MDState × List Nat × Nat)
    (h : parse_blockStep gas cfg st ob l beg = .ok r) (hb : beg < l.length) :
    r.2.2 ≠ 0 := by
  cases gas with
  | zero => exact Except.noConfusion h
  | succ g =>
    have hlen : 0 < (l.drop beg).length := by
      rw [List.length_drop]
      omega
    have hb0 : bget (l.drop beg) 0 = bget l beg := by
      unfold bget
      rw [List.getD_eq_getElem?_getD, List.getD_eq_getElem?_getD, List.getElem?_drop,
        Nat.add_zero]
    unfold parse_blockStep at h
    simp only [] at h
    split at h
    · rename_i hatx
      exact parse_atxheader_pos g cfg st ob (l.drop beg) r h hatx hlen
    · rename_i hatx
      split at h
      · rename_i hhtml
        cases h
        exact hhtml.2.2
      · rename_i hhtml
        split at h
        · rename_i hemp
          cases h
          exact hemp
        · rename_i hemp
          split at h
          · cases h
            have := scanW_ge (fun c => !(c == 10)) l beg l.length
            show scanW (fun c => !(c == 10)) l beg l.length + 1 - beg ≠ 0
            omega
          · rename_i hhru
            split at h
            · rename_i hfen
              cases h
              exact hfen.2
            · rename_i hfen
              obtain ⟨tb, htb, h⟩ := bind_ok _ _ _ h
              have hatx2 : is_atxheader cfg (l.drop beg) = false :=
                Bool.eq_false_iff.mpr hatx
              have hhru2 : is_hrule (l.drop beg) = false :=
                Bool.eq_false_iff.mpr hhru
              have hhtml2 : ¬ (bget (l.drop beg) 0 = 60 ∧
                  cfg.cb.blockhtml.isSome = true ∧
                  (parse_htmlblock cfg tb.2.1 (l.drop beg) false).2 ≠ 0) := by
                intro hc
                refine hhtml ⟨?_, hc.2.1, ?_⟩
                · rw [← hb0]
                  exact hc.1
                · rw [parse_htmlblock_snd cfg ob tb.2.1 (l.drop beg) true false]
                  exact hc.2.2
              have hfen2 : ¬ (cfg.ext.fencedCode = true ∧
                  (is_codefence (l.drop beg)).1 ≠ 0) := by
                intro hc
                exact hfen ⟨hc.1, parse_fencedcode_pos cfg st ob (l.drop beg) hc.2⟩
              have hth : (cfg.ext.tables && !(tb.2.2 == 0)) = true → tb.2.2 ≠ 0 := by
                intro hc hc2
                rw [hc2] at hc
                simp at hc
              exact parse_blockRules_pos g cfg tb (l.drop beg) _ r h hth hlen
                hatx2 hhru2 hhtml2 hfen2

theorem bind_err {α β : Type} (e : Except Fail α) (f : α → Except Fail β)
    (h : (e >>= f) = .error .progress) :
    e = .error .progress ∨ ∃ a, e = .ok a ∧ f a = .error .progress := by
  cases e with
  | ok a => exact Or.inr ⟨a, rfl, h⟩
  | error x =>
    have hx : x = Fail.progress := Except.error.inj h
    exact Or.inl (by rw [hx])

theorem noProg_zero : NoProg 0 := by
  constructor
  all_goals intros
  all_goals (try rename_i h)
  all_goals (try intro h)
  all_goals simp only [parse_inline, parse_inlineLoop, charTrigger, char_emphasis,
    parse_emph1, parse_emph1Loop, parse_emph2, parse_emph2Loop, parse_emph3,
    parse_emph3Loop, char_superscript, char_link, charLinkRest, parse_block,
    parse_blockLoop, parse_blockStep, parse_blockRules, parse_atxheader,
    parse_blockquote, parse_paragraph, parse_list, parse_listLoop, parse_listitem,
    parse_listitemInter, parse_table, parse_tableRows, parse_table_header,
    parse_table_row, parse_tableCells, parse_footnote_def, parse_footnoteItems,
    parse_footnote_list] at h
  all_goals first
    | exact Fail.noConfusion (Except.error.inj h)
    | exact Except.noConfusion h
    | exact h.elim
    | (split at h
       · exact Except.noConfusion h
       · exact Fail.noConfusion (Except.error.inj h))

set_option maxHeartbeats 1600000 in
theorem noProg_step (g : Nat) (ih : NoProg g) : NoProg (g + 1) := by
  have hbloop : ∀ cfg st ob l beg,
      parse_blockLoop (g + 1) cfg st ob l beg ≠ Except.error Fail.progress := by
    intro cfg st ob l beg h
    unfold parse_blockLoop at h
    split at h
    · rename_i hbl
      rcases bind_err _ _ h with h | ⟨a, ha, h⟩
      · exact ih.pbstep _ _ _ _ _ h
      · split at h
        · rename_i hz
          exact absurd hz (parse_blockStep_pos g cfg st ob l beg a ha hbl)
        · exact ih.pbloop _ _ _ _ _ h
    · exact Except.noConfusion h
  have hstep : ∀ cfg st ob l beg,
      parse_blockStep (g + 1) cfg st ob l beg ≠ Except.error Fail.progress := by
    intro cfg st ob l beg h
    unfold parse_blockStep at h
    simp only [] at h
    split at h
    · exact ih.patx _ _ _ _ h
    · split at h
      · exact Except.noConfusion h
      · split at h
        · exact Except.noConfusion h
        · split at h
          · exact Except.noConfusion h
          · split at h
            · exact Except.noConfusion h
            · rcases bind_err _ _ h with h | ⟨a, ha, h⟩
              · split at h
                · exact ih.ptable _ _ _ _ h
                · exact Except.noConfusion h
              · exact ih.pbrules _ _ _ _ h
  have hrules : ∀ cfg tb txt th,
      parse_blockRules (g + 1) cfg tb txt th ≠ Except.error Fail.progress := by
    intro cfg tb txt th h
    unfold parse_blockRules at h
    split at h
    · exact Except.noConfusion h
    · split at h
      · exact ih.pbq _ _ _ _ h
      · split at h
        · exact Except.noConfusion h
        · split at h
          · exact ih.plist _ _ _ _ _ h
          · split at h
            · exact ih.plist _ _ _ _ _ h
            · exact ih.ppar _ _ _ _ h
  constructor
  case pbloop => exact hbloop
  case pbstep => exact hstep
  case pbrules => exact hrules
  all_goals intros
  all_goals (try rename_i h)
  all_goals (try intro h)
  all_goals (first
    | simp only [parse_inlineLoop] at h
    | simp only [parse_inline] at h
    | simp only [charTrigger] at h
    | simp only [char_emphasis] at h
    | simp only [parse_emph1Loop] at h
    | simp only [parse_emph1] at h
    | simp only [parse_emph2Loop] at h
    | simp only [parse_emph2] at h
    | simp only [parse_emph3Loop] at h
    | simp only [parse_emph3] at h
    | simp only [char_superscript] at h
    | simp only [char_link] at h
    | simp only [charLinkRest] at h
    | simp only [parse_block] at h
    | simp only [parse_atxheader] at h
    | simp only [parse_blockquote] at h
    | simp only [parse_paragraph] at h
    | simp only [parse_listLoop] at h
    | simp only [parse_listitemInter] at h
    | simp only [parse_listitem] at h
    | simp only [parse_list] at h
    | simp only [parse_tableRows] at h
    | simp only [parse_table_header] at h
    | simp only [parse_tableCells] at h
    | simp only [parse_table_row] at h
    | simp only [parse_table] at h
    | simp only [parse_footnote_def] at h
    | simp only [parse_footnoteItems] at h
    | simp only [parse_footnote_list] at h)
  all_goals
  repeat' (first
    | split at h
    | simp only [] at h
    | exact Except.noConfusion h
    | exact Fail.noConfusion (Except.error.inj h)
    | (rcases bind_err _ _ h with h | ⟨a, ha, h⟩)
    | exact ih.pinline _ _ _ _ h
    | exact ih.piloop _ _ _ _ _ _ h
    | exact ih.ctrig _ _ _ _ _ _ h
    | exact ih.cemph _ _ _ _ _ h
    | exact ih.pe1 _ _ _ _ _ _ h
    | exact ih.pe1l _ _ _ _ _ _ _ h
    | exact ih.pe2 _ _ _ _ _ _ h
    | exact ih.pe2l _ _ _ _ _ _ _ _ h
    | exact ih.pe3 _ _ _ _ _ _ h
    | exact ih.pe3l _ _ _ _ _ _ _ h
    | exact ih.csup _ _ _ _ _ h
    | exact ih.clink _ _ _ _ _ h
    | exact ih.clrest _ _ _ _ _ _ _ _ _ _ _ h
    | exact ih.pblock _ _ _ _ h
    | exact ih.pbloop _ _ _ _ _ h
    | exact ih.pbstep _ _ _ _ _ h
    | exact ih.pbrules _ _ _ _ h
    | exact ih.patx _ _ _ _ h
    | exact ih.pbq _ _ _ _ h
    | exact ih.ppar _ _ _ _ h
    | exact ih.plist _ _ _ _ _ h
    | exact ih.plloop _ _ _ _ _ _ h
    | exact ih.plitem _ _ _ _ _ h
    | exact ih.pliInter _ _ _ _ _ h
    | exact ih.ptable _ _ _ _ h
    | exact ih.ptrows _ _ _ _ _ _ _ h
    | exact ih.pthead _ _ _ _ h
    | exact ih.ptrow _ _ _ _ _ _ _ h
    | exact ih.ptcells _ _ _ _ _ _ _ _ _ h
    | exact ih.pfdef _ _ _ _ _ h
    | exact ih.pfitems _ _ _ _ h
    | exact ih.pflist _ _ _ h)

/-- No cluster function produces `Fail.progress` at any gas level:
every loop of the recursive parser advances. -/
theorem noProgAll : ∀ gas, NoProg gas := by
  intro gas
  induction gas with
  | zero => exact noProg_zero
  | succ g ih => exact noProg_step g ih

theorem pass1Newlines_adv (d : List Nat) (fuel e : Nat) (text : List Nat)
    (hfuel : 0 < fuel) (he : e < d.length) (hb : bget d e = 10 ∨ bget d e = 13) :
    e < (pass1Newlines d fuel e text).2 := by
  obtain ⟨m, hm⟩ : ∃ m, fuel = m + 1 := ⟨fuel - 1, by omega⟩
  subst hm
  unfold pass1Newlines
  simp only []
  rw [if_pos ⟨he, hb⟩]
  have := pass1Newlines_ge d m (e + 1)
    (if bget d e = 10 ∨ (e + 1 < d.length ∧ bget d (e + 1) ≠ 10) then text ++ [10]
     else text)
  omega

/-- Every iteration of the pass-1 line loop advances: the loop never
produces `Fail.progress`. -/
theorem pass1Loop_noprog (gas : Nat) : ∀ cfg d beg text st,
    pass1Loop gas cfg d beg text st ≠ .error .progress := by
  induction gas with
  | zero =>
    intro cfg d beg text st h
    exact Fail.noConfusion (Except.error.inj h)
  | succ g ih =>
    intro cfg d beg text st h
    unfold pass1Loop at h
    simp only [] at h
    split at h
    · rename_i hbl
      split at h
      · rename_i fr hfr
        split at h
        · rename_i hle
          have hgt : beg < fr.1 := by
            split at hfr
            · exact is_footnote_gt d beg d.length fr hfr
            · exact Option.noConfusion hfr
          omega
        · exact ih _ _ _ _ _ h
      · split at h
        · rename_i rr hrr
          split at h
          · rename_i hle
            have hgt := is_ref_gt d beg d.length rr hrr
            omega
          · exact ih _ _ _ _ _ h
        · split at h
          · rename_i hgt
            split at h
            · rename_i hle
              have hnge := pass1Newlines_ge d d.length
                (scanW (fun c => !(c == 10) && !(c == 13)) d beg d.length)
                (expand_tabs text
                  (win d beg (scanW (fun c => !(c == 10) && !(c == 13)) d beg d.length - beg)))
              omega
            · exact ih _ _ _ _ _ h
          · rename_i hgt
            split at h
            · rename_i hle
              have hsge := scanW_ge (fun c => !(c == 10) && !(c == 13)) d beg d.length
              have heq : scanW (fun c => !(c == 10) && !(c == 13)) d beg d.length = beg := by
                omega
              have hstop : ((fun c => !(c == 10) && !(c == 13)) (bget d beg)) = false := by
                have h2 := scanW_stop_false (fun c => !(c == 10) && !(c == 13)) d beg d.length
                  (Nat.le_refl _) (by omega)
                rw [heq] at h2
                exact h2
              have hor : bget d beg = 10 ∨ bget d beg = 13 := by
                simp at hstop
                omega
              rw [heq] at hle
              have hadv := pass1Newlines_adv d d.length beg text (by omega) hbl hor
              omega
            · exact ih _ _ _ _ _ h
    · exact Except.noConfusion h

/-- C4: `sd_markdown_render` never returns `Fail.progress`, for every
input document, callback table, gas budget and `max_nesting`: every
loop of the pass-1 line scanner, of the `parse_block` rule loop and of
`parse_inline` advances on every iteration — the embedding maps each
C loop iteration that would fail to advance (an infinite loop in the C
code) to `Fail.progress`, so the render has no infinite loop; the
remaining fuel bound is the resource part of the claim, which the
fuelled embedding does not measure. -/
theorem C4_render_progress (gas : Nat) (cfg : Config) (ob d : List Nat) :
    sd_markdown_render gas cfg ob d ≠ .error .progress := by
  intro h
  unfold sd_markdown_render at h
  rcases bind_err _ _ h with h | ⟨p, hp, h⟩
  · unfold pass1 at h
    exact pass1Loop_noprog gas cfg d _ [] {} h
  · unfold pass2 at h
    simp only [] at h
    rcases bind_err _ _ h with h | ⟨a, ha, h⟩
    · split at h
      · exact (noProgAll gas).pblock _ _ _ _ h
      · exact Except.noConfusion h
    · rcases bind_err _ _ h with h | ⟨b, hb, h⟩
      · split at h
        · rcases bind_err _ _ h with h | ⟨c, hc, h⟩
          · exact (noProgAll gas).pflist _ _ _ h
          · exact Except.noConfusion h
        · exact Except.noConfusion h
      · exact Except.noConfusion h

/-- Witness for C4 at a concrete render. -/
theorem C4_witness :
    sd_markdown_render 50 { cb := {} } [] [97] ≠ Except.error Fail.progress :=
  C4_render_progress 50 { cb := {} } [] [97]

/-! ### C8: the nesting guard -/

/-- C8: whenever `parse_block` or `parse_inline` is entered with
`work_bufs[BUFFER_SPAN].size + work_bufs[BUFFER_BLOCK].size >
max_nesting`, it returns immediately with the output buffer and parser
state unchanged — for every callback table, so in particular no
callback is invoked — capping the combined block+span recursion at
`max_nesting`. -/
theorem C8_nesting_guard :
    (∀ gas cfg st (ob l : List Nat),
      st.spanSize + st.blockSize > cfg.maxNesting →
      parse_block gas cfg st ob l = .ok (ob, st)) ∧
    (∀ gas cfg st (ob w : List Nat),
      st.spanSize + st.blockSize > cfg.maxNesting →
      parse_inline gas cfg st ob w = .ok (ob, st)) := by
  refine ⟨?_, ?_⟩
  · intro gas cfg st ob l h
    unfold parse_block
    simp [h]
  · intro gas cfg st ob w h
    unfold parse_inline
    simp [h]

/-- Witness for C8: with `max_nesting = 4` and a pool already 5 deep,
both entry points return the untouched buffer and state. -/
theorem C8_witness :
    parse_block 3 { cb := {}, maxNesting := 4 } { spanSize := 5 } [7] [97]
        = .ok ([7], { spanSize := 5 }) ∧
    parse_inline 3 { cb := {}, maxNesting := 4 } { spanSize := 5 } [7] [97]
        = .ok ([7], { spanSize := 5 }) :=
  ⟨C8_nesting_guard.1 3 { cb := {}, maxNesting := 4 } { spanSize := 5 } [7] [97]
      (by decide),
   C8_nesting_guard.2 3 { cb := {}, maxNesting := 4 } { spanSize := 5 } [7] [97]
      (by decide)⟩

/-- C6: the entity trigger does NOT implement the regular expression
`&#?[A-Za-z0-9]+;` of the spec and of the code's own comment
(markdown.c:977): on the input `"&;"` — no alphanumeric byte between
`&` and `;` — `char_entity` consumes 2 bytes and appends the whole
span `&;` raw, while the regular expression rejects it (consumed
prefix 0), under which the lone `&` should have been emitted literally
by the normal-text path. -/
theorem C6_entity_accepts_empty_name :
    char_entity { cb := {} } [] [38, 59] = ([38, 59], 2) ∧
    entityRegexConsumed [38, 59] = 0 := by
  constructor
  · rfl
  · rfl

theorem escapeByteSpec_of_clean (secure : Bool) (c : Nat)
    (h : houdiniClean c = true) : escapeByteSpec secure c = [c] := by
  unfold houdiniClean HTML_ESCAPE_TABLE at h
  unfold escapeByteSpec
  split_ifs <;> simp_all

theorem flatMap_escape_takeWhile (secure : Bool) (l : List Nat) :
    (l.takeWhile houdiniClean).flatMap (escapeByteSpec secure)
      = l.takeWhile houdiniClean := by
  induction l with
  | nil => simp
  | cons c cs ih =>
    by_cases h : houdiniClean c
    · simp [List.takeWhile_cons_of_pos h, escapeByteSpec_of_clean secure c h, ih]
    · simp [List.takeWhile_cons_of_neg h]

theorem escapeByteSpec_of_dirty (secure : Bool) (c : Nat)
    (h : ¬ houdiniClean c = true) :
    escapeByteSpec secure c
      = (if c = 47 ∧ secure = false then [47]
         else HTML_ESCAPES (HTML_ESCAPE_TABLE c)) := by
  unfold houdiniClean HTML_ESCAPE_TABLE at h
  unfold escapeByteSpec HTML_ESCAPES HTML_ESCAPE_TABLE
  split_ifs <;> simp_all

theorem houdiniLoop_spec (secure : Bool) :
    ∀ fuel rest ob, rest.length ≤ fuel →
      houdiniLoop secure fuel rest ob
        = ob ++ rest.flatMap (escapeByteSpec secure) := by
  intro fuel
  induction fuel with
  | zero =>
    intro rest ob h
    have : rest = [] := List.length_eq_zero.mp (Nat.le_zero.mp h)
    subst this; simp [houdiniLoop]
  | succ n ih =>
    intro rest ob h
    match rest with
    | [] => simp [houdiniLoop]
    | r :: rs =>
      rw [houdiniLoop]
      have hsplit : (r :: rs).takeWhile houdiniClean ++ (r :: rs).dropWhile houdiniClean
          = r :: rs := List.takeWhile_append_dropWhile houdiniClean (r :: rs)
      cases hdw : (r :: rs).dropWhile houdiniClean with
      | nil =>
        rw [hdw] at hsplit
        simp only [List.append_nil] at hsplit
        simp only [hdw]
        rw [(by rw [hsplit] : ((r :: rs).takeWhile houdiniClean).flatMap (escapeByteSpec secure) = (r :: rs).flatMap (escapeByteSpec secure)).symm]
        rw [flatMap_escape_takeWhile, hsplit]
      | cons c rest2 =>
        have hdirty : ¬ houdiniClean c = true := by
          have h0 := List.head?_dropWhile_not houdiniClean (r :: rs)
          rw [hdw] at h0
          simp only [List.head?_cons] at h0
          simp [h0]
        have hlen : rest2.length ≤ n := by
          have h1 : ((r :: rs).dropWhile houdiniClean).length ≤ (r :: rs).length :=
            (List.dropWhile_sublist houdiniClean).length_le
          rw [hdw] at h1
          simp at h1 h ⊢
          omega
        simp only [hdw]
        rw [ih rest2 _ hlen]
        conv_rhs => rw [← hsplit, hdw]
        rw [List.flatMap_append, List.flatMap_cons, flatMap_escape_takeWhile]
        rw [escapeByteSpec_of_dirty secure c hdirty]
        by_cases h47 : c = 47 ∧ secure = false
        · simp [h47]
        · simp only [h47, if_neg, if_false]
          simp

theorem bufprefixLoop_of_isPrefix :
    ∀ buf p : List Nat, buf <+: p → bufprefixLoop buf p = 0 := by
  intro buf
  induction buf with
  | nil => intro p _; rfl
  | cons b bs ih =>
    intro p hp
    cases p with
    | nil => exact absurd (List.eq_nil_of_prefix_nil hp) (List.cons_ne_nil b bs)
    | cons q qs =>
      rw [List.cons_prefix_cons] at hp
      simp [bufprefixLoop, hp.1, ih qs hp.2]

/-- C9: `houdini_escape_html0` appends to the output exactly the
byte-for-byte image of `src` in which `&` becomes `&amp;`, `<` becomes
`&lt;`, `>` becomes `&gt;`, `"` becomes `&quot;`, `'` becomes `&#39;`,
`/` becomes `&#47;` when secure and stays `/` otherwise, and every other
byte is copied unchanged in source order (assuming the initial buffer
growth succeeds). -/
theorem C9_escape_html_per_byte (ob src : List Nat) (secure : Bool) :
    houdini_escape_html0 ob src secure = ob ++ src.flatMap (escapeByteSpec secure) :=
  houdiniLoop_spec secure src.length src ob (Nat.le_refl _)

/-- C10: `bufprefix(buf, prefix)` compares only the buffer's `size`
bytes and returns 0 whenever those bytes are a prefix of the prefix
string — also when the buffer is strictly shorter — so
`rndr_autolink`'s mailto detection (`bufprefix(link, "mailto:") == 0`)
also succeeds on any non-empty link buffer that is a proper prefix of
`"mailto:"`. -/
theorem C10_bufprefix_on_prefixes :
    (∀ buf p : List Nat, buf <+: p → bufprefix buf p = 0) ∧
    (∀ link : List Nat, link ≠ [] → link <+: mailtoBytes →
      rndrAutolinkMailtoDetected link = true) := by
  constructor
  · exact fun buf p hp => bufprefixLoop_of_isPrefix buf p hp
  · intro link _ hp
    unfold rndrAutolinkMailtoDetected bufprefix
    rw [bufprefixLoop_of_isPrefix link mailtoBytes hp]
    rfl

/-- Witness for C10 at the concrete link `"mail"`, a proper prefix of
`"mailto:"`. -/
theorem C10_witness :
    bufprefix [109, 97, 105, 108] mailtoBytes = 0 ∧
    rndrAutolinkMailtoDetected [109, 97, 105, 108] = true :=
  ⟨C10_bufprefix_on_prefixes.1 [109, 97, 105, 108] mailtoBytes (by decide),
   C10_bufprefix_on_prefixes.2 [109, 97, 105, 108] (by decide) (by decide)⟩

end Sundown
